import Mathlib

/-!
AudioSlicer: energy-based voice-activity segmentation.

A shallow embedding of `wave.h` and `slicer.h` and theorems about it.

Conventions of the embedding.

* "Exact arithmetic": every `float` / `double` quantity of the source is a rational number
  (`ℚ`); `int` / `long` quantities are integers (`Int`), none of which comes near the
  machine range in the properties proved here.
* `static_cast<int>` and `static_cast<long>` of a real value truncate toward zero
  (`truncToInt`); integer division of the source is C division (`Int.tdiv`).
* Reading a `std::vector<int>` element outside `[0, size)` is undefined behaviour in the
  source.  The embedding makes it an explicit fault (`Fault.out_of_range`), so that a result
  `Except.ok _` certifies that every element read was inside the vector.
* A C++ exception leaving a function is a fault: `Fault.runtime_error` for the
  `std::runtime_error` that `save_vocals` throws, `Fault.bad_array_new_length` for the
  `std::bad_array_new_length` of an array allocation of negative length.
* The collaborators that are not part of the repository (libsndfile, libsamplerate) and the
  energy profile, whose values need `sqrt` and `log10`, are fields of `Env`.
* Loops are structurally recursive on a fuel argument; running out of fuel is the fault
  `Fault.out_of_fuel`, so a result `Except.ok _` also certifies that the fuel was enough.
-/

namespace AudioSlicer

/-! ## Constants and analysis parameters (`wave.h`) -/

/-- The value `static_cast<int>(q)`: truncation toward zero. -/
def truncToInt (q : ℚ) : Int := Int.tdiv q.num q.den

def BASE_DBFS : ℚ := -36
def BASE_SIL : ℚ := -6
def MIN_SIL_THRESH : ℚ := -6
def BASE_FFT_SR : Int := 48000
def BASE_NFFT : Int := 1024
def BASE_WIN_LENGTH : Int := 1024
def BASE_HOP_LENGTH : Int := 256

/-- The struct `FFTParams`. -/
structure FFTParams where
  n_fft : Int
  win_length : Int
  hop_length : Int
deriving DecidableEq, Repr

/-- The function `get_fft_params_from_sr`: the reference sizes scaled by `sr / 48000`. -/
def get_fft_params_from_sr (sr : Int) : FFTParams :=
  let scale : ℚ := (sr : ℚ) / (BASE_FFT_SR : ℚ)
  { n_fft := truncToInt ((BASE_NFFT : ℚ) * scale)
    win_length := truncToInt ((BASE_WIN_LENGTH : ℚ) * scale)
    hop_length := truncToInt ((BASE_HOP_LENGTH : ℚ) * scale) }

/-- The data members of `WaveArray` that the segmentation uses. -/
structure WaveArray where
  buffer : List ℚ
  n_frames : Int
  sr : Int
  fftp : FFTParams
deriving DecidableEq

/-- The window count `num_padded_windows` of `WaveArray::compute_rms`, which it stores in
`rms_windows`: the length of the energy profile and of the voiced mask. -/
def rms_windows (fftp : FFTParams) (n_frames : Int) : Int :=
  let pad_size := Int.tdiv fftp.win_length 2
  Int.tdiv ((n_frames + 2 * pad_size) - fftp.win_length) fftp.hop_length + 1

/-- The method `WaveArray::set_dbfs`: the mean of the first `size` entries of the profile. -/
def set_dbfs (rms_buf : List ℚ) (size : Int) : ℚ :=
  (rms_buf.take size.toNat).sum / (size : ℚ)

/-- The method `WaveArray::compute_silence_threshold`, as a function of the member `dbfs`. -/
def compute_silence_threshold (dbfs : ℚ) : ℚ :=
  let perc_diff := (BASE_DBFS - dbfs) / BASE_DBFS
  let sil_thresh := BASE_SIL + BASE_SIL * perc_diff
  min sil_thresh MIN_SIL_THRESH + dbfs

/-- The method `WaveArray::get_vocal_windows`, as a function of what `compute_rms` returned:
`none` is the null pointer, `some rms` the energy profile (`rms_windows` is its length). -/
def get_vocal_windows (rms : Option (List ℚ)) : List Int :=
  match rms with
  | none => []
  | some rms =>
    let dbfs := set_dbfs rms rms.length
    let sil_dbfs_thresh := compute_silence_threshold dbfs
    rms.map (fun r => if r > sil_dbfs_thresh then 1 else 0)

/-! ## The segmentor (`slicer.h`) -/

def BUFFER_LIMIT_DURATION : ℚ := 60

/-- The fields of libsndfile's `SF_INFO` that the segmentor reads. -/
structure SF_INFO where
  frames : Int
  samplerate : Int
  channels : Int
deriving DecidableEq

/-- One call of `save_vocals` that reached `sf_write_float`: the file name, the value of
`n_vocal_splits` it was written under, and the sample range copied from the chunk. -/
structure Clip where
  fname : String
  split : Int
  start_sample : Int
  end_sample : Int
deriving DecidableEq, Repr

/-- The data members of `AudioSegmentor`.  The member `end` is `end_time` here.  The last
field is not a member of the class: it records, in order, the files written so far. -/
structure AudioSegmentor where
  save_dir : String
  processing_sr : Int
  perc_vocal_windows : ℚ
  window_pad : Int
  min_vocal_length : ℚ
  min_buffer_len : Int
  n_vocal_windows : Int
  n_vocal_splits : Int
  start : ℚ
  end_time : ℚ
  fftp : FFTParams
  written : List Clip
deriving DecidableEq

/-- The collaborators outside the repository.
* `sf_info`: what `sf_open` reports about the source file.
* `sf_seek pos`: the result of `sf_seek(sndfile, pos, SEEK_SET)`, `-1` on failure.
* `sf_readf_float pos n`: the number of frames read and the buffer contents, for a read of
  `n` frames at position `pos`.
* `src_process buf r len`: the resampled buffer, `none` when libsamplerate reports an error.
* `compute_rms wave`: the energy profile of the chunk (`none` is the null pointer).
* `sf_open_write fname`: whether opening `fname` for writing succeeds. -/
structure Env where
  sf_info : SF_INFO
  sf_seek : Int → Int
  sf_readf_float : Int → Int → Int × List ℚ
  src_process : List ℚ → ℚ → Int → Option (List ℚ)
  compute_rms : WaveArray → Option (List ℚ)
  sf_open_write : String → Bool

/-- Ways in which a call does not return normally. -/
inductive Fault where
  | out_of_range
  | runtime_error (st : AudioSegmentor)
  | bad_array_new_length (st : AudioSegmentor)
  | out_of_fuel
deriving DecidableEq

deriving instance DecidableEq for Except

/-- The constructor of `AudioSegmentor`. -/
def AudioSegmentor.init (env : Env) (save_dir : String) (processing_sr : Int)
    (min_vocal_length perc_vocal_windows : ℚ) : AudioSegmentor :=
  let fftp := get_fft_params_from_sr processing_sr
  let min_buffer_len :=
    truncToInt ((min_vocal_length * (processing_sr : ℚ)) / (fftp.hop_length : ℚ))
  { save_dir := save_dir
    processing_sr := processing_sr
    perc_vocal_windows := perc_vocal_windows
    window_pad := 3
    min_vocal_length := min_vocal_length
    min_buffer_len := min_buffer_len
    n_vocal_windows := truncToInt (perc_vocal_windows * (min_buffer_len : ℚ))
    n_vocal_splits := 0
    start := -BUFFER_LIMIT_DURATION
    end_time := (env.sf_info.frames : ℚ) / (env.sf_info.samplerate : ℚ)
    fftp := fftp
    written := [] }

/-- The default arguments of the constructor and of `main`. -/
def default_processing_sr : Int := 16000
def default_min_vocal_length : ℚ := 15 / 100
def default_perc_vocal_windows : ℚ := 2 / 10

/-! ### Reading a chunk -/

/-- The first loop of the normalisation in `load_next_buffer`: the running maximum of the
absolute sample values, started at `1e-6`. -/
def peak_value (buffer : List ℚ) : ℚ :=
  buffer.foldl (fun max_val x => max max_val |x|) (1 / 1000000)

/-- The normalisation of `load_next_buffer` on the samples it visits: when the maximum is
positive every sample is divided by it. -/
def peak_normalize (buffer : List ℚ) : List ℚ :=
  let max_val := peak_value buffer
  if max_val > 0 then buffer.map (fun x => x / max_val) else buffer

/-- The method `WaveArray::stereo_to_mono`: frame `i` becomes the mean of its two samples. -/
def stereo_to_mono (buffer : List ℚ) (n_frames : Int) : List ℚ :=
  (List.range n_frames.toNat).map
    (fun i => (buffer.getD (i * 2) 0 + buffer.getD (i * 2 + 1) 0) / 2)

/-- The constructor of `WaveArray` (the resampler handle is part of `Env`). -/
def WaveArray.init (buffer : List ℚ) (n_frames : Int) (sr : Int) (n_channels : Int)
    (fftp : FFTParams) : WaveArray :=
  { buffer := if n_channels = 2 then stereo_to_mono buffer n_frames else buffer
    n_frames := n_frames
    sr := sr
    fftp := fftp }

/-- The method `WaveArray::resample`: the returned flag and the wave afterwards. -/
def resample (env : Env) (wave : WaveArray) (target_sr : Int) : Int × WaveArray :=
  let scale : ℚ := (target_sr : ℚ) / (wave.sr : ℚ)
  let resampled_len := truncToInt (scale * (wave.n_frames : ℚ))
  match env.src_process wave.buffer scale resampled_len with
  | none => (0, wave)
  | some resampled_buffer =>
    (1, { wave with buffer := resampled_buffer, n_frames := resampled_len, sr := target_sr })

/-- What one successful call of `load_next_buffer` hands back: the wave, together with the
source frame range `[start_frame, start_frame + num_frames)` it was read from. -/
structure Chunk where
  start_frame : Int
  num_frames : Int
  wave : WaveArray
deriving DecidableEq

/-- The method `AudioSegmentor::load_next_buffer`: `none` is the null pointer.  Every path
through the body of its `while` returns, so the loop is a conditional. -/
def load_next_buffer (env : Env) (seg : AudioSegmentor) : Option Chunk × AudioSegmentor :=
  let seg := { seg with start := seg.start + BUFFER_LIMIT_DURATION }
  if seg.start < seg.end_time then
    let start_frame := truncToInt (seg.start * (env.sf_info.samplerate : ℚ))
    let end_frame := truncToInt
      (min (seg.start + BUFFER_LIMIT_DURATION) seg.end_time * (env.sf_info.samplerate : ℚ))
    let num_frames := end_frame - start_frame
    if env.sf_seek start_frame = -1 then (none, seg)
    else
      let rd := env.sf_readf_float start_frame num_frames
      let frames_read := rd.1
      if frames_read < num_frames then (none, seg)
      else
        let visited := (frames_read * env.sf_info.channels).toNat
        let buffer := peak_normalize (rd.2.take visited) ++ rd.2.drop visited
        let wave := WaveArray.init buffer frames_read env.sf_info.samplerate
          env.sf_info.channels seg.fftp
        let wave := (resample env wave seg.processing_sr).2
        (some { start_frame := start_frame, num_frames := num_frames, wave := wave }, seg)
  else (none, seg)

/-! ### Writing a segment -/

/-- The method `AudioSegmentor::get_save_filename`. -/
def get_save_filename (seg : AudioSegmentor) : String :=
  seg.save_dir ++ "/vocal_" ++ toString seg.n_vocal_splits ++ ".wav"

/-- The method `AudioSegmentor::save_vocals`.  It throws `std::runtime_error` when the
destination cannot be opened.  With the destination open, the allocation
`new float[end_sample - start_sample]` throws `std::bad_array_new_length` when the range is
negative; nothing has been written to the file then.  Otherwise the file is written, which
the embedding records as a `Clip` holding the sample range handed to `memcpy`. -/
def save_vocals (env : Env) (seg : AudioSegmentor) (vocal_start_window vocal_end_window : Int) :
    Except Fault AudioSegmentor :=
  let start_sample := vocal_start_window * seg.fftp.hop_length
  let end_sample := vocal_end_window * seg.fftp.hop_length
  let save_frames := end_sample - start_sample
  let fname := get_save_filename seg
  if env.sf_open_write fname = false then Except.error (Fault.runtime_error seg)
  else if save_frames < 0 then Except.error (Fault.bad_array_new_length seg)
  else
    Except.ok { seg with written := seg.written ++
      [{ fname := fname, split := seg.n_vocal_splits,
         start_sample := start_sample, end_sample := end_sample }] }

/-! ### The segmentation state machine -/

/-- The expression `vocal_windows[i]` for an `int` index `i` (converted to `size_t`, so a
negative index is far outside the vector). -/
def vec_at (vocal_windows : List Int) (i : Int) : Except Fault Int :=
  if 0 ≤ i ∧ i < (vocal_windows.length : Int) then Except.ok (vocal_windows.getD i.toNat 0)
  else Except.error Fault.out_of_range

/-- The `while` loop of `get_sil_start_idx` (`stop = 1`) and of `get_vocal_start_idx`
(`stop = 0`): the element is read first, then the index is compared with
`lowest = curr_idx - min_buffer_len`. -/
def scan_back (vocal_window : List Int) (stop : Int) (lowest : Int) :
    Nat → Int → Except Fault Int
  | 0, _ => Except.error Fault.out_of_fuel
  | fuel + 1, idx =>
    match vec_at vocal_window idx with
    | Except.error e => Except.error e
    | Except.ok x =>
      if x ≠ stop ∧ idx ≥ lowest then scan_back vocal_window stop lowest fuel (idx - 1)
      else Except.ok idx

/-- The method `AudioSegmentor::get_sil_start_idx`.  The loop decrements at most
`min_buffer_len + 1` times, so its test is evaluated at most that many times plus one. -/
def get_sil_start_idx (seg : AudioSegmentor) (vocal_window : List Int) (curr_idx : Int) :
    Except Fault Int :=
  match scan_back vocal_window 1 (curr_idx - seg.min_buffer_len)
      ((seg.min_buffer_len + 1).toNat + 1) curr_idx with
  | Except.error e => Except.error e
  | Except.ok sil_start => Except.ok (max (sil_start + seg.window_pad) curr_idx)

/-- The method `AudioSegmentor::get_vocal_start_idx`. -/
def get_vocal_start_idx (seg : AudioSegmentor) (vocal_window : List Int) (curr_idx : Int) :
    Except Fault Int :=
  match scan_back vocal_window 0 (curr_idx - seg.min_buffer_len)
      ((seg.min_buffer_len + 1).toNat + 1) curr_idx with
  | Except.error e => Except.error e
  | Except.ok vocal_start => Except.ok (max (vocal_start + seg.window_pad) curr_idx)

/-- The local variables of `split_array` that live across iterations of its `while` loop.
The last field is not a variable of the source: it records, oldest first, the value of `ptr`
and of `curr_window_duration` at every iteration that took the `change` branch. -/
structure Locals where
  window_sum : Int
  ptr : Int
  curr_vocal : Int
  curr_start_idx : Int
  curr_window_duration : ℚ
  transitions : List (Int × ℚ)
deriving DecidableEq

/-- The `for` loop of `split_array` that sums the first `min_buffer_len` mask entries:
`count` iterations remain, `i` is the loop index. -/
def initial_sum (vocal_windows : List Int) : Nat → Int → Int → Except Fault Int
  | 0, _, window_sum => Except.ok window_sum
  | count + 1, i, window_sum =>
    match vec_at vocal_windows i with
    | Except.error e => Except.error e
    | Except.ok x => initial_sum vocal_windows count (i + 1) (window_sum + x)

/-- One hop's worth of time, `static_cast<float>(hop_length) / processing_sr`. -/
def hop_duration (seg : AudioSegmentor) : ℚ :=
  (seg.fftp.hop_length : ℚ) / (seg.processing_sr : ℚ)

/-- One iteration of the `while` loop of `split_array`. -/
def split_step (env : Env) (vocal_windows : List Int) (seg : AudioSegmentor) (l : Locals) :
    Except Fault (AudioSegmentor × Locals) :=
  match vec_at vocal_windows l.ptr, vec_at vocal_windows (l.ptr - seg.min_buffer_len) with
  | Except.error e, _ => Except.error e
  | _, Except.error e => Except.error e
  | Except.ok entering, Except.ok leaving =>
    let window_sum := l.window_sum + entering - leaving
    let vocal : Int := if window_sum > seg.n_vocal_windows then 1 else 0
    if vocal ≠ l.curr_vocal ∧ l.curr_window_duration > seg.min_vocal_length then
      let transitions := l.transitions ++ [(l.ptr, l.curr_window_duration)]
      if l.curr_vocal ≠ 0 then
        match get_sil_start_idx seg vocal_windows l.ptr with
        | Except.error e => Except.error e
        | Except.ok vocal_end =>
          match save_vocals env seg l.curr_start_idx vocal_end with
          | Except.error e => Except.error e
          | Except.ok saved =>
            Except.ok ({ saved with n_vocal_splits := saved.n_vocal_splits + 1 },
              { window_sum := window_sum, ptr := l.ptr + 1, curr_vocal := vocal,
                curr_start_idx := vocal_end, curr_window_duration := hop_duration seg,
                transitions := transitions })
      else
        match get_vocal_start_idx seg vocal_windows l.ptr with
        | Except.error e => Except.error e
        | Except.ok sil_end =>
          Except.ok (seg,
            { window_sum := window_sum, ptr := l.ptr + 1, curr_vocal := vocal,
              curr_start_idx := sil_end, curr_window_duration := hop_duration seg,
              transitions := transitions })
    else
      Except.ok (seg,
        { l with window_sum := window_sum, ptr := l.ptr + 1,
                 curr_window_duration := l.curr_window_duration + hop_duration seg })

/-- The `while` loop of `split_array`.  Its test compares the `int` `ptr` with the unsigned
`vocal_windows.size()`, so a negative `ptr` fails it. -/
def split_loop (env : Env) (vocal_windows : List Int) :
    Nat → AudioSegmentor → Locals → Except Fault (AudioSegmentor × Locals)
  | fuel, seg, l =>
    if 0 ≤ l.ptr ∧ l.ptr < (vocal_windows.length : Int) then
      match fuel with
      | 0 => Except.error Fault.out_of_fuel
      | fuel + 1 =>
        match split_step env vocal_windows seg l with
        | Except.error e => Except.error e
        | Except.ok (seg, l) => split_loop env vocal_windows fuel seg l
    else Except.ok (seg, l)

/-- The method `AudioSegmentor::split_array` from the statement after the emptiness test up
to the end of the `while` loop, on the mask `vocal_windows` that `get_vocal_windows`
returned.  The result is the segmentor and the local variables at the exit of the loop. -/
def split_run (env : Env) (seg : AudioSegmentor) (vocal_windows : List Int) :
    Except Fault (AudioSegmentor × Locals) :=
  match initial_sum vocal_windows seg.min_buffer_len.toNat 0 0 with
  | Except.error e => Except.error e
  | Except.ok window_sum =>
    let vocal : Int := if window_sum > seg.n_vocal_windows then 1 else 0
    split_loop env vocal_windows vocal_windows.length seg
      { window_sum := window_sum, ptr := 0 + seg.min_buffer_len, curr_vocal := vocal,
        curr_start_idx := 0,
        curr_window_duration :=
          ((seg.fftp.hop_length : ℚ) * (seg.min_buffer_len : ℚ)) / (seg.processing_sr : ℚ),
        transitions := [] }

/-- The method `AudioSegmentor::split_array`, on the mask that `get_vocal_windows` returned.
The branch for an empty mask prints a message and releases the buffers of the wave; it has
no `return`, so the rest of the body runs on the empty mask as on any other. -/
def split_array (env : Env) (seg : AudioSegmentor) (vocal_windows : List Int) :
    Except Fault AudioSegmentor :=
  match split_run env seg vocal_windows with
  | Except.error e => Except.error e
  | Except.ok (seg, l) =>
    if l.curr_vocal ≠ 0 then
      match save_vocals env seg l.curr_start_idx l.ptr with
      | Except.error e => Except.error e
      | Except.ok saved => Except.ok { saved with n_vocal_splits := saved.n_vocal_splits + 1 }
    else Except.ok seg

/-- The method `AudioSegmentor::split_vocals`: the returned `int` and the segmentor
afterwards.  Each round of its `while (true)` consumes one unit of fuel. -/
def split_vocals (env : Env) : Nat → AudioSegmentor → Except Fault (Int × AudioSegmentor)
  | 0, _ => Except.error Fault.out_of_fuel
  | fuel + 1, seg =>
    match load_next_buffer env seg with
    | (none, seg) => if seg.start < seg.end_time then Except.ok (0, seg) else Except.ok (1, seg)
    | (some chunk, seg) =>
      match split_array env seg (get_vocal_windows (env.compute_rms chunk.wave)) with
      | Except.error e => Except.error e
      | Except.ok seg => split_vocals env fuel seg

/-- The body of `main` for one segmentor: the exit status it leads to (`1` when an
exception is caught).  An undefined read has no exit status. -/
def main_status (env : Env) (fuel : Nat) (save_dir : String) (processing_sr : Int) :
    Option Int :=
  match split_vocals env fuel
      (AudioSegmentor.init env save_dir processing_sr default_min_vocal_length
        default_perc_vocal_windows) with
  | Except.ok _ => some 0
  | Except.error (Fault.runtime_error _) => some 1
  | Except.error (Fault.bad_array_new_length _) => some 1
  | Except.error _ => none

/-! ## Definitions used in the statements and proofs -/

/-- Two segmentor states that differ at most in the split counter and the written files. -/
def same_config (a b : AudioSegmentor) : Prop :=
  b = { a with n_vocal_splits := b.n_vocal_splits, written := b.written }

/-- The window index of the latest committed transition, `0` before the first one. -/
def last_transition (ts : List (Int × ℚ)) : Int :=
  match ts.getLast? with
  | some t => t.1
  | none => 0

/-- The hysteresis invariant of the loop of `split_array`, for hop duration `hd`, minimum
vocal length `mvl` and minimum window count `m`. -/
def hysteresis_inv (hd mvl : ℚ) (m : Int) (l : Locals) : Prop :=
  l.curr_window_duration = hd * ((l.ptr - last_transition l.transitions : Int) : ℚ) ∧
  (∀ t ∈ l.transitions, 0 ≤ t.1 ∧ t.1 < l.ptr ∧ mvl < t.2 ∧ m < t.1) ∧
  List.Chain' (fun a b : Int × ℚ => a.1 + m + 1 ≤ b.1) l.transitions

/-- The split-counter invariant for the output directory `dir`: the counter equals the
number of files written, the `k`-th file written (0-based) was written under index `k`, and
every file is named `<dir>/vocal_<index>.wav`. -/
def counter_inv (dir : String) (seg : AudioSegmentor) : Prop :=
  seg.save_dir = dir ∧
  seg.n_vocal_splits = (seg.written.length : Int) ∧
  seg.written.map Clip.split = (List.range seg.written.length).map Int.ofNat ∧
  ∀ c ∈ seg.written, c.fname = dir ++ "/vocal_" ++ toString c.split ++ ".wav"

/-- The start-index invariant of the loop of `split_array`, for the padding `pad`: the start
of the segment being built is at most `pad` windows after the last transition. -/
def start_inv (pad : Int) (l : Locals) : Prop :=
  l.curr_start_idx ≤ max (last_transition l.transitions + pad) (last_transition l.transitions)

/-- The result of call number `k` (0-based) among successive calls of `load_next_buffer`,
the first of them made in state `seg`. -/
def load_call (env : Env) (seg : AudioSegmentor) : Nat → Option Chunk × AudioSegmentor
  | 0 => load_next_buffer env seg
  | k + 1 => load_call env (load_next_buffer env seg).2 k

/-- The number of chunks planned for a source of `frames` frames at rate `samplerate`:
`⌈frames / (60 * samplerate)⌉`. -/
def chunk_count (frames samplerate : Int) : Nat :=
  ⌈(frames : ℚ) / (60 * (samplerate : ℚ))⌉.toNat

/-- The chunk that `load_next_buffer` builds once the seek to `start_frame` and the read of
`num_frames` frames have succeeded: normalised, down-mixed and resampled. -/
def loaded_chunk (env : Env) (seg : AudioSegmentor) (start_frame num_frames : Int) : Chunk :=
  let rd := env.sf_readf_float start_frame num_frames
  let visited := (rd.1 * env.sf_info.channels).toNat
  let buffer := peak_normalize (rd.2.take visited) ++ rd.2.drop visited
  let wave := WaveArray.init buffer rd.1 env.sf_info.samplerate env.sf_info.channels seg.fftp
  { start_frame := start_frame, num_frames := num_frames,
    wave := (resample env wave seg.processing_sr).2 }

/-- The first source frame of chunk number `k`. -/
def chunk_start (env : Env) (k : Nat) : Int := 60 * env.sf_info.samplerate * (k : Int)

/-- The number of source frames of chunk number `k`. -/
def chunk_frames (env : Env) (k : Nat) : Int :=
  min (60 * env.sf_info.samplerate * ((k : Int) + 1)) env.sf_info.frames - chunk_start env k

/-- Reading chunk number `k` fails: the seek fails or the read is short. -/
def chunk_fails (env : Env) (k : Nat) : Prop :=
  env.sf_seek (chunk_start env k) = -1 ∨
  (env.sf_readf_float (chunk_start env k) (chunk_frames env k)).1 < chunk_frames env k

instance (env : Env) (k : Nat) : Decidable (chunk_fails env k) := by
  unfold chunk_fails; infer_instance

/-- The largest absolute sample value of a buffer (`0` for the empty buffer). -/
def max_abs (buffer : List ℚ) : ℚ :=
  buffer.foldl (fun m x => max m |x|) 0

/-- The number of voiced windows among the first `n` windows of the mask
`silence_voice_silence a b c` (for any `n`, also outside the mask). -/
def ones_before (a b : Nat) (n : Int) : Int := min (max (n - (a : Int)) 0) (b : Int)

/-! ## Concrete inputs -/

/-- An environment for a mono source of `frames` frames at 16 kHz in which every seek, every
read and every open succeeds, the resampler returns its input, and the energy profile of
every chunk is `rms`.  The sample values, on which nothing proved here depends once the
energy profile is given, are left out of the buffers. -/
def plain_env (frames : Int) (rms : Option (List ℚ)) : Env where
  sf_info := { frames := frames, samplerate := 16000, channels := 1 }
  sf_seek := fun pos => pos
  sf_readf_float := fun _ n => (n, [])
  src_process := fun buffer _ _ => some buffer
  compute_rms := fun _ => rms
  sf_open_write := fun _ => true

/-- The segmentor that `main` constructs when no option is given, writing to `out`. -/
def default_segmentor (env : Env) : AudioSegmentor :=
  AudioSegmentor.init env "out" default_processing_sr default_min_vocal_length
    default_perc_vocal_windows

/-- The mask of `a` silent windows, then `b` voiced windows, then `c` silent windows. -/
def silence_voice_silence (a b c : Nat) : List Int :=
  List.replicate a 0 ++ List.replicate b 1 ++ List.replicate c 0

/-- An energy profile of 29 windows: 28 windows at -20 dBFS followed by one at -40 dBFS. -/
def loud_then_quiet : List ℚ := List.replicate 28 (-20) ++ [-40]

/-- A source of 90 seconds in which every chunk has the same uniform energy profile of 29
windows at -30 dBFS. -/
def two_chunk_env : Env := plain_env 1440000 (some (List.replicate 29 (-30)))

/-- The segmentor after the run on `two_chunk_env`: one file per chunk. -/
def two_chunk_result : AudioSegmentor :=
  { default_segmentor two_chunk_env with
    start := 120
    n_vocal_splits := 2
    written :=
      [{ fname := "out/vocal_0.wav", split := 0, start_sample := 0, end_sample := 2465 },
       { fname := "out/vocal_1.wav", split := 1, start_sample := 0, end_sample := 2465 }] }

/-- The environment `env` with every destination opening. -/
def open_all (env : Env) : Env := { env with sf_open_write := fun _ => true }

/-- Whether the destination of a clip can be opened in `env`. -/
def opens (env : Env) (c : Clip) : Bool := env.sf_open_write c.fname

/-- An environment like `plain_env`, except that `out/vocal_0.wav` cannot be opened. -/
def first_open_fails_env (frames : Int) (rms : Option (List ℚ)) : Env :=
  { plain_env frames rms with sf_open_write := fun fname => fname != "out/vocal_0.wav" }

/-- An energy profile with two loud regions of 29 windows, each between quiet stretches of
29 windows. -/
def two_regions : List ℚ :=
  List.replicate 29 (-60) ++ List.replicate 29 (-10) ++ List.replicate 29 (-60) ++
    List.replicate 29 (-10) ++ List.replicate 29 (-60)

/-- The relation between a call in `env`, with result `r`, and the same call in
`open_all env`, which returned `ry` and took the segmentor from `x` to `y`: the files `new`
written in `open_all env` are all written in `env` too and the results agree, unless `env`
cannot open one of them; then the call in `env` throws at the first such file, having
written exactly the files before it. -/
def lockstep {α : Type} (env : Env) (x y : AudioSegmentor) (r : Except Fault α) (ry : α) :
    Prop :=
  ∃ new, y.written = x.written ++ new ∧
    ((∀ c ∈ new, opens env c = true) → r = Except.ok ry) ∧
    (¬ (∀ c ∈ new, opens env c = true) →
      ∃ st, r = Except.error (Fault.runtime_error st) ∧
        st.written = x.written ++ new.takeWhile (opens env) ∧
        env.sf_open_write (get_save_filename st) = false)

/-- The segmentor after the run on a source of 90 seconds whose two chunks both have the
energy profile `two_regions`, when every destination opens: two files per chunk. -/
def two_regions_result : AudioSegmentor :=
  { default_segmentor (plain_env 1440000 (some two_regions)) with
    start := 120
    n_vocal_splits := 4
    written :=
      [{ fname := "out/vocal_0.wav", split := 0, start_sample := 2890, end_sample := 6800 },
       { fname := "out/vocal_1.wav", split := 1, start_sample := 9265, end_sample := 11730 },
       { fname := "out/vocal_2.wav", split := 2, start_sample := 2890, end_sample := 6800 },
       { fname := "out/vocal_3.wav", split := 3, start_sample := 9265, end_sample := 11730 }] }

/-- The constant `PAD_EPS = 1e-6 * 1e-6`. -/
def PAD_EPS : ℚ := 1 / 1000000 * (1 / 1000000)

/-- The expression `buffer[i]` for the sample buffer of a wave: the array has as many
elements as the list, and reading outside it is undefined behaviour. -/
def buffer_at (buffer : List ℚ) (i : Int) : Except Fault ℚ :=
  if 0 ≤ i ∧ i < (buffer.length : Int) then Except.ok (buffer.getD i.toNat 0)
  else Except.error Fault.out_of_range

/-- The inner loop of `compute_rms`, which accumulates `sum_q` over the positions
`j = start_idx, ..., end_idx - 1` of one window: `count` positions remain. -/
def window_sum_sq (wave : WaveArray) (extra_windows : Int) : Nat → Int → ℚ → Except Fault ℚ
  | 0, _, sum_q => Except.ok sum_q
  | count + 1, j, sum_q =>
    if j < extra_windows ∨ j > wave.n_frames + extra_windows then
      window_sum_sq wave extra_windows count (j + 1) (sum_q + PAD_EPS)
    else
      match buffer_at wave.buffer (j - extra_windows) with
      | Except.error e => Except.error e
      | Except.ok x => window_sum_sq wave extra_windows count (j + 1) (sum_q + x * x)

/-- The outer loop of `compute_rms` over the windows `i, i + 1, ...`: `count` windows
remain.  The function `to_db_sqrt` stands for `x ↦ to_db(std::sqrt(x))`. -/
def rms_loop (to_db_sqrt : ℚ → ℚ) (wave : WaveArray) (extra_windows : Int) :
    Nat → Int → Except Fault (List ℚ)
  | 0, _ => Except.ok []
  | count + 1, i =>
    let start_idx := i * wave.fftp.hop_length
    match window_sum_sq wave extra_windows wave.fftp.win_length.toNat start_idx 0 with
    | Except.error e => Except.error e
    | Except.ok sum_q =>
      match rms_loop to_db_sqrt wave extra_windows count (i + 1) with
      | Except.error e => Except.error e
      | Except.ok rest => Except.ok (to_db_sqrt (sum_q / (wave.fftp.win_length : ℚ)) :: rest)

/-- The shift `extra_windows` that `compute_rms` applies to the positions of a window. -/
def extra_windows (fftp : FFTParams) (n_frames : Int) : Int :=
  let num_windows := Int.tdiv (n_frames - fftp.win_length) fftp.hop_length + 1
  let num_padded_windows := rms_windows fftp n_frames
  Int.tdiv (num_padded_windows - num_windows) 2

/-- The method `WaveArray::compute_rms`: the energy profile `rms_buf`, of `rms_windows`
entries.  (For a negative window count the allocation of `rms_buf` throws; the counts met
here are not negative.) -/
def compute_rms (to_db_sqrt : ℚ → ℚ) (wave : WaveArray) : Except Fault (List ℚ) :=
  rms_loop to_db_sqrt wave (extra_windows wave.fftp wave.n_frames)
    (rms_windows wave.fftp wave.n_frames).toNat 0

/-- The term that a window would add for the padded position `j` if the signal were padded
by `win_length / 2` samples on each side: the square of `buffer[j - win_length / 2]` inside
the signal, `PAD_EPS` in the padding. -/
def centered_term (wave : WaveArray) (j : Int) : ℚ :=
  let pad_size := Int.tdiv wave.fftp.win_length 2
  if 0 ≤ j - pad_size ∧ j - pad_size < wave.n_frames then
    wave.buffer.getD (j - pad_size).toNat 0 * wave.buffer.getD (j - pad_size).toNat 0
  else PAD_EPS

/-- The default analysis parameters and four samples of value `1`. -/
def four_ones : WaveArray :=
  { buffer := [1, 1, 1, 1], n_frames := 4, sr := 16000,
    fftp := get_fft_params_from_sr default_processing_sr }

/-- Two samples of value `1`, analysed with windows of one sample. -/
def two_ones : WaveArray :=
  { buffer := [1, 1], n_frames := 2, sr := 16000,
    fftp := { n_fft := 1, win_length := 1, hop_length := 1 } }

/-- The number of consecutive mask entries different from `stop` that end at index `idx`,
counted downward over at most `n` entries and not below index `0`. -/
def run_back (vw : List Int) (stop : Int) : Nat → Int → Int
  | 0, _ => 0
  | n + 1, idx =>
    if 0 ≤ idx ∧ vw.getD idx.toNat 0 ≠ stop then 1 + run_back vw stop n (idx - 1) else 0

/-- The number of consecutive mask entries different from `stop` that end at index `i`: for
a mask of zeros and ones, the silent windows ending at `i` when `stop = 1` and the voiced
windows ending at `i` when `stop = 0`. -/
def run_length (vw : List Int) (stop : Int) (i : Int) : Int :=
  run_back vw stop (i + 1).toNat i

/-- The sum of the `m` mask entries at the indices `i, i + 1, ..., i + m - 1`. -/
def range_sum (vw : List Int) : Nat → Int → Int
  | 0, _ => 0
  | m + 1, i => vw.getD i.toNat 0 + range_sum vw m (i + 1)

/-- The local variables of `split_array` at the entry of its `while` loop, for the initial
sum `window_sum`. -/
def split_start (seg : AudioSegmentor) (window_sum : Int) : Locals :=
  { window_sum := window_sum, ptr := 0 + seg.min_buffer_len,
    curr_vocal := if window_sum > seg.n_vocal_windows then 1 else 0,
    curr_start_idx := 0,
    curr_window_duration :=
      ((seg.fftp.hop_length : ℚ) * (seg.min_buffer_len : ℚ)) / (seg.processing_sr : ℚ),
    transitions := [] }

/-- The first `k` iterations of the `while` loop of `split_array`. -/
def split_steps (env : Env) (vocal_windows : List Int) :
    Nat → AudioSegmentor → Locals → Except Fault (AudioSegmentor × Locals)
  | 0, seg, l => Except.ok (seg, l)
  | k + 1, seg, l =>
    match split_step env vocal_windows seg l with
    | Except.error e => Except.error e
    | Except.ok (seg, l) => split_steps env vocal_windows k seg l

/-! ### Ordering of the segments of one chunk -/

/-- The clips of a list are in order and do not overlap: each one starts at or after the
sample where the one before ends. -/
def ordered (clips : List Clip) : Prop :=
  List.Chain' (fun c d : Clip => c.end_sample ≤ d.start_sample) clips

/-- The ordering invariant of the loop of `split_array`, for hop length `hop`, local
variables `l` and the clips `committed` written so far in this call: the clips are in
order, each one ends no earlier than it starts, and every one ends at or before the start
of the segment being built (in voice), or at or before three windows after the last
transition (in silence). -/
def order_inv (hop : Int) (l : Locals) (committed : List Clip) : Prop :=
  ordered committed ∧
  (∀ c ∈ committed, c.start_sample ≤ c.end_sample) ∧
  (l.curr_vocal = 0 ∨ l.curr_vocal = 1) ∧
  (l.curr_vocal = 1 → l.curr_start_idx ≤ last_transition l.transitions + 3 ∧
    ∀ c ∈ committed, c.end_sample ≤ l.curr_start_idx * hop) ∧
  (l.curr_vocal = 0 →
    ∀ c ∈ committed, c.end_sample ≤ (last_transition l.transitions + 3) * hop)


/-! ## Basic facts -/

/-! ## Truncation -/

theorem truncToInt_of_nonneg (q : ℚ) (h : 0 ≤ q) : truncToInt q = ⌊q⌋ := by
  unfold truncToInt
  rw [Rat.floor_def, Int.tdiv_eq_ediv (Rat.num_nonneg.mpr h) (by positivity)]

theorem truncToInt_intCast (n : Int) : truncToInt (n : ℚ) = n := by
  simp [truncToInt]

theorem truncToInt_of_nonpos (q : ℚ) (h : q ≤ 0) : truncToInt q ≤ 0 := by
  unfold truncToInt
  have h1 : 0 ≤ (-q.num).tdiv (q.den : Int) :=
    Int.tdiv_nonneg (by have := Rat.num_nonpos.mpr h; omega) (by positivity)
  rw [Int.neg_tdiv] at h1
  omega

/-- A positive hop length can only come from a positive processing rate. -/
theorem sr_pos_of_hop_pos (sr : Int) (h : 1 ≤ (get_fft_params_from_sr sr).hop_length) :
    0 < sr := by
  by_contra hsr
  have hsr' : (sr : ℚ) ≤ 0 := by exact_mod_cast not_lt.mp hsr
  have : (get_fft_params_from_sr sr).hop_length ≤ 0 := by
    apply truncToInt_of_nonpos
    simp only [BASE_HOP_LENGTH, BASE_FFT_SR]
    have : (sr : ℚ) / ((48000 : Int) : ℚ) ≤ 0 := div_nonpos_of_nonpos_of_nonneg hsr' (by norm_num)
    have h256 : (0 : ℚ) ≤ ((256 : Int) : ℚ) := by norm_num
    exact mul_nonpos_of_nonneg_of_nonpos h256 this
  omega

/-! ## Element reads -/

theorem vec_at_ok {vw : List Int} {i : Int} (h0 : 0 ≤ i) (h1 : i < (vw.length : Int)) :
    vec_at vw i = Except.ok (vw.getD i.toNat 0) := by
  simp [vec_at, h0, h1]

theorem vec_at_inv {vw : List Int} {i x : Int} (h : vec_at vw i = Except.ok x) :
    0 ≤ i ∧ i < (vw.length : Int) ∧ x = vw.getD i.toNat 0 := by
  unfold vec_at at h
  split at h
  · rename_i hc
    injection h with h
    exact ⟨hc.1, hc.2, h.symm⟩
  · cases h

/-- What one iteration of the loop of `split_array` does when it returns normally. -/
theorem split_step_inv {env : Env} {vw : List Int} {seg seg' : AudioSegmentor} {l l' : Locals}
    (h : split_step env vw seg l = Except.ok (seg', l')) :
    ∃ entering leaving : Int,
      vec_at vw l.ptr = Except.ok entering ∧
      vec_at vw (l.ptr - seg.min_buffer_len) = Except.ok leaving ∧
      l'.ptr = l.ptr + 1 ∧
      l'.window_sum = l.window_sum + entering - leaving ∧
      ((¬ ((if l.window_sum + entering - leaving > seg.n_vocal_windows then (1 : Int) else 0)
              ≠ l.curr_vocal ∧ l.curr_window_duration > seg.min_vocal_length) ∧
          seg' = seg ∧ l'.curr_vocal = l.curr_vocal ∧ l'.curr_start_idx = l.curr_start_idx ∧
          l'.curr_window_duration = l.curr_window_duration + hop_duration seg ∧
          l'.transitions = l.transitions) ∨
       (((if l.window_sum + entering - leaving > seg.n_vocal_windows then (1 : Int) else 0)
              ≠ l.curr_vocal ∧ l.curr_window_duration > seg.min_vocal_length) ∧
          l'.curr_vocal =
            (if l.window_sum + entering - leaving > seg.n_vocal_windows then (1 : Int) else 0) ∧
          l'.curr_window_duration = hop_duration seg ∧
          l'.transitions = l.transitions ++ [(l.ptr, l.curr_window_duration)] ∧
          ((l.curr_vocal ≠ 0 ∧ ∃ vocal_end saved,
              get_sil_start_idx seg vw l.ptr = Except.ok vocal_end ∧
              save_vocals env seg l.curr_start_idx vocal_end = Except.ok saved ∧
              seg' = { saved with n_vocal_splits := saved.n_vocal_splits + 1 } ∧
              l'.curr_start_idx = vocal_end) ∨
           (l.curr_vocal = 0 ∧ seg' = seg ∧ ∃ sil_end,
              get_vocal_start_idx seg vw l.ptr = Except.ok sil_end ∧
              l'.curr_start_idx = sil_end)))) := by
  unfold split_step at h
  split at h
  · cases h
  · cases h
  · rename_i entering leaving he hl
    refine ⟨entering, leaving, he, hl, ?_⟩
    simp only at h
    generalize (if l.window_sum + entering - leaving > seg.n_vocal_windows then (1 : Int) else 0)
      = vocal at h ⊢
    by_cases hc : vocal ≠ l.curr_vocal ∧ l.curr_window_duration > seg.min_vocal_length
    · rw [if_pos hc] at h
      by_cases hv : l.curr_vocal ≠ 0
      · rw [if_pos hv] at h
        cases hve : get_sil_start_idx seg vw l.ptr with
        | error e => rw [hve] at h; cases h
        | ok vocal_end =>
          rw [hve] at h
          simp only at h
          cases hs : save_vocals env seg l.curr_start_idx vocal_end with
          | error e => rw [hs] at h; cases h
          | ok saved =>
            rw [hs] at h
            injection h with h
            injection h with h1 h2
            subst h1 h2
            exact ⟨rfl, rfl, Or.inr ⟨hc, rfl, rfl, rfl,
              Or.inl ⟨hv, vocal_end, saved, rfl, hs, rfl, rfl⟩⟩⟩
      · rw [if_neg hv] at h
        cases hse : get_vocal_start_idx seg vw l.ptr with
        | error e => rw [hse] at h; cases h
        | ok sil_end =>
          rw [hse] at h
          injection h with h
          injection h with h1 h2
          subst h1 h2
          exact ⟨rfl, rfl, Or.inr ⟨hc, rfl, rfl, rfl,
            Or.inr ⟨not_not.mp hv, rfl, sil_end, rfl, rfl⟩⟩⟩
    · rw [if_neg hc] at h
      injection h with h
      injection h with h1 h2
      subst h1 h2
      exact ⟨rfl, rfl, Or.inl ⟨hc, rfl, rfl, rfl, rfl, rfl⟩⟩

theorem same_config_refl (a : AudioSegmentor) : same_config a a := by
  cases a; rfl

theorem same_config_trans {a b c : AudioSegmentor} (h1 : same_config a b)
    (h2 : same_config b c) : same_config a c := by
  unfold same_config at *
  rw [h2, h1]

theorem same_config_fields {a b : AudioSegmentor} (h : same_config a b) :
    b.save_dir = a.save_dir ∧ b.processing_sr = a.processing_sr ∧
    b.perc_vocal_windows = a.perc_vocal_windows ∧ b.window_pad = a.window_pad ∧
    b.min_vocal_length = a.min_vocal_length ∧ b.min_buffer_len = a.min_buffer_len ∧
    b.n_vocal_windows = a.n_vocal_windows ∧ b.start = a.start ∧ b.end_time = a.end_time ∧
    b.fftp = a.fftp := by
  unfold same_config at h
  rw [h]
  exact ⟨rfl, rfl, rfl, rfl, rfl, rfl, rfl, rfl, rfl, rfl⟩

theorem hop_duration_congr {a b : AudioSegmentor} (h : same_config a b) :
    hop_duration b = hop_duration a := by
  obtain ⟨-, h2, -, -, -, -, -, -, -, h10⟩ := same_config_fields h
  simp [hop_duration, h2, h10]

/-- A normal return of `save_vocals`: the destination opened and one clip was appended. -/
theorem save_vocals_inv {env : Env} {seg saved : AudioSegmentor} {a b : Int}
    (h : save_vocals env seg a b = Except.ok saved) :
    env.sf_open_write (get_save_filename seg) = true ∧
    saved = { seg with written := seg.written ++
      [{ fname := get_save_filename seg, split := seg.n_vocal_splits,
         start_sample := a * seg.fftp.hop_length, end_sample := b * seg.fftp.hop_length }] } := by
  unfold save_vocals at h
  simp only at h
  split at h
  · cases h
  · rename_i hc
    split at h
    · cases h
    · injection h with h
      exact ⟨by simpa using hc, h.symm⟩

/-- A normal return of `save_vocals`: the sample range was not negative. -/
theorem save_vocals_range {env : Env} {seg saved : AudioSegmentor} {a b : Int}
    (h : save_vocals env seg a b = Except.ok saved) :
    a * seg.fftp.hop_length ≤ b * seg.fftp.hop_length := by
  unfold save_vocals at h
  simp only at h
  split at h
  · cases h
  · split at h
    · cases h
    · rename_i hr
      omega

theorem save_vocals_ok {env : Env} (seg : AudioSegmentor) (a b : Int)
    (h : env.sf_open_write (get_save_filename seg) = true)
    (hr : a * seg.fftp.hop_length ≤ b * seg.fftp.hop_length) :
    save_vocals env seg a b = Except.ok { seg with written := seg.written ++
      [{ fname := get_save_filename seg, split := seg.n_vocal_splits,
         start_sample := a * seg.fftp.hop_length, end_sample := b * seg.fftp.hop_length }] } := by
  unfold save_vocals
  simp only
  rw [if_neg (by rw [h]; decide), if_neg (by omega)]

/-- With the destination open and a negative sample range, `save_vocals` throws
`std::bad_array_new_length`. -/
theorem save_vocals_negative {env : Env} (seg : AudioSegmentor) (a b : Int)
    (h : env.sf_open_write (get_save_filename seg) = true)
    (hr : b * seg.fftp.hop_length < a * seg.fftp.hop_length) :
    save_vocals env seg a b = Except.error (Fault.bad_array_new_length seg) := by
  unfold save_vocals
  simp only
  rw [if_neg (by rw [h]; decide), if_pos (by omega)]

theorem split_step_same_config {env : Env} {vw : List Int} {seg seg' : AudioSegmentor}
    {l l' : Locals} (h : split_step env vw seg l = Except.ok (seg', l')) :
    same_config seg seg' := by
  obtain ⟨e, lv, -, -, -, -, h | ⟨-, -, -, -, h | h⟩⟩ := split_step_inv h
  · rw [h.2.1]; exact same_config_refl _
  · obtain ⟨-, ve, saved, -, hs, hseg, -⟩ := h
    rw [hseg, (save_vocals_inv hs).2]
    rfl
  · rw [h.2.1]; exact same_config_refl _

/-- Invariants of the loop of `split_array`: a property that every iteration preserves holds
at the exit of the loop, where moreover the loop test fails. -/
theorem split_loop_invariant {env : Env} {vw : List Int}
    (Inv : AudioSegmentor → Locals → Prop)
    (hstep : ∀ seg l seg' l', Inv seg l → 0 ≤ l.ptr → l.ptr < (vw.length : Int) →
      split_step env vw seg l = Except.ok (seg', l') → Inv seg' l') :
    ∀ (fuel : Nat) (seg : AudioSegmentor) (l : Locals) (seg' : AudioSegmentor) (l' : Locals),
      Inv seg l → split_loop env vw fuel seg l = Except.ok (seg', l') →
      Inv seg' l' ∧ ¬ (0 ≤ l'.ptr ∧ l'.ptr < (vw.length : Int)) := by
  intro fuel
  induction fuel with
  | zero =>
    intro seg l seg' l' hinv h
    unfold split_loop at h
    split at h
    · cases h
    · rename_i hc
      injection h with h
      injection h with h1 h2
      subst h1 h2
      exact ⟨hinv, hc⟩
  | succ fuel ih =>
    intro seg l seg' l' hinv h
    unfold split_loop at h
    split at h
    · rename_i hc
      simp only at h
      cases hs : split_step env vw seg l with
      | error e => rw [hs] at h; cases h
      | ok r =>
        obtain ⟨seg1, l1⟩ := r
        rw [hs] at h
        exact ih seg1 l1 seg' l' (hstep seg l seg1 l1 hinv hc.1 hc.2 hs) h
    · rename_i hc
      injection h with h
      injection h with h1 h2
      subst h1 h2
      exact ⟨hinv, hc⟩

/-- Progress of the loop of `split_array`: when every iteration from a state satisfying `Inv`
returns normally into such a state, the loop returns normally. -/
theorem split_loop_total {env : Env} {vw : List Int}
    (Inv : AudioSegmentor → Locals → Prop)
    (hstep : ∀ seg l, Inv seg l → 0 ≤ l.ptr → l.ptr < (vw.length : Int) →
      ∃ seg' l', split_step env vw seg l = Except.ok (seg', l') ∧ Inv seg' l') :
    ∀ (fuel : Nat) (seg : AudioSegmentor) (l : Locals),
      Inv seg l → (0 ≤ l.ptr → (vw.length : Int) - l.ptr ≤ fuel) →
      ∃ seg' l', split_loop env vw fuel seg l = Except.ok (seg', l') ∧ Inv seg' l' ∧
        ¬ (0 ≤ l'.ptr ∧ l'.ptr < (vw.length : Int)) := by
  intro fuel
  induction fuel with
  | zero =>
    intro seg l hinv hf
    have hc : ¬ (0 ≤ l.ptr ∧ l.ptr < (vw.length : Int)) := by
      intro hc
      have := hf hc.1
      simp at this
      omega
    refine ⟨seg, l, ?_, hinv, hc⟩
    unfold split_loop
    rw [if_neg hc]
  | succ fuel ih =>
    intro seg l hinv hf
    by_cases hc : 0 ≤ l.ptr ∧ l.ptr < (vw.length : Int)
    · obtain ⟨seg1, l1, hs, hinv1⟩ := hstep seg l hinv hc.1 hc.2
      have hp : l1.ptr = l.ptr + 1 := by
        obtain ⟨_, _, _, _, hp, _⟩ := split_step_inv hs
        exact hp
      obtain ⟨seg', l', hl, hinv', hc'⟩ := ih seg1 l1 hinv1
        (fun _ => by have := hf hc.1; push_cast at this; omega)
      refine ⟨seg', l', ?_, hinv', hc'⟩
      unfold split_loop
      rw [if_pos hc]
      simp only [hs]
      exact hl
    · refine ⟨seg, l, ?_, hinv, hc⟩
      unfold split_loop
      rw [if_neg hc]

/-- The backward scan returns normally, between `lowest - 1` and its starting index, when
every index in that range is inside the mask and the fuel covers the range. -/
theorem scan_back_total (vw : List Int) (stop lowest : Int) :
    ∀ (fuel : Nat) (idx : Int), 0 ≤ lowest - 1 → idx < (vw.length : Int) →
      lowest - 1 ≤ idx → 1 ≤ fuel → idx - lowest + 2 ≤ fuel →
      ∃ r, scan_back vw stop lowest fuel idx = Except.ok r ∧ lowest - 1 ≤ r ∧ r ≤ idx := by
  intro fuel
  induction fuel with
  | zero => intro idx _ _ _ h1; omega
  | succ fuel ih =>
    intro idx h0 hlen hlow _ hfuel
    unfold scan_back
    rw [vec_at_ok (by omega) hlen]
    simp only
    by_cases hc : vw.getD idx.toNat 0 ≠ stop ∧ idx ≥ lowest
    · rw [if_pos hc]
      obtain ⟨r, hr, h1, h2⟩ := ih (idx - 1) h0 (by omega) (by omega)
        (by have := hc.2; push_cast at hfuel; omega) (by push_cast at hfuel; omega)
      exact ⟨r, hr, h1, by omega⟩
    · rw [if_neg hc]
      exact ⟨idx, rfl, hlow, le_refl _⟩

/-- The initial sum returns normally when the summed indices are inside the mask. -/
theorem initial_sum_total (vw : List Int) :
    ∀ (count : Nat) (i s : Int), 0 ≤ i → i + count ≤ (vw.length : Int) →
      ∃ r, initial_sum vw count i s = Except.ok r := by
  intro count
  induction count with
  | zero => intro i s _ _; exact ⟨s, rfl⟩
  | succ count ih =>
    intro i s h0 h1
    unfold initial_sum
    rw [vec_at_ok h0 (by push_cast at h1; omega)]
    exact ih (i + 1) _ (by omega) (by push_cast at h1 ⊢; omega)

/-- The arithmetic of the hysteresis guard: a run of `j` hops lasts longer than
`min_vocal_length` only if `j` exceeds the minimum window count. -/
theorem run_exceeds_min {hop sr m : Int} {mvl : ℚ} (hhop : 1 ≤ hop) (hsr : 0 < sr)
    (hm : m = ⌊mvl * (sr : ℚ) / (hop : ℚ)⌋) (j : Int)
    (h : mvl < (hop : ℚ) / (sr : ℚ) * (j : ℚ)) : m + 1 ≤ j := by
  have hsr' : (0 : ℚ) < (sr : ℚ) := by exact_mod_cast hsr
  have hhop' : (0 : ℚ) < (hop : ℚ) := by exact_mod_cast (by omega : 0 < hop)
  have h1 : mvl * (sr : ℚ) / (hop : ℚ) < (j : ℚ) := by
    rw [div_lt_iff₀ hhop']
    have : mvl * (sr : ℚ) < (hop : ℚ) / (sr : ℚ) * (j : ℚ) * (sr : ℚ) :=
      mul_lt_mul_of_pos_right h hsr'
    have e : (hop : ℚ) / (sr : ℚ) * (j : ℚ) * (sr : ℚ) = (j : ℚ) * (hop : ℚ) := by
      field_simp
      ring
    linarith
  have h2 : ⌊mvl * (sr : ℚ) / (hop : ℚ)⌋ < j := Int.floor_lt.mpr h1
  omega

theorem last_transition_append (ts : List (Int × ℚ)) (t : Int × ℚ) :
    last_transition (ts ++ [t]) = t.1 := by
  simp [last_transition]

/-- Every iteration of the loop of `split_array` preserves the hysteresis invariant. -/
theorem split_step_hysteresis {env : Env} {vw : List Int} {seg seg' : AudioSegmentor}
    {l l' : Locals} (hhop : 1 ≤ seg.fftp.hop_length) (hsr : 0 < seg.processing_sr)
    (hm : seg.min_buffer_len =
      ⌊seg.min_vocal_length * (seg.processing_sr : ℚ) / (seg.fftp.hop_length : ℚ)⌋)
    (hinv : hysteresis_inv (hop_duration seg) seg.min_vocal_length seg.min_buffer_len l)
    (hptr : 0 ≤ l.ptr) (h : split_step env vw seg l = Except.ok (seg', l')) :
    hysteresis_inv (hop_duration seg) seg.min_vocal_length seg.min_buffer_len l' := by
  obtain ⟨hdur, hmem, hchain⟩ := hinv
  obtain ⟨e, lv, -, -, hp, -, hk | ⟨hc, -, hd', ht', -⟩⟩ := split_step_inv h
  · obtain ⟨-, -, -, -, hd', ht'⟩ := hk
    refine ⟨?_, ?_, ?_⟩
    · rw [hd', ht', hp, hdur]
      push_cast
      ring
    · rw [ht', hp]
      intro t ht
      obtain ⟨a, b, c, d⟩ := hmem t ht
      exact ⟨a, by omega, c, d⟩
    · rw [ht']; exact hchain
  · have hgap : seg.min_buffer_len + 1 ≤ l.ptr - last_transition l.transitions := by
      apply run_exceeds_min hhop hsr hm
      have := hc.2
      rw [hdur] at this
      exact this
    have hlast : 0 ≤ last_transition l.transitions := by
      unfold last_transition
      cases hg : l.transitions.getLast? with
      | none => simp
      | some t => exact (hmem t (List.mem_of_getLast?_eq_some hg)).1
    refine ⟨?_, ?_, ?_⟩
    · rw [hd', ht', hp, last_transition_append]
      simp
    · rw [ht', hp]
      intro t ht
      rcases List.mem_append.mp ht with ht | ht
      · obtain ⟨a, b, c, d⟩ := hmem t ht
        exact ⟨a, by omega, c, d⟩
      · rw [List.mem_singleton] at ht
        subst ht
        exact ⟨hptr, by simp, hc.2, by simp only; omega⟩
    · rw [ht', List.chain'_append]
      refine ⟨hchain, List.chain'_singleton _, ?_⟩
      intro x hx y hy
      simp only [List.head?_cons, Option.mem_def, Option.some.injEq] at hy
      subst hy
      have : last_transition l.transitions = x.1 := by
        unfold last_transition
        rw [Option.mem_def] at hx
        rw [hx]
      simp only
      omega

/-! ## Normal return of the loop of `split_array` -/

/-- A normal return of `split_run`: the initial sum and the loop returned normally. -/
theorem split_run_inv {env : Env} {seg seg' : AudioSegmentor} {vw : List Int} {l : Locals}
    (h : split_run env seg vw = Except.ok (seg', l)) :
    ∃ ws, initial_sum vw seg.min_buffer_len.toNat 0 0 = Except.ok ws ∧
      split_loop env vw vw.length seg
        { window_sum := ws, ptr := 0 + seg.min_buffer_len,
          curr_vocal := if ws > seg.n_vocal_windows then 1 else 0, curr_start_idx := 0,
          curr_window_duration :=
            ((seg.fftp.hop_length : ℚ) * (seg.min_buffer_len : ℚ)) / (seg.processing_sr : ℚ),
          transitions := [] } = Except.ok (seg', l) := by
  unfold split_run at h
  cases hs : initial_sum vw seg.min_buffer_len.toNat 0 0 with
  | error e => rw [hs] at h; cases h
  | ok ws =>
    rw [hs] at h
    exact ⟨ws, rfl, h⟩

/-- A normal return of `split_array`: `split_run` returned normally, and then either the
chunk ended in voice and the flush wrote a file, or it ended in silence. -/
theorem split_array_inv {env : Env} {seg seg' : AudioSegmentor} {vw : List Int}
    (h : split_array env seg vw = Except.ok seg') :
    ∃ s l, split_run env seg vw = Except.ok (s, l) ∧
      ((l.curr_vocal ≠ 0 ∧ ∃ saved, save_vocals env s l.curr_start_idx l.ptr = Except.ok saved ∧
          seg' = { saved with n_vocal_splits := saved.n_vocal_splits + 1 }) ∨
       (l.curr_vocal = 0 ∧ seg' = s)) := by
  unfold split_array at h
  cases hr : split_run env seg vw with
  | error e => rw [hr] at h; cases h
  | ok r =>
    obtain ⟨s, l⟩ := r
    rw [hr] at h
    simp only at h
    refine ⟨s, l, rfl, ?_⟩
    by_cases hv : l.curr_vocal ≠ 0
    · rw [if_pos hv] at h
      cases hs : save_vocals env s l.curr_start_idx l.ptr with
      | error e => rw [hs] at h; cases h
      | ok saved =>
        rw [hs] at h
        injection h with h
        exact Or.inl ⟨hv, saved, rfl, h.symm⟩
    · rw [if_neg hv] at h
      injection h with h
      exact Or.inr ⟨not_not.mp hv, h.symm⟩

theorem split_run_eq_loop (env : Env) (seg : AudioSegmentor) (vw : List Int) (ws : Int)
    (h : initial_sum vw seg.min_buffer_len.toNat 0 0 = Except.ok ws) :
    split_run env seg vw = split_loop env vw vw.length seg (split_start seg ws) := by
  unfold split_run
  rw [h]
  rfl

theorem scan_back_le (vw : List Int) (stop lowest : Int) :
    ∀ (fuel : Nat) (idx r : Int), scan_back vw stop lowest fuel idx = Except.ok r → r ≤ idx := by
  intro fuel
  induction fuel with
  | zero => intro idx r h; unfold scan_back at h; cases h
  | succ fuel ih =>
    intro idx r h
    unfold scan_back at h
    cases hv : vec_at vw idx with
    | error e => rw [hv] at h; cases h
    | ok x =>
      rw [hv] at h
      simp only at h
      by_cases hc : x ≠ stop ∧ idx ≥ lowest
      · rw [if_pos hc] at h
        have := ih _ _ h
        omega
      · rw [if_neg hc] at h
        injection h with h
        omega

/-- The boundary that `get_sil_start_idx` returns is at or after the commit index, and at
most `window_pad` after it. -/
theorem get_sil_start_idx_bounds {seg : AudioSegmentor} {vw : List Int} {p v : Int}
    (h : get_sil_start_idx seg vw p = Except.ok v) : p ≤ v ∧ v ≤ max p (p + seg.window_pad) := by
  unfold get_sil_start_idx at h
  cases hs : scan_back vw 1 (p - seg.min_buffer_len) ((seg.min_buffer_len + 1).toNat + 1) p with
  | error e => rw [hs] at h; cases h
  | ok r =>
    rw [hs] at h
    injection h with h
    have := scan_back_le _ _ _ _ _ _ hs
    omega

/-- The boundary that `get_vocal_start_idx` returns is at or after the commit index, and at
most `window_pad` after it. -/
theorem get_vocal_start_idx_bounds {seg : AudioSegmentor} {vw : List Int} {p v : Int}
    (h : get_vocal_start_idx seg vw p = Except.ok v) :
    p ≤ v ∧ v ≤ max p (p + seg.window_pad) := by
  unfold get_vocal_start_idx at h
  cases hs : scan_back vw 0 (p - seg.min_buffer_len) ((seg.min_buffer_len + 1).toNat + 1) p with
  | error e => rw [hs] at h; cases h
  | ok r =>
    rw [hs] at h
    injection h with h
    have := scan_back_le _ _ _ _ _ _ hs
    omega

theorem split_start_hysteresis (seg : AudioSegmentor) (ws : Int) :
    hysteresis_inv (hop_duration seg) seg.min_vocal_length seg.min_buffer_len
      (split_start seg ws) := by
  refine ⟨?_, ?_, List.chain'_nil⟩
  · simp only [split_start, hop_duration, last_transition, List.getLast?_nil]
    push_cast
    ring
  · intro t ht; cases ht

/-- An iteration preserves the hysteresis invariant of the segmentor `seg` the chunk started
with, whatever has been written since. -/
theorem split_step_hysteresis_from {env : Env} {vw : List Int} {seg s s' : AudioSegmentor}
    {l l' : Locals} (hhop : 1 ≤ seg.fftp.hop_length) (hsr : 0 < seg.processing_sr)
    (hm : seg.min_buffer_len =
      ⌊seg.min_vocal_length * (seg.processing_sr : ℚ) / (seg.fftp.hop_length : ℚ)⌋)
    (hcfg : same_config seg s)
    (hinv : hysteresis_inv (hop_duration seg) seg.min_vocal_length seg.min_buffer_len l)
    (hptr : 0 ≤ l.ptr) (h : split_step env vw s l = Except.ok (s', l')) :
    hysteresis_inv (hop_duration seg) seg.min_vocal_length seg.min_buffer_len l' := by
  obtain ⟨-, f2, -, -, f5, f6, -, -, -, f10⟩ := same_config_fields hcfg
  have := @split_step_hysteresis env vw s s' l l' (by rw [f10]; exact hhop)
    (by rw [f2]; exact hsr) (by rw [f6, f5, f2, f10]; exact hm)
    (by rw [hop_duration_congr hcfg, f5, f6]; exact hinv) hptr h
  rw [hop_duration_congr hcfg, f5, f6] at this
  exact this

/-- The start-index invariant holds before the first iteration. -/
theorem split_start_start (seg : AudioSegmentor) (ws : Int) :
    start_inv seg.window_pad (split_start seg ws) := by
  simp only [start_inv, split_start, last_transition, List.getLast?_nil]
  omega

/-- Every iteration of the loop of `split_array` preserves the start-index invariant. -/
theorem split_step_start {env : Env} {vw : List Int} {seg seg' : AudioSegmentor}
    {l l' : Locals} (hinv : start_inv seg.window_pad l)
    (h : split_step env vw seg l = Except.ok (seg', l')) : start_inv seg.window_pad l' := by
  unfold start_inv at hinv ⊢
  obtain ⟨e, lv, -, -, -, -, hk | ⟨-, -, -, ht', hbr⟩⟩ := split_step_inv h
  · obtain ⟨-, -, -, hcs, -, ht'⟩ := hk
    rw [hcs, ht']
    exact hinv
  · rw [ht', last_transition_append]
    rcases hbr with ⟨-, vocal_end, saved, hge, -, -, hcs⟩ | ⟨-, -, sil_end, hge, hcs⟩
    · have := (get_sil_start_idx_bounds hge).2
      rw [hcs]
      simp only
      omega
    · have := (get_vocal_start_idx_bounds hge).2
      rw [hcs]
      simp only
      omega

/-- An iteration of the loop of `split_array` returns normally when the hysteresis and
start-index invariants hold, `ptr` is inside the mask and at least `min_buffer_len`, and
every destination opens: the elements read are inside the mask, and the range of a segment
written on a transition to silence is not negative. -/
theorem split_step_total {env : Env} {vw : List Int} {seg : AudioSegmentor} {l : Locals}
    (hhop : 1 ≤ seg.fftp.hop_length) (hsr : 0 < seg.processing_sr)
    (hm : seg.min_buffer_len =
      ⌊seg.min_vocal_length * (seg.processing_sr : ℚ) / (seg.fftp.hop_length : ℚ)⌋)
    (hinv : hysteresis_inv (hop_duration seg) seg.min_vocal_length seg.min_buffer_len l)
    (hstart : start_inv seg.window_pad l)
    (hptr : 0 ≤ l.ptr) (hlen : l.ptr < (vw.length : Int))
    (hm0 : 0 ≤ seg.min_buffer_len) (hmp : seg.min_buffer_len ≤ l.ptr)
    (hopen : ∀ fname, env.sf_open_write fname = true) :
    ∃ seg' l', split_step env vw seg l = Except.ok (seg', l') := by
  unfold split_step
  rw [vec_at_ok hptr hlen, vec_at_ok (by omega) (by omega)]
  simp only
  generalize (if l.window_sum + vw.getD l.ptr.toNat 0 -
    vw.getD (l.ptr - seg.min_buffer_len).toNat 0 > seg.n_vocal_windows then (1 : Int) else 0)
    = vocal
  by_cases hc : vocal ≠ l.curr_vocal ∧ l.curr_window_duration > seg.min_vocal_length
  · rw [if_pos hc]
    obtain ⟨hdur, hmem, -⟩ := hinv
    have hgap : seg.min_buffer_len + 1 ≤ l.ptr - last_transition l.transitions := by
      apply run_exceeds_min hhop hsr hm
      have := hc.2
      rw [hdur] at this
      exact this
    have hlast : 0 ≤ last_transition l.transitions := by
      unfold last_transition
      cases hg : l.transitions.getLast? with
      | none => simp
      | some t => exact (hmem t (List.mem_of_getLast?_eq_some hg)).1
    by_cases hv : l.curr_vocal ≠ 0
    · rw [if_pos hv]
      obtain ⟨r, hr, hlow, -⟩ := scan_back_total vw 1 (l.ptr - seg.min_buffer_len)
        ((seg.min_buffer_len + 1).toNat + 1) l.ptr (by omega) hlen (by omega) (by omega)
        (by push_cast; omega)
      have hrange : l.curr_start_idx * seg.fftp.hop_length ≤
          max (r + seg.window_pad) l.ptr * seg.fftp.hop_length := by
        unfold start_inv at hstart
        exact Int.mul_le_mul_of_nonneg_right (by omega) (by omega)
      simp only [get_sil_start_idx, hr, save_vocals_ok _ _ _ (hopen _) hrange]
      exact ⟨_, _, rfl⟩
    · rw [if_neg hv]
      obtain ⟨r, hr, -, -⟩ := scan_back_total vw 0 (l.ptr - seg.min_buffer_len)
        ((seg.min_buffer_len + 1).toNat + 1) l.ptr (by omega) hlen (by omega) (by omega)
        (by push_cast; omega)
      simp only [get_vocal_start_idx, hr]
      exact ⟨_, _, rfl⟩
  · rw [if_neg hc]
    exact ⟨_, _, rfl⟩

/-- A normal return of `split_run` ends in a state that satisfies the hysteresis
invariant. -/
theorem split_run_hysteresis {env : Env} {seg s : AudioSegmentor} {vw : List Int} {l : Locals}
    (hhop : 1 ≤ seg.fftp.hop_length) (hsr : 0 < seg.processing_sr)
    (hm : seg.min_buffer_len =
      ⌊seg.min_vocal_length * (seg.processing_sr : ℚ) / (seg.fftp.hop_length : ℚ)⌋)
    (h : split_run env seg vw = Except.ok (s, l)) :
    same_config seg s ∧
      hysteresis_inv (hop_duration seg) seg.min_vocal_length seg.min_buffer_len l := by
  obtain ⟨ws, -, hl⟩ := split_run_inv h
  exact (split_loop_invariant
    (fun s l => same_config seg s ∧
      hysteresis_inv (hop_duration seg) seg.min_vocal_length seg.min_buffer_len l)
    (fun s l s' l' hi hp _ hstep =>
      ⟨same_config_trans hi.1 (split_step_same_config hstep),
       split_step_hysteresis_from hhop hsr hm hi.1 hi.2 hp hstep⟩)
    vw.length seg _ s l ⟨same_config_refl _, split_start_hysteresis seg ws⟩ hl).1

/-- With every destination opening, `split_run` returns normally on a mask of length at
least `min_buffer_len`. -/
theorem split_run_total {env : Env} {seg : AudioSegmentor} {vw : List Int}
    (hhop : 1 ≤ seg.fftp.hop_length) (hsr : 0 < seg.processing_sr)
    (hm : seg.min_buffer_len =
      ⌊seg.min_vocal_length * (seg.processing_sr : ℚ) / (seg.fftp.hop_length : ℚ)⌋)
    (hlen : seg.min_buffer_len ≤ (vw.length : Int))
    (hopen : ∀ fname, env.sf_open_write fname = true) :
    ∃ s l, split_run env seg vw = Except.ok (s, l) ∧ same_config seg s := by
  obtain ⟨ws, hws⟩ := initial_sum_total vw seg.min_buffer_len.toNat 0 0
    (le_refl _) (by have := Int.toNat_eq_max seg.min_buffer_len; omega)
  rw [split_run_eq_loop env seg vw ws hws]
  have key := @split_loop_total env vw
    (fun s l => same_config seg s ∧
      hysteresis_inv (hop_duration seg) seg.min_vocal_length seg.min_buffer_len l ∧
      start_inv seg.window_pad l ∧
      seg.min_buffer_len ≤ l.ptr ∧ (0 ≤ l.ptr → 0 ≤ seg.min_buffer_len))
    (by
      intro s l ⟨hcfg, hinv, hstart, hmp, hm0⟩ hp hl
      obtain ⟨-, f2, -, f4, f5, f6, -, -, -, f10⟩ := same_config_fields hcfg
      obtain ⟨s', l', hstep⟩ := @split_step_total env vw s l
        (by rw [f10]; exact hhop)
        (by rw [f2]; exact hsr) (by rw [f6, f5, f2, f10]; exact hm)
        (by rw [hop_duration_congr hcfg, f5, f6]; exact hinv)
        (by rw [f4]; exact hstart) hp hl
        (by rw [f6]; exact hm0 hp) (by rw [f6]; exact hmp) hopen
      have hp' : l'.ptr = l.ptr + 1 := by
        obtain ⟨_, _, _, _, hp', _⟩ := split_step_inv hstep
        exact hp'
      have hstart' : start_inv seg.window_pad l' := by
        have := @split_step_start env vw s s' l l' (by rw [f4]; exact hstart) hstep
        rw [f4] at this
        exact this
      exact ⟨s', l', hstep, same_config_trans hcfg (split_step_same_config hstep),
        split_step_hysteresis_from hhop hsr hm hcfg hinv hp hstep, hstart', by omega,
        fun _ => hm0 hp⟩)
    vw.length seg (split_start seg ws)
    ⟨same_config_refl _, split_start_hysteresis seg ws, split_start_start seg ws,
      by simp [split_start], by simp [split_start]⟩
    (by simp only [split_start]; omega)
  obtain ⟨s, l, h, hinv⟩ := key
  exact ⟨s, l, h, hinv.1.1⟩

/-- The end-of-chunk flush of `split_array` after a normal return of `split_run`, when the
destination opens: a chunk that ended in silence is returned as it is; a chunk that ended in
voice is flushed, which throws `std::bad_array_new_length` when the start of the last
segment lies after the end of the mask. -/
theorem split_array_flush {env : Env} {seg s : AudioSegmentor} {vw : List Int} {l : Locals}
    (h : split_run env seg vw = Except.ok (s, l))
    (hopen : env.sf_open_write (get_save_filename s) = true) :
    (l.curr_vocal = 0 ∧ split_array env seg vw = Except.ok s) ∨
    (l.curr_vocal ≠ 0 ∧
      l.curr_start_idx * s.fftp.hop_length ≤ l.ptr * s.fftp.hop_length ∧
      ∃ s', split_array env seg vw = Except.ok s') ∨
    (l.curr_vocal ≠ 0 ∧
      l.ptr * s.fftp.hop_length < l.curr_start_idx * s.fftp.hop_length ∧
      split_array env seg vw = Except.error (Fault.bad_array_new_length s)) := by
  unfold split_array
  rw [h]
  simp only
  by_cases hv : l.curr_vocal ≠ 0
  · rw [if_pos hv]
    by_cases hr : l.curr_start_idx * s.fftp.hop_length ≤ l.ptr * s.fftp.hop_length
    · rw [save_vocals_ok _ _ _ hopen hr]
      exact Or.inr (Or.inl ⟨hv, hr, _, rfl⟩)
    · rw [save_vocals_negative _ _ _ hopen (by omega)]
      exact Or.inr (Or.inr ⟨hv, by omega, rfl⟩)
  · rw [if_neg hv]
    exact Or.inl ⟨not_not.mp hv, rfl⟩

/-! ## Hysteresis -/

/-- C1. Hysteresis of `split_array`.  With `hop_length ≥ 1` and
`min_buffer_len = ⌊min_vocal_length * processing_sr / hop_length⌋`, on every mask of length at
least `min_buffer_len`: every committed transition happened with `curr_window_duration`
strictly above `min_vocal_length` and at a window index above `min_buffer_len`, and
consecutive committed transitions are at least `min_buffer_len + 1` windows apart.  Moreover
the loop does return normally when every destination opens. -/
theorem split_array_hysteresis (env : Env) (seg : AudioSegmentor) (vocal_windows : List Int)
    (hfftp : seg.fftp = get_fft_params_from_sr seg.processing_sr)
    (hhop : 1 ≤ seg.fftp.hop_length)
    (hm : seg.min_buffer_len =
      ⌊seg.min_vocal_length * (seg.processing_sr : ℚ) / (seg.fftp.hop_length : ℚ)⌋)
    (hlen : seg.min_buffer_len ≤ (vocal_windows.length : Int)) :
    (∀ seg' l, split_run env seg vocal_windows = Except.ok (seg', l) →
      (∀ t ∈ l.transitions, seg.min_vocal_length < t.2 ∧ seg.min_buffer_len < t.1) ∧
      List.Chain' (fun a b : Int × ℚ => a.1 + seg.min_buffer_len + 1 ≤ b.1) l.transitions) ∧
    ((∀ fname, env.sf_open_write fname = true) →
      ∃ seg' l, split_run env seg vocal_windows = Except.ok (seg', l)) := by
  have hsr : 0 < seg.processing_sr := sr_pos_of_hop_pos _ (by rw [← hfftp]; exact hhop)
  have hinit : ∀ ws : Int, hysteresis_inv (hop_duration seg) seg.min_vocal_length
      seg.min_buffer_len
      { window_sum := ws, ptr := 0 + seg.min_buffer_len,
        curr_vocal := if ws > seg.n_vocal_windows then 1 else 0, curr_start_idx := 0,
        curr_window_duration :=
          ((seg.fftp.hop_length : ℚ) * (seg.min_buffer_len : ℚ)) / (seg.processing_sr : ℚ),
        transitions := [] } := by
    intro ws
    refine ⟨?_, ?_, List.chain'_nil⟩
    · simp only [hop_duration, last_transition, List.getLast?_nil]
      push_cast
      ring
    · intro t ht; cases ht
  constructor
  · intro seg' l h
    unfold split_run at h
    cases hs : initial_sum vocal_windows seg.min_buffer_len.toNat 0 0 with
    | error e => rw [hs] at h; cases h
    | ok ws =>
      rw [hs] at h
      simp only at h
      have key := split_loop_invariant
        (fun s l => same_config seg s ∧
          hysteresis_inv (hop_duration seg) seg.min_vocal_length seg.min_buffer_len l)
        (by
          intro s l s' l' ⟨hcfg, hinv⟩ hp _ hstep
          obtain ⟨-, f2, -, -, f5, f6, -, -, -, f10⟩ := same_config_fields hcfg
          refine ⟨same_config_trans hcfg (split_step_same_config hstep), ?_⟩
          have := @split_step_hysteresis env vocal_windows s s' l l' (by rw [f10]; exact hhop)
            (by rw [f2]; exact hsr) (by rw [f6, f5, f2, f10]; exact hm)
            (by rw [hop_duration_congr hcfg, f5, f6]; exact hinv) hp hstep
          rw [hop_duration_congr hcfg, f5, f6] at this
          exact this)
        vocal_windows.length seg _ seg' l ⟨same_config_refl _, hinit ws⟩ h
      obtain ⟨⟨-, -, hmem, hchain⟩, -⟩ := key
      exact ⟨fun t ht => ⟨(hmem t ht).2.2.1, (hmem t ht).2.2.2⟩, hchain⟩
  · intro hopen
    obtain ⟨seg', l', h, -⟩ := @split_run_total env seg vocal_windows hhop hsr hm hlen hopen
    exact ⟨seg', l', h⟩

/-- The hysteresis theorem applied to the default segmentor and the mask of 29 silent, 29
voiced and 29 silent windows. -/
theorem split_array_hysteresis_witness :
    (∀ seg' l, split_run (plain_env 0 none) (default_segmentor (plain_env 0 none))
        (silence_voice_silence 29 29 29) = Except.ok (seg', l) →
      (∀ t ∈ l.transitions, (default_segmentor (plain_env 0 none)).min_vocal_length < t.2 ∧
        (default_segmentor (plain_env 0 none)).min_buffer_len < t.1) ∧
      List.Chain' (fun a b : Int × ℚ =>
        a.1 + (default_segmentor (plain_env 0 none)).min_buffer_len + 1 ≤ b.1) l.transitions) ∧
    ((∀ fname, (plain_env 0 none).sf_open_write fname = true) →
      ∃ seg' l, split_run (plain_env 0 none) (default_segmentor (plain_env 0 none))
        (silence_voice_silence 29 29 29) = Except.ok (seg', l)) :=
  split_array_hysteresis (plain_env 0 none) (default_segmentor (plain_env 0 none))
    (silence_voice_silence 29 29 29) (by decide!) (by decide!) (by decide!) (by decide!)

/-! ## Emitted ranges and the buffer -/

/-- C2. The end-of-chunk flush can leave the buffer.  With the default parameters, a chunk of
2381 mono samples has 29 windows; for the energy profile `loud_then_quiet` the mask is 28
voiced windows and a silent one, the chunk ends in voice, and the flush calls
`save_vocals(0, 29)`: the copied range is `[0, 2465)`, which ends 84 samples after the end
of the 2381-sample buffer. -/
theorem split_array_flush_exceeds_buffer :
    rms_windows (default_segmentor (plain_env 2381 none)).fftp 2381 = 29 ∧
    get_vocal_windows (some loud_then_quiet) = List.replicate 28 1 ++ [0] ∧
    split_array (plain_env 2381 none) (default_segmentor (plain_env 2381 none))
        (get_vocal_windows (some loud_then_quiet)) =
      Except.ok { default_segmentor (plain_env 2381 none) with
        n_vocal_splits := 1
        written := [{ fname := "out/vocal_0.wav", split := 0, start_sample := 0,
                      end_sample := 2465 }] } ∧
    (2381 : Int) < 2465 := by
  decide!

/-! ## The split counter -/

/-- Writing a file and incrementing the counter preserves the split-counter invariant. -/
theorem counter_inv_save {env : Env} {dir : String} {seg saved : AudioSegmentor} {a b : Int}
    (hinv : counter_inv dir seg) (h : save_vocals env seg a b = Except.ok saved) :
    counter_inv dir { saved with n_vocal_splits := saved.n_vocal_splits + 1 } := by
  obtain ⟨h0, h1, h2, h3⟩ := hinv
  rw [(save_vocals_inv h).2]
  refine ⟨h0, ?_, ?_, ?_⟩
  · simp only [List.length_append, List.length_singleton]
    push_cast
    omega
  · simp only [List.map_append, List.length_append, List.length_singleton, List.map_cons,
      List.map_nil, List.range_succ, h2, h1, Int.ofNat_eq_coe]
  · intro c hc
    simp only at hc ⊢
    rcases List.mem_append.mp hc with hc | hc
    · exact h3 c hc
    · rw [List.mem_singleton] at hc
      subst hc
      simp only [get_save_filename, h0]

theorem split_step_counter {env : Env} {vw : List Int} {seg seg' : AudioSegmentor}
    {l l' : Locals} {dir : String} (hinv : counter_inv dir seg)
    (h : split_step env vw seg l = Except.ok (seg', l')) : counter_inv dir seg' := by
  obtain ⟨e, lv, -, -, -, -, hk | ⟨-, -, -, -, hk | hk⟩⟩ := split_step_inv h
  · rw [hk.2.1]; exact hinv
  · obtain ⟨-, ve, saved, -, hs, hseg, -⟩ := hk
    rw [hseg]
    exact counter_inv_save hinv hs
  · rw [hk.2.1]; exact hinv

/-- The method `split_array` preserves the split-counter invariant. -/
theorem split_array_counter {env : Env} {dir : String} {seg seg' : AudioSegmentor}
    {vw : List Int} (hinv : counter_inv dir seg) (h : split_array env seg vw = Except.ok seg') :
    counter_inv dir seg' := by
  obtain ⟨s, l, hr, hfl⟩ := split_array_inv h
  obtain ⟨ws, -, hl⟩ := split_run_inv hr
  have hs : counter_inv dir s :=
    (split_loop_invariant (fun s _ => counter_inv dir s)
      (fun s l s' l' hi _ _ hstep => split_step_counter hi hstep) _ _ _ _ _ hinv hl).1
  rcases hfl with ⟨-, saved, hsv, hseg⟩ | ⟨-, hseg⟩
  · rw [hseg]; exact counter_inv_save hs hsv
  · rw [hseg]; exact hs

/-- The method `load_next_buffer` changes no member other than `start`. -/
theorem load_next_buffer_snd (env : Env) (seg : AudioSegmentor) :
    (load_next_buffer env seg).2 = { seg with start := seg.start + BUFFER_LIMIT_DURATION } := by
  unfold load_next_buffer
  simp only
  split_ifs <;> rfl

theorem split_vocals_counter (env : Env) (dir : String) :
    ∀ (fuel : Nat) (seg : AudioSegmentor) (ret : Int) (seg' : AudioSegmentor),
      counter_inv dir seg → split_vocals env fuel seg = Except.ok (ret, seg') →
      counter_inv dir seg' := by
  intro fuel
  induction fuel with
  | zero => intro seg ret seg' _ h; cases h
  | succ fuel ih =>
    intro seg ret seg' hinv h
    unfold split_vocals at h
    have hsnd := load_next_buffer_snd env seg
    have hinv1 : counter_inv dir (load_next_buffer env seg).2 := by rw [hsnd]; exact hinv
    revert h hinv1
    generalize load_next_buffer env seg = r
    obtain ⟨w, s1⟩ := r
    intro h hinv1
    cases w with
    | none =>
      simp only at h
      split_ifs at h <;>
      · injection h with h
        injection h with _ h2
        rw [← h2]; exact hinv1
    | some chunk =>
      simp only at h
      cases hs : split_array env s1 (get_vocal_windows (env.compute_rms chunk.wave)) with
      | error e => rw [hs] at h; cases h
      | ok s2 =>
        rw [hs] at h
        exact ih s2 ret seg' (split_array_counter hinv1 hs) h

/-- C3. Split counter.  Whenever a run of `split_vocals` on a freshly constructed segmentor
returns (so every write succeeded), the `k`-th file written over the whole run was written
under index `k` (the indices are `0, 1, ..., N - 1` in this order), `n_vocal_splits` equals
the number `N` of files written, and every file is named `<save_dir>/vocal_<index>.wav`. -/
theorem split_vocals_counter_contiguous (env : Env) (save_dir : String) (processing_sr : Int)
    (min_vocal_length perc_vocal_windows : ℚ) (fuel : Nat) (ret : Int) (seg' : AudioSegmentor)
    (h : split_vocals env fuel
      (AudioSegmentor.init env save_dir processing_sr min_vocal_length perc_vocal_windows) =
        Except.ok (ret, seg')) :
    seg'.written.map Clip.split = (List.range seg'.written.length).map Int.ofNat ∧
    seg'.n_vocal_splits = (seg'.written.length : Int) ∧
    ∀ c ∈ seg'.written, c.fname = save_dir ++ "/vocal_" ++ toString c.split ++ ".wav" := by
  have h0 : counter_inv save_dir
      (AudioSegmentor.init env save_dir processing_sr min_vocal_length perc_vocal_windows) := by
    refine ⟨rfl, rfl, rfl, ?_⟩
    intro c hc
    cases hc
  obtain ⟨-, h1, h2, h3⟩ := split_vocals_counter env save_dir fuel _ ret seg' h0 h
  exact ⟨h2, h1, h3⟩

/-- The split-counter theorem applied to a run of two chunks that writes two files. -/
theorem split_vocals_counter_contiguous_witness :
    split_vocals two_chunk_env 3 (AudioSegmentor.init two_chunk_env "out" default_processing_sr
      default_min_vocal_length default_perc_vocal_windows) = Except.ok (1, two_chunk_result) ∧
    (two_chunk_result.written.map Clip.split =
        (List.range two_chunk_result.written.length).map Int.ofNat ∧
      two_chunk_result.n_vocal_splits = (two_chunk_result.written.length : Int) ∧
      ∀ c ∈ two_chunk_result.written,
        c.fname = "out" ++ "/vocal_" ++ toString c.split ++ ".wav") :=
  ⟨by decide!,
   split_vocals_counter_contiguous two_chunk_env "out" default_processing_sr
     default_min_vocal_length default_perc_vocal_windows 3 1 two_chunk_result (by decide!)⟩

/-! ## Chunk planning -/

theorem lt_chunk_count {frames samplerate : Int} (hR : 0 < samplerate) (k : Nat) :
    k < chunk_count frames samplerate ↔ 60 * samplerate * (k : Int) < frames := by
  have hR' : (0 : ℚ) < 60 * (samplerate : ℚ) := by
    have : (0 : ℚ) < (samplerate : ℚ) := by exact_mod_cast hR
    linarith
  unfold chunk_count
  rw [Int.lt_toNat, Int.lt_ceil, lt_div_iff₀ hR']
  constructor
  · intro h
    have : ((60 * samplerate * (k : Int) : Int) : ℚ) < (frames : ℚ) := by
      push_cast
      push_cast at h
      linarith
    exact_mod_cast this
  · intro h
    have : ((60 * samplerate * (k : Int) : Int) : ℚ) < (frames : ℚ) := by exact_mod_cast h
    push_cast at this ⊢
    linarith

/-- The frame arithmetic of `load_next_buffer` in the state before call number `j`. -/
theorem load_frames (env : Env) (j : Nat) (hR : 0 < env.sf_info.samplerate) :
    ((60 * (j : ℚ) < (env.sf_info.frames : ℚ) / (env.sf_info.samplerate : ℚ)) ↔
      chunk_start env j < env.sf_info.frames) ∧
    truncToInt (60 * (j : ℚ) * (env.sf_info.samplerate : ℚ)) = chunk_start env j ∧
    truncToInt (min (60 * (j : ℚ) + 60)
      ((env.sf_info.frames : ℚ) / (env.sf_info.samplerate : ℚ)) *
        (env.sf_info.samplerate : ℚ)) = chunk_start env j + chunk_frames env j := by
  have hR' : (0 : ℚ) < (env.sf_info.samplerate : ℚ) := by exact_mod_cast hR
  refine ⟨?_, ?_, ?_⟩
  · rw [lt_div_iff₀ hR']
    unfold chunk_start
    constructor
    · intro h
      have : ((60 * env.sf_info.samplerate * (j : Int) : Int) : ℚ) < (env.sf_info.frames : ℚ) := by
        push_cast; linarith
      exact_mod_cast this
    · intro h
      have : ((60 * env.sf_info.samplerate * (j : Int) : Int) : ℚ) < (env.sf_info.frames : ℚ) := by
        exact_mod_cast h
      push_cast at this; linarith
  · have : 60 * (j : ℚ) * (env.sf_info.samplerate : ℚ) =
        ((chunk_start env j : Int) : ℚ) := by
      unfold chunk_start; push_cast; ring
    rw [this, truncToInt_intCast]
  · have e1 : (60 * (j : ℚ) + 60) * (env.sf_info.samplerate : ℚ) =
        ((60 * env.sf_info.samplerate * ((j : Int) + 1) : Int) : ℚ) := by
      push_cast; ring
    have : min (60 * (j : ℚ) + 60) ((env.sf_info.frames : ℚ) / (env.sf_info.samplerate : ℚ)) *
        (env.sf_info.samplerate : ℚ) =
        ((chunk_start env j + chunk_frames env j : Int) : ℚ) := by
      rw [min_mul_of_nonneg _ _ hR'.le, div_mul_cancel₀ _ hR'.ne', e1, ← Int.cast_min]
      congr 1
      unfold chunk_frames
      ring
    rw [this, truncToInt_intCast]

/-- One call of `load_next_buffer` in the state before call number `j`. -/
theorem load_next_buffer_eq (env : Env) (seg : AudioSegmentor) (j : Nat)
    (hR : 0 < env.sf_info.samplerate)
    (hstart : seg.start = 60 * (j : ℚ) - 60)
    (hend : seg.end_time = (env.sf_info.frames : ℚ) / (env.sf_info.samplerate : ℚ)) :
    load_next_buffer env seg =
      (if chunk_start env j < env.sf_info.frames ∧ ¬ chunk_fails env j then
          some (loaded_chunk env seg (chunk_start env j) (chunk_frames env j))
        else none,
       { seg with start := 60 * (j : ℚ) }) := by
  obtain ⟨h1, h2, h3⟩ := load_frames env j hR
  have hs : seg.start + BUFFER_LIMIT_DURATION = 60 * (j : ℚ) := by
    rw [hstart]; unfold BUFFER_LIMIT_DURATION; ring
  have hs2 : (60 : ℚ) * (j : ℚ) + BUFFER_LIMIT_DURATION = 60 * (j : ℚ) + 60 := rfl
  unfold load_next_buffer
  simp only [hs, hs2, hend, h2, h3, h1, add_sub_cancel_left, chunk_fails]
  by_cases hlt : chunk_start env j < env.sf_info.frames
  · by_cases hk : env.sf_seek (chunk_start env j) = -1
    · simp [hlt, hk, ← hend]
    · by_cases hr : (env.sf_readf_float (chunk_start env j) (chunk_frames env j)).1
          < chunk_frames env j
      · simp [hlt, hk, hr, ← hend]
      · simp [hlt, hk, hr, loaded_chunk, ← hend]
  · simp [hlt, ← hend]

/-- Successive calls only advance `start`: call number `k` counted from a state before call
number `j` is one call made in the state before call number `j + k`. -/
theorem load_call_eq (env : Env) :
    ∀ (k j : Nat) (seg : AudioSegmentor), seg.start = 60 * (j : ℚ) - 60 →
      load_call env seg k =
        load_next_buffer env { seg with start := 60 * ((j + k : Nat) : ℚ) - 60 } := by
  intro k
  induction k with
  | zero =>
    intro j seg h
    simp only [load_call, Nat.add_zero]
    rw [← h]
  | succ k ih =>
    intro j seg h
    simp only [load_call]
    rw [load_next_buffer_snd, ih (j + 1) _ (by
      simp only [h, BUFFER_LIMIT_DURATION]; push_cast; ring)]
    have : j + 1 + k = j + (k + 1) := by omega
    rw [this]

/-- Call number `k` of `load_next_buffer` on a freshly constructed segmentor. -/
theorem load_call_init (env : Env) (save_dir : String) (processing_sr : Int)
    (min_vocal_length perc_vocal_windows : ℚ) (hR : 0 < env.sf_info.samplerate) (k : Nat) :
    ∃ seg, (load_call env (AudioSegmentor.init env save_dir processing_sr min_vocal_length
        perc_vocal_windows) k).1 =
      if chunk_start env k < env.sf_info.frames ∧ ¬ chunk_fails env k then
        some (loaded_chunk env seg (chunk_start env k) (chunk_frames env k))
      else none := by
  refine ⟨{ AudioSegmentor.init env save_dir processing_sr min_vocal_length
    perc_vocal_windows with start := 60 * ((0 + k : Nat) : ℚ) - 60 }, ?_⟩
  rw [load_call_eq env k 0 _ (by simp [AudioSegmentor.init, BUFFER_LIMIT_DURATION]),
    load_next_buffer_eq env _ (0 + k) hR rfl rfl]
  simp only [Nat.zero_add]

/-- C4. Chunk planning.  For a source of `F` frames at rate `R > 0` whose seeks and reads all
succeed, successive calls of `load_next_buffer` on a fresh segmentor return a chunk exactly
for the call numbers `k < ⌈F / (60 R)⌉`; chunk `k` starts at frame `60 R k`, ends at frame
`min (60 R (k + 1)) F`, is non-empty and at most `60 R` frames long; each chunk ends where
the next one starts, the last one ends at `F`; a source of `90 R` frames is read as two
chunks of `60 R` and `30 R` frames. -/
theorem load_next_buffer_chunk_plan (env : Env) (save_dir : String) (processing_sr : Int)
    (min_vocal_length perc_vocal_windows : ℚ)
    (hR : 0 < env.sf_info.samplerate)
    (hseek : ∀ pos, 0 ≤ pos → env.sf_seek pos ≠ -1)
    (hread : ∀ pos n, n ≤ (env.sf_readf_float pos n).1) :
    (∀ k, k < chunk_count env.sf_info.frames env.sf_info.samplerate →
      ∃ c, (load_call env (AudioSegmentor.init env save_dir processing_sr min_vocal_length
          perc_vocal_windows) k).1 = some c ∧
        c.start_frame = 60 * env.sf_info.samplerate * (k : Int) ∧
        c.start_frame + c.num_frames =
          min (60 * env.sf_info.samplerate * ((k : Int) + 1)) env.sf_info.frames ∧
        0 < c.num_frames ∧ c.num_frames ≤ 60 * env.sf_info.samplerate) ∧
    (∀ k, chunk_count env.sf_info.frames env.sf_info.samplerate ≤ k →
      (load_call env (AudioSegmentor.init env save_dir processing_sr min_vocal_length
          perc_vocal_windows) k).1 = none) ∧
    (∀ k, k + 1 < chunk_count env.sf_info.frames env.sf_info.samplerate →
      ∃ c c', (load_call env (AudioSegmentor.init env save_dir processing_sr min_vocal_length
          perc_vocal_windows) k).1 = some c ∧
        (load_call env (AudioSegmentor.init env save_dir processing_sr min_vocal_length
          perc_vocal_windows) (k + 1)).1 = some c' ∧
        c.start_frame + c.num_frames = c'.start_frame) ∧
    (∀ k, k + 1 = chunk_count env.sf_info.frames env.sf_info.samplerate →
      ∃ c, (load_call env (AudioSegmentor.init env save_dir processing_sr min_vocal_length
          perc_vocal_windows) k).1 = some c ∧
        c.start_frame + c.num_frames = env.sf_info.frames) ∧
    (env.sf_info.frames = 90 * env.sf_info.samplerate →
      chunk_count env.sf_info.frames env.sf_info.samplerate = 2 ∧
      ∃ c c', (load_call env (AudioSegmentor.init env save_dir processing_sr min_vocal_length
          perc_vocal_windows) 0).1 = some c ∧
        (load_call env (AudioSegmentor.init env save_dir processing_sr min_vocal_length
          perc_vocal_windows) 1).1 = some c' ∧
        c.start_frame = 0 ∧ c.num_frames = 60 * env.sf_info.samplerate ∧
        c'.start_frame = 60 * env.sf_info.samplerate ∧
        c'.num_frames = 30 * env.sf_info.samplerate) := by
  have hgood : ∀ k, ¬ chunk_fails env k := by
    intro k hk
    rcases hk with hk | hk
    · refine hseek _ ?_ hk
      unfold chunk_start
      positivity
    · have := hread (chunk_start env k) (chunk_frames env k)
      omega
  have hsome : ∀ k, k < chunk_count env.sf_info.frames env.sf_info.samplerate →
      ∃ c, (load_call env (AudioSegmentor.init env save_dir processing_sr min_vocal_length
          perc_vocal_windows) k).1 = some c ∧
        c.start_frame = 60 * env.sf_info.samplerate * (k : Int) ∧
        c.start_frame + c.num_frames =
          min (60 * env.sf_info.samplerate * ((k : Int) + 1)) env.sf_info.frames ∧
        0 < c.num_frames ∧ c.num_frames ≤ 60 * env.sf_info.samplerate := by
    intro k hk
    have hlt := (lt_chunk_count hR k).mp hk
    obtain ⟨seg, hseg⟩ := load_call_init env save_dir processing_sr min_vocal_length
      perc_vocal_windows hR k
    rw [if_pos ⟨hlt, hgood k⟩] at hseg
    have e : 60 * env.sf_info.samplerate * ((k : Int) + 1) =
        60 * env.sf_info.samplerate * (k : Int) + 60 * env.sf_info.samplerate := by ring
    refine ⟨_, hseg, rfl, ?_, ?_, ?_⟩
    · simp only [loaded_chunk, chunk_frames, chunk_start]; omega
    · simp only [loaded_chunk, chunk_frames, chunk_start]; omega
    · simp only [loaded_chunk, chunk_frames, chunk_start]; omega
  have hnone : ∀ k, chunk_count env.sf_info.frames env.sf_info.samplerate ≤ k →
      (load_call env (AudioSegmentor.init env save_dir processing_sr min_vocal_length
          perc_vocal_windows) k).1 = none := by
    intro k hk
    have hlt : ¬ chunk_start env k < env.sf_info.frames := by
      intro h
      exact absurd ((lt_chunk_count hR k).mpr h) (by omega)
    obtain ⟨seg, hseg⟩ := load_call_init env save_dir processing_sr min_vocal_length
      perc_vocal_windows hR k
    rw [hseg, if_neg (fun h => hlt h.1)]
  refine ⟨hsome, hnone, ?_, ?_, ?_⟩
  · intro k hk
    obtain ⟨c, hc, h1, h2, -, -⟩ := hsome k (by omega)
    obtain ⟨c', hc', h1', -, -, -⟩ := hsome (k + 1) hk
    have hlt := (lt_chunk_count hR (k + 1)).mp hk
    refine ⟨c, c', hc, hc', ?_⟩
    rw [h2, h1']
    push_cast at hlt ⊢
    have e : 60 * env.sf_info.samplerate * ((k : Int) + 1) =
        60 * env.sf_info.samplerate * (k : Int) + 60 * env.sf_info.samplerate := by ring
    omega
  · intro k hk
    obtain ⟨c, hc, h1, h2, -, -⟩ := hsome k (by omega)
    have hge : ¬ 60 * env.sf_info.samplerate * ((k + 1 : Nat) : Int) < env.sf_info.frames := by
      intro h
      exact absurd ((lt_chunk_count hR (k + 1)).mpr h) (by omega)
    refine ⟨c, hc, ?_⟩
    rw [h2]
    push_cast at hge
    have e : 60 * env.sf_info.samplerate * ((k : Int) + 1) =
        60 * env.sf_info.samplerate * (k : Int) + 60 * env.sf_info.samplerate := by ring
    omega
  · intro hF
    have hcount : chunk_count env.sf_info.frames env.sf_info.samplerate = 2 := by
      have h1 := (@lt_chunk_count env.sf_info.frames env.sf_info.samplerate hR 1).mpr (by omega)
      have h2 : ¬ 2 < chunk_count env.sf_info.frames env.sf_info.samplerate := by
        intro h
        have := (lt_chunk_count hR 2).mp h
        omega
      omega
    refine ⟨hcount, ?_⟩
    obtain ⟨c, hc, h1, h2, -, -⟩ := hsome 0 (by omega)
    obtain ⟨c', hc', h1', h2', -, -⟩ := hsome 1 (by omega)
    refine ⟨c, c', hc, hc', ?_, ?_, ?_, ?_⟩ <;> omega

/-- The chunk-planning theorem applied to a source of 90 seconds at 16 kHz. -/
theorem load_next_buffer_chunk_plan_witness :
    chunk_count two_chunk_env.sf_info.frames two_chunk_env.sf_info.samplerate = 2 ∧
    ∃ c c', (load_call two_chunk_env (AudioSegmentor.init two_chunk_env "out"
          default_processing_sr default_min_vocal_length default_perc_vocal_windows) 0).1 =
        some c ∧
      (load_call two_chunk_env (AudioSegmentor.init two_chunk_env "out"
          default_processing_sr default_min_vocal_length default_perc_vocal_windows) 1).1 =
        some c' ∧
      c.start_frame = 0 ∧ c.num_frames = 60 * two_chunk_env.sf_info.samplerate ∧
      c'.start_frame = 60 * two_chunk_env.sf_info.samplerate ∧
      c'.num_frames = 30 * two_chunk_env.sf_info.samplerate :=
  (load_next_buffer_chunk_plan two_chunk_env "out" default_processing_sr
    default_min_vocal_length default_perc_vocal_windows (by decide)
    (fun pos h => by simp only [two_chunk_env, plain_env]; omega)
    (fun pos n => le_refl n)).2.2.2.2 (by decide)

/-! ## The result of a run -/

theorem takeWhile_append_of_all {p : Clip → Bool} :
    ∀ (l1 l2 : List Clip), (∀ c ∈ l1, p c = true) →
      (l1 ++ l2).takeWhile p = l1 ++ l2.takeWhile p := by
  intro l1
  induction l1 with
  | nil => intro l2 _; rfl
  | cons c cs ih =>
    intro l2 h
    have hc : p c = true := h c (List.mem_cons_self _ _)
    simp only [List.cons_append, List.takeWhile_cons, hc, if_true]
    rw [ih l2 (fun d hd => h d (List.mem_cons_of_mem _ hd))]

theorem takeWhile_append_of_not_all {p : Clip → Bool} :
    ∀ (l1 l2 : List Clip), ¬ (∀ c ∈ l1, p c = true) →
      (l1 ++ l2).takeWhile p = l1.takeWhile p := by
  intro l1
  induction l1 with
  | nil => intro l2 h; exact absurd (fun c hc => by cases hc) h
  | cons c cs ih =>
    intro l2 h
    by_cases hc : p c = true
    · simp only [List.cons_append, List.takeWhile_cons, hc, if_true]
      rw [ih l2 (fun hall => h (fun d hd => by
        rcases List.mem_cons.mp hd with rfl | hd
        · exact hc
        · exact hall d hd))]
    · simp only [List.cons_append, List.takeWhile_cons, hc]
      rfl

theorem lockstep_refl {α : Type} (env : Env) (x : AudioSegmentor) (a : α) :
    lockstep env x x (Except.ok a) a :=
  ⟨[], by simp, fun _ => rfl, fun h => absurd (fun c hc => by cases hc) h⟩

theorem lockstep_written {α : Type} {env : Env} {x x' y : AudioSegmentor}
    {r : Except Fault α} {ry : α} (hx : x'.written = x.written) (h : lockstep env x y r ry) :
    lockstep env x' y r ry := by
  unfold lockstep at *
  rw [hx]
  exact h

/-- Two calls in sequence are in lockstep when each of them is. -/
theorem lockstep_trans {α β : Type} {env : Env} {x y z : AudioSegmentor}
    {r1 : Except Fault α} {a : α} {r2 r : Except Fault β} {b : β}
    (h1 : lockstep env x y r1 a) (h2 : lockstep env y z r2 b)
    (hok : r1 = Except.ok a → r = r2) (herr : ∀ e, r1 = Except.error e → r = Except.error e) :
    lockstep env x z r b := by
  obtain ⟨new1, hw1, hall1, hnot1⟩ := h1
  obtain ⟨new2, hw2, hall2, hnot2⟩ := h2
  refine ⟨new1 ++ new2, by rw [hw2, hw1, List.append_assoc], ?_, ?_⟩
  · intro hall
    have ha1 : ∀ c ∈ new1, opens env c = true :=
      fun c hc => hall c (List.mem_append_left _ hc)
    have ha2 : ∀ c ∈ new2, opens env c = true :=
      fun c hc => hall c (List.mem_append_right _ hc)
    rw [hok (hall1 ha1), hall2 ha2]
  · intro hnot
    by_cases ha1 : ∀ c ∈ new1, opens env c = true
    · have hn2 : ¬ ∀ c ∈ new2, opens env c = true := by
        intro ha2
        apply hnot
        intro c hc
        rcases List.mem_append.mp hc with hc | hc
        · exact ha1 c hc
        · exact ha2 c hc
      obtain ⟨st, hst, hsw, hso⟩ := hnot2 hn2
      refine ⟨st, by rw [hok (hall1 ha1), hst], ?_, hso⟩
      rw [hsw, hw1, takeWhile_append_of_all new1 new2 ha1, List.append_assoc]
    · obtain ⟨st, hst, hsw, hso⟩ := hnot1 ha1
      refine ⟨st, herr _ hst, ?_, hso⟩
      rw [hsw, takeWhile_append_of_not_all new1 new2 ha1]

/-- Writing one segment, in `env` and with every destination opening. -/
theorem save_vocals_lockstep (env : Env) {seg saved : AudioSegmentor} {a b : Int}
    (h : save_vocals (open_all env) seg a b = Except.ok saved) :
    lockstep env seg saved (save_vocals env seg a b) saved := by
  have hr := save_vocals_range h
  have hsaved := (save_vocals_inv h).2
  refine ⟨[_], by rw [hsaved], ?_, ?_⟩
  · intro hall
    have := hall _ (List.mem_singleton_self _)
    rw [hsaved]
    exact save_vocals_ok seg a b this hr
  · intro hnot
    have hf : env.sf_open_write (get_save_filename seg) = false := by
      by_contra hne
      apply hnot
      intro c hc
      rw [List.mem_singleton] at hc
      subst hc
      simpa [opens] using hne
    refine ⟨seg, by simp [save_vocals, hf], ?_, hf⟩
    have hc : opens env
        ({ fname := get_save_filename seg, split := seg.n_vocal_splits,
           start_sample := a * seg.fftp.hop_length,
           end_sample := b * seg.fftp.hop_length } : Clip) = false := hf
    rw [List.takeWhile_cons, hc]
    simp

theorem lockstep_of_written {α : Type} (env : Env) {x y : AudioSegmentor} (a : α)
    (h : y.written = x.written) : lockstep env x y (Except.ok a) a :=
  ⟨[], by simp [h], fun _ => rfl, fun h => absurd (fun c hc => by cases hc) h⟩

/-- One iteration of the loop, in `env` and with every destination opening. -/
theorem split_step_lockstep {env : Env} {vw : List Int} {s s' : AudioSegmentor}
    {l l' : Locals} (h : split_step (open_all env) vw s l = Except.ok (s', l')) :
    lockstep env s s' (split_step env vw s l) (s', l') := by
  obtain ⟨entering, leaving, h1, h2, hcfg⟩ := split_step_inv h
  unfold split_step at h ⊢
  rw [h1, h2] at h ⊢
  simp only at h ⊢
  generalize (if l.window_sum + entering - leaving > s.n_vocal_windows
    then (1 : Int) else 0) = vocal at h hcfg ⊢
  by_cases hc : vocal ≠ l.curr_vocal ∧ l.curr_window_duration > s.min_vocal_length
  · rw [if_pos hc] at h ⊢
    by_cases hv : l.curr_vocal ≠ 0
    · rw [if_pos hv] at h ⊢
      cases h3 : get_sil_start_idx s vw l.ptr with
      | error e => rw [h3] at h; cases h
      | ok vocal_end =>
        rw [h3] at h
        simp only at h ⊢
        obtain ⟨saved, hsv⟩ :
            ∃ saved, save_vocals (open_all env) s l.curr_start_idx vocal_end =
              Except.ok saved := by
          cases hsv : save_vocals (open_all env) s l.curr_start_idx vocal_end with
          | error e => rw [hsv] at h; cases h
          | ok saved => exact ⟨saved, rfl⟩
        have hlock := save_vocals_lockstep env hsv
        rw [hsv] at h
        simp only at h
        injection h with h
        injection h with hs' hl'
        subst hs' hl'
        refine lockstep_trans hlock (lockstep_of_written env _ rfl) ?_ ?_
        · intro hok; rw [hok]
        · intro e herr; rw [herr]
    · rw [if_neg hv] at h ⊢
      rw [h]
      obtain ⟨_, _, hk | ⟨_, _, _, _, hk | hk⟩⟩ := hcfg
      · exact lockstep_of_written env _ (by rw [hk.2.1])
      · exact absurd hk.1 hv
      · exact lockstep_of_written env _ (by rw [hk.2.1])
  · rw [if_neg hc] at h ⊢
    rw [h]
    injection h with h
    injection h with hs' _
    exact lockstep_of_written env _ (by rw [← hs'])

/-- The loop of `split_array`, in `env` and with every destination opening. -/
theorem split_loop_lockstep (env : Env) (vw : List Int) :
    ∀ (fuel : Nat) (s : AudioSegmentor) (l : Locals) (s' : AudioSegmentor) (l' : Locals),
      split_loop (open_all env) vw fuel s l = Except.ok (s', l') →
      lockstep env s s' (split_loop env vw fuel s l) (s', l') := by
  intro fuel
  induction fuel with
  | zero =>
    intro s l s' l' h
    unfold split_loop at h ⊢
    by_cases hc : 0 ≤ l.ptr ∧ l.ptr < (vw.length : Int)
    · rw [if_pos hc] at h; cases h
    · rw [if_neg hc] at h ⊢
      injection h with h
      injection h with h1 h2
      subst h1 h2
      exact lockstep_refl env _ _
  | succ fuel ih =>
    intro s l s' l' h
    unfold split_loop at h ⊢
    by_cases hc : 0 ≤ l.ptr ∧ l.ptr < (vw.length : Int)
    · rw [if_pos hc] at h ⊢
      simp only at h ⊢
      cases hs : split_step (open_all env) vw s l with
      | error e => rw [hs] at h; cases h
      | ok r1 =>
        obtain ⟨s1, l1⟩ := r1
        rw [hs] at h
        simp only at h
        refine lockstep_trans (split_step_lockstep hs) (ih s1 l1 s' l' h) ?_ ?_
        · intro hok; rw [hok]
        · intro e herr; rw [herr]
    · rw [if_neg hc] at h ⊢
      injection h with h
      injection h with h1 h2
      subst h1 h2
      exact lockstep_refl env _ _

/-- The method `split_array`, in `env` and with every destination opening. -/
theorem split_array_lockstep {env : Env} {s s' : AudioSegmentor} {vw : List Int}
    (h : split_array (open_all env) s vw = Except.ok s') :
    lockstep env s s' (split_array env s vw) s' := by
  unfold split_array split_run at h ⊢
  cases hi : initial_sum vw s.min_buffer_len.toNat 0 0 with
  | error e => rw [hi] at h; cases h
  | ok ws =>
    rw [hi] at h
    simp only at h ⊢
    cases hl : split_loop (open_all env) vw vw.length s
        { window_sum := ws, ptr := 0 + s.min_buffer_len,
          curr_vocal := if ws > s.n_vocal_windows then 1 else 0, curr_start_idx := 0,
          curr_window_duration :=
            ((s.fftp.hop_length : ℚ) * (s.min_buffer_len : ℚ)) / (s.processing_sr : ℚ),
          transitions := [] } with
    | error e => rw [hl] at h; cases h
    | ok r1 =>
      obtain ⟨s1, l1⟩ := r1
      rw [hl] at h
      simp only at h
      have hloop := split_loop_lockstep env vw _ _ _ _ _ hl
      by_cases hv : l1.curr_vocal ≠ 0
      · rw [if_pos hv] at h
        obtain ⟨saved, hsv⟩ :
            ∃ saved, save_vocals (open_all env) s1 l1.curr_start_idx l1.ptr =
              Except.ok saved := by
          cases hsv : save_vocals (open_all env) s1 l1.curr_start_idx l1.ptr with
          | error e => rw [hsv] at h; cases h
          | ok saved => exact ⟨saved, rfl⟩
        have hlock := save_vocals_lockstep env hsv
        rw [hsv] at h
        simp only at h
        injection h with h
        subst h
        have hflush : lockstep env s1
            { saved with n_vocal_splits := saved.n_vocal_splits + 1 }
            (match save_vocals env s1 l1.curr_start_idx l1.ptr with
              | Except.error e => Except.error e
              | Except.ok saved =>
                Except.ok { saved with n_vocal_splits := saved.n_vocal_splits + 1 })
            { saved with n_vocal_splits := saved.n_vocal_splits + 1 } := by
          refine lockstep_trans hlock (lockstep_of_written env _ rfl) ?_ ?_
          · intro hok; rw [hok]
          · intro e herr; rw [herr]
        refine lockstep_trans hloop hflush ?_ ?_
        · intro hok; rw [hok]; simp only; rw [if_pos hv]
        · intro e herr; rw [herr]
      · rw [if_neg hv] at h
        injection h with h
        subst h
        refine lockstep_trans hloop (lockstep_refl env s1 s1) ?_ ?_
        · intro hok; rw [hok]; simp only; rw [if_neg hv]
        · intro e herr; rw [herr]

/-- The method `split_vocals`, in `env` and with every destination opening. -/
theorem split_vocals_lockstep (env : Env) :
    ∀ (fuel : Nat) (seg : AudioSegmentor) (ret : Int) (seg' : AudioSegmentor),
      split_vocals (open_all env) fuel seg = Except.ok (ret, seg') →
      lockstep env seg seg' (split_vocals env fuel seg) (ret, seg') := by
  intro fuel
  induction fuel with
  | zero => intro seg ret seg' h; cases h
  | succ fuel ih =>
    intro seg ret seg' h
    unfold split_vocals at h ⊢
    have hload : load_next_buffer (open_all env) seg = load_next_buffer env seg := rfl
    rw [hload] at h
    have hw : (load_next_buffer env seg).2.written = seg.written := by
      rw [load_next_buffer_snd]
    revert h hw
    generalize load_next_buffer env seg = r
    obtain ⟨w, s1⟩ := r
    intro h hw
    simp only at hw
    cases w with
    | none =>
      simp only at h ⊢
      rw [h]
      have : seg'.written = seg.written := by
        split_ifs at h <;>
        · injection h with h
          injection h with _ h2
          rw [← h2, hw]
      exact lockstep_of_written env _ this
    | some chunk =>
      simp only at h ⊢
      have hmask : (open_all env).compute_rms chunk.wave = env.compute_rms chunk.wave := rfl
      rw [hmask] at h
      cases hs : split_array (open_all env) s1 (get_vocal_windows (env.compute_rms chunk.wave)) with
      | error e => rw [hs] at h; cases h
      | ok s2 =>
        rw [hs] at h
        simp only at h
        refine lockstep_written hw.symm ?_
        refine lockstep_trans (split_array_lockstep hs) (ih s2 ret seg' h) ?_ ?_
        · intro hok; rw [hok]
        · intro e herr; rw [herr]

/-- C6, as the code has it.  A write failure ends the run.  Take the run in which every
destination opens, and let `new` be the files it writes, in order.  If `env` opens all of
them, the run in `env` is the same.  Otherwise the run in `env` ends with the exception
thrown by `save_vocals` at the first file that `env` cannot open: the files written are
exactly those before it, so no later window or chunk is processed and no later segment is
emitted; and for the segmentor that `main` constructs, `main` exits with status `1`. -/
theorem split_vocals_write_failure (env : Env) (fuel : Nat) (seg : AudioSegmentor) (ret : Int)
    (seg' : AudioSegmentor)
    (h : split_vocals (open_all env) fuel seg = Except.ok (ret, seg')) :
    ∃ new, seg'.written = seg.written ++ new ∧
      ((∀ c ∈ new, env.sf_open_write c.fname = true) →
        split_vocals env fuel seg = Except.ok (ret, seg')) ∧
      (¬ (∀ c ∈ new, env.sf_open_write c.fname = true) →
        (∃ st, split_vocals env fuel seg = Except.error (Fault.runtime_error st) ∧
          st.written = seg.written ++ new.takeWhile (fun c => env.sf_open_write c.fname) ∧
          env.sf_open_write (get_save_filename st) = false) ∧
        ∀ save_dir processing_sr,
          seg = AudioSegmentor.init env save_dir processing_sr default_min_vocal_length
            default_perc_vocal_windows →
          main_status env fuel save_dir processing_sr = some 1) := by
  obtain ⟨new, hw, hall, hnot⟩ := split_vocals_lockstep env fuel seg ret seg' h
  refine ⟨new, hw, hall, ?_⟩
  intro hn
  obtain ⟨st, hst, hsw, hso⟩ := hnot hn
  refine ⟨⟨st, hst, hsw, hso⟩, ?_⟩
  intro save_dir processing_sr hseg
  unfold main_status
  rw [← hseg, hst]

/-- The write-failure theorem applied to a source of two chunks with two voiced regions
each, where `out/vocal_0.wav` cannot be opened: the run throws before anything is written. -/
theorem split_vocals_write_failure_witness :
    ∃ new, two_regions_result.written =
        (default_segmentor (first_open_fails_env 1440000 (some two_regions))).written ++ new ∧
      ((∀ c ∈ new, (first_open_fails_env 1440000 (some two_regions)).sf_open_write c.fname
          = true) →
        split_vocals (first_open_fails_env 1440000 (some two_regions)) 3
          (default_segmentor (first_open_fails_env 1440000 (some two_regions))) =
            Except.ok (1, two_regions_result)) ∧
      (¬ (∀ c ∈ new, (first_open_fails_env 1440000 (some two_regions)).sf_open_write c.fname
          = true) →
        (∃ st, split_vocals (first_open_fails_env 1440000 (some two_regions)) 3
            (default_segmentor (first_open_fails_env 1440000 (some two_regions))) =
              Except.error (Fault.runtime_error st) ∧
          st.written =
            (default_segmentor (first_open_fails_env 1440000 (some two_regions))).written ++
              new.takeWhile
                (fun c => (first_open_fails_env 1440000 (some two_regions)).sf_open_write
                  c.fname) ∧
          (first_open_fails_env 1440000 (some two_regions)).sf_open_write
            (get_save_filename st) = false) ∧
        ∀ save_dir processing_sr,
          default_segmentor (first_open_fails_env 1440000 (some two_regions)) =
            AudioSegmentor.init (first_open_fails_env 1440000 (some two_regions)) save_dir
              processing_sr default_min_vocal_length default_perc_vocal_windows →
          main_status (first_open_fails_env 1440000 (some two_regions)) 3 save_dir
            processing_sr = some 1) :=
  split_vocals_write_failure (first_open_fails_env 1440000 (some two_regions)) 3
    (default_segmentor (first_open_fails_env 1440000 (some two_regions))) 1 two_regions_result
    (by decide!)

/-- C6 fails as stated: on a source of two chunks with two voiced regions each, the run
writes four files when every destination opens; when `out/vocal_0.wav` cannot be opened,
the exception leaves `split_array` and `split_vocals` at the first segment, nothing is
written (neither the second region of the chunk nor the regions of the second chunk), and
`main` exits with status `1`. -/
theorem split_vocals_write_failure_aborts :
    split_vocals (plain_env 1440000 (some two_regions)) 3
      (default_segmentor (plain_env 1440000 (some two_regions))) =
        Except.ok (1, two_regions_result) ∧
    two_regions_result.written.length = 4 ∧
    split_array (first_open_fails_env 1440000 (some two_regions))
      { default_segmentor (first_open_fails_env 1440000 (some two_regions)) with start := 0 }
      (get_vocal_windows (some two_regions)) =
        Except.error (Fault.runtime_error
          { default_segmentor (first_open_fails_env 1440000 (some two_regions)) with
            start := 0 }) ∧
    split_vocals (first_open_fails_env 1440000 (some two_regions)) 3
      (default_segmentor (first_open_fails_env 1440000 (some two_regions))) =
        Except.error (Fault.runtime_error
          { default_segmentor (first_open_fails_env 1440000 (some two_regions)) with
            start := 0 }) ∧
    ({ default_segmentor (first_open_fails_env 1440000 (some two_regions)) with
        start := 0 } : AudioSegmentor).written = [] ∧
    main_status (first_open_fails_env 1440000 (some two_regions)) 3 "out"
      default_processing_sr = some 1 := by
  decide!

/-! ## The empty mask -/

/-- C7. An empty mask is not skipped.  At processing rate 235 the hop length is 1 and the
window length 5, so a chunk of 0 frames has 0 windows and `get_vocal_windows` returns the
empty mask; `min_buffer_len` is 35 and `split_array` reads `vocal_windows[0]` of the empty
vector.  The same happens with the default parameters when `compute_rms` returns the null
pointer. -/
theorem split_array_empty_mask_reads_out_of_range :
    rms_windows (get_fft_params_from_sr 235) 0 = 0 ∧
    get_vocal_windows (some []) = [] ∧
    (AudioSegmentor.init (plain_env 0 none) "out" 235 default_min_vocal_length
      default_perc_vocal_windows).min_buffer_len = 35 ∧
    split_array (plain_env 0 none)
      (AudioSegmentor.init (plain_env 0 none) "out" 235 default_min_vocal_length
        default_perc_vocal_windows) (get_vocal_windows (some [])) =
      Except.error Fault.out_of_range ∧
    split_array (plain_env 0 none) (default_segmentor (plain_env 0 none))
      (get_vocal_windows none) = Except.error Fault.out_of_range := by
  decide!

/-! ## Forward steps of the loop -/

/-- An iteration that does not commit a transition. -/
theorem split_step_keep {env : Env} {vw : List Int} {seg : AudioSegmentor} {l : Locals}
    {entering leaving : Int} (h1 : vec_at vw l.ptr = Except.ok entering)
    (h2 : vec_at vw (l.ptr - seg.min_buffer_len) = Except.ok leaving)
    (hc : ¬ ((if l.window_sum + entering - leaving > seg.n_vocal_windows then (1 : Int) else 0)
      ≠ l.curr_vocal ∧ l.curr_window_duration > seg.min_vocal_length)) :
    split_step env vw seg l = Except.ok (seg,
      { l with window_sum := l.window_sum + entering - leaving, ptr := l.ptr + 1,
               curr_window_duration := l.curr_window_duration + hop_duration seg }) := by
  unfold split_step
  rw [h1, h2]
  simp only
  rw [if_neg hc]

/-- An iteration that commits the transition from silence to voice. -/
theorem split_step_to_voice {env : Env} {vw : List Int} {seg : AudioSegmentor} {l : Locals}
    {entering leaving sil_end : Int} (h1 : vec_at vw l.ptr = Except.ok entering)
    (h2 : vec_at vw (l.ptr - seg.min_buffer_len) = Except.ok leaving)
    (hc : (if l.window_sum + entering - leaving > seg.n_vocal_windows then (1 : Int) else 0)
      ≠ l.curr_vocal ∧ l.curr_window_duration > seg.min_vocal_length)
    (hv : l.curr_vocal = 0)
    (h3 : get_vocal_start_idx seg vw l.ptr = Except.ok sil_end) :
    split_step env vw seg l = Except.ok (seg,
      { window_sum := l.window_sum + entering - leaving, ptr := l.ptr + 1,
        curr_vocal :=
          if l.window_sum + entering - leaving > seg.n_vocal_windows then (1 : Int) else 0,
        curr_start_idx := sil_end, curr_window_duration := hop_duration seg,
        transitions := l.transitions ++ [(l.ptr, l.curr_window_duration)] }) := by
  unfold split_step
  rw [h1, h2]
  simp only
  rw [if_pos hc, if_neg (by rw [hv]; simp), h3]

/-- An iteration that commits the transition from voice to silence and writes the segment. -/
theorem split_step_to_silence {env : Env} {vw : List Int} {seg : AudioSegmentor} {l : Locals}
    {entering leaving vocal_end : Int} (h1 : vec_at vw l.ptr = Except.ok entering)
    (h2 : vec_at vw (l.ptr - seg.min_buffer_len) = Except.ok leaving)
    (hc : (if l.window_sum + entering - leaving > seg.n_vocal_windows then (1 : Int) else 0)
      ≠ l.curr_vocal ∧ l.curr_window_duration > seg.min_vocal_length)
    (hv : l.curr_vocal ≠ 0)
    (h3 : get_sil_start_idx seg vw l.ptr = Except.ok vocal_end)
    (hopen : env.sf_open_write (get_save_filename seg) = true)
    (hrange : l.curr_start_idx * seg.fftp.hop_length ≤ vocal_end * seg.fftp.hop_length) :
    split_step env vw seg l = Except.ok
      ({ seg with
          n_vocal_splits := seg.n_vocal_splits + 1
          written := seg.written ++
            [{ fname := get_save_filename seg, split := seg.n_vocal_splits,
               start_sample := l.curr_start_idx * seg.fftp.hop_length,
               end_sample := vocal_end * seg.fftp.hop_length }] },
       { window_sum := l.window_sum + entering - leaving, ptr := l.ptr + 1,
         curr_vocal :=
           if l.window_sum + entering - leaving > seg.n_vocal_windows then (1 : Int) else 0,
         curr_start_idx := vocal_end, curr_window_duration := hop_duration seg,
         transitions := l.transitions ++ [(l.ptr, l.curr_window_duration)] }) := by
  unfold split_step
  rw [h1, h2]
  simp only
  rw [if_pos hc, if_pos hv, h3]
  simp only
  rw [save_vocals_ok _ _ _ hopen hrange]

/-- The backward scan over a stretch of entries different from `stop` that is preceded by an
entry equal to `stop`: it returns the index of that entry. -/
theorem scan_back_run (vw : List Int) (stop lowest t : Int) (ht0 : 0 ≤ t)
    (hstop : vw.getD t.toNat 0 = stop) (hlow : lowest ≤ t + 1) :
    ∀ (fuel : Nat) (idx : Int), t ≤ idx → idx < (vw.length : Int) →
      (∀ i : Int, t < i → i ≤ idx → vw.getD i.toNat 0 ≠ stop) → idx - t + 1 ≤ fuel →
      scan_back vw stop lowest fuel idx = Except.ok t := by
  intro fuel
  induction fuel with
  | zero => intro idx h1 _ _ hf; simp at hf; omega
  | succ fuel ih =>
    intro idx h1 h2 hrun hf
    unfold scan_back
    rw [vec_at_ok (by omega) h2]
    simp only
    by_cases ht : idx = t
    · subst ht
      rw [if_neg (fun h => h.1 hstop)]
    · have hlt : t < idx := by omega
      rw [if_pos ⟨hrun idx hlt (le_refl _), by omega⟩]
      exact ih (idx - 1) (by omega) (by omega) (fun i hi1 hi2 => hrun i hi1 (by omega))
        (by push_cast at hf; omega)

/-! ## A chunk of uniform energy -/

/-- The threshold lies at least `6` below the mean it is computed from. -/
theorem compute_silence_threshold_le (dbfs : ℚ) : compute_silence_threshold dbfs ≤ dbfs - 6 := by
  unfold compute_silence_threshold MIN_SIL_THRESH
  simp only
  have := min_le_right (BASE_SIL + BASE_SIL * ((BASE_DBFS - dbfs) / BASE_DBFS)) (-6 : ℚ)
  linarith

theorem svs_length (a b c : Nat) : (silence_voice_silence a b c).length = a + b + c := by
  simp [silence_voice_silence, Nat.add_assoc]

theorem svs_getD (a b c i : Nat) :
    (silence_voice_silence a b c).getD i 0 = if a ≤ i ∧ i < a + b then 1 else 0 := by
  unfold silence_voice_silence
  rw [List.getD_eq_getElem?_getD]
  by_cases h1 : i < a
  · rw [List.append_assoc, List.getElem?_append_left (by simpa using h1),
      List.getElem?_replicate]
    simp [h1]
    omega
  · by_cases h2 : i < a + b
    · rw [List.append_assoc, List.getElem?_append_right (by simpa using h1),
        List.getElem?_append_left (by simp; omega), List.getElem?_replicate]
      simp only [List.length_replicate]
      rw [if_pos (by omega), if_pos ⟨by omega, h2⟩]
      rfl
    · rw [List.getElem?_append_right (by simp; omega), List.getElem?_replicate]
      simp only [List.length_append, List.length_replicate]
      rw [if_neg (fun h : a ≤ i ∧ i < a + b => h2 h.2)]
      by_cases h3 : i - (a + b) < c
      · rw [if_pos h3]; rfl
      · rw [if_neg h3]; rfl

theorem vec_at_svs (a b c : Nat) (i : Int) (h0 : 0 ≤ i) (h1 : i < (a : Int) + b + c) :
    vec_at (silence_voice_silence a b c) i =
      Except.ok (if (a : Int) ≤ i ∧ i < (a : Int) + b then 1 else 0) := by
  rw [vec_at_ok h0 (by rw [svs_length]; push_cast; exact h1), svs_getD]
  congr 1
  by_cases h : (a : Int) ≤ i ∧ i < (a : Int) + b
  · rw [if_pos h, if_pos (by omega)]
  · rw [if_neg h, if_neg (by omega)]

theorem initial_sum_svs (a b c : Nat) :
    ∀ (count : Nat) (i s : Int), 0 ≤ i → i + count ≤ (a : Int) + b + c →
      initial_sum (silence_voice_silence a b c) count i s =
        Except.ok (s + ones_before a b (i + count) - ones_before a b i) := by
  intro count
  induction count with
  | zero => intro i s _ _; simp [initial_sum]
  | succ count ih =>
    intro i s h0 h1
    unfold initial_sum
    rw [vec_at_svs a b c i h0 (by push_cast at h1; omega)]
    simp only
    rw [ih (i + 1) _ (by omega) (by push_cast at h1 ⊢; omega)]
    congr 1
    have e : i + 1 + (count : Int) = i + ((count + 1 : Nat) : Int) := by push_cast; ring
    rw [e]
    unfold ones_before
    split_ifs <;> omega

/-- The rolling sum after the update at window `p`, and the classification it gives with
the threshold `5` over `28` windows. -/
theorem svs_window_update (a b : Nat) (hb : 29 ≤ b) (p : Int) :
    (ones_before a b p - ones_before a b (p - 28)) +
        (if (a : Int) ≤ p ∧ p < (a : Int) + b then 1 else 0) -
        (if (a : Int) ≤ p - 28 ∧ p - 28 < (a : Int) + b then 1 else 0) =
      ones_before a b (p + 1) - ones_before a b (p + 1 - 28) ∧
    ((ones_before a b (p + 1) - ones_before a b (p + 1 - 28) > 5) ↔
      ((a : Int) + 5 ≤ p ∧ p < (a : Int) + b + 22)) := by
  unfold ones_before
  constructor
  · split_ifs <;> omega
  · constructor
    · intro h; omega
    · intro h; omega

/-- C9, as the code has it.  With the default parameters and a mask of `a` silent, `b`
voiced and `c` silent windows, `a, b, c ≥ 29`: the transition to voice is committed at window
`a + 5` and the transition to silence at window `a + b + 22`, neither boundary is moved by
the backward scan, and exactly one segment is written, the windows `[a + 5, a + b + 22)`.
Its length is `b + 17` windows. -/
theorem split_array_single_region (env : Env) (seg : AudioSegmentor) (a b c : Nat)
    (ha : 29 ≤ a) (hb : 29 ≤ b) (hc : 29 ≤ c)
    (hsr : seg.processing_sr = 16000) (hhop : seg.fftp.hop_length = 85)
    (hmvl : seg.min_vocal_length = 15 / 100) (hm : seg.min_buffer_len = 28)
    (hnv : seg.n_vocal_windows = 5) (hpad : seg.window_pad = 3)
    (hopen : env.sf_open_write (get_save_filename seg) = true) :
    split_array env seg (silence_voice_silence a b c) =
      Except.ok { seg with
        n_vocal_splits := seg.n_vocal_splits + 1
        written := seg.written ++
          [{ fname := get_save_filename seg, split := seg.n_vocal_splits,
             start_sample := ((a : Int) + 5) * seg.fftp.hop_length,
             end_sample := ((a : Int) + b + 22) * seg.fftp.hop_length }] } ∧
    (((a : Int) + b + 22) - ((a : Int) + 5) = (b : Int) + 17) := by
  refine ⟨?_, by omega⟩
  have hlen : ((silence_voice_silence a b c).length : Int) = (a : Int) + b + c := by
    rw [svs_length]; push_cast; rfl
  have hhd : hop_duration seg = 17 / 3200 := by
    unfold hop_duration; rw [hsr, hhop]; norm_num
  have haq : (29 : ℚ) ≤ (a : ℚ) := by exact_mod_cast ha
  have hbq : (29 : ℚ) ≤ (b : ℚ) := by exact_mod_cast hb
  -- the state in which the run ends
  generalize hF : ({ seg with
        n_vocal_splits := seg.n_vocal_splits + 1
        written := seg.written ++
          [{ fname := get_save_filename seg, split := seg.n_vocal_splits,
             start_sample := ((a : Int) + 5) * seg.fftp.hop_length,
             end_sample := ((a : Int) + b + 22) * seg.fftp.hop_length }] } : AudioSegmentor)
    = segF
  have hFm : segF.min_buffer_len = 28 := by rw [← hF]; exact hm
  have hFn : segF.n_vocal_windows = 5 := by rw [← hF]; exact hnv
  have hinit := initial_sum_svs a b c seg.min_buffer_len.toNat 0 0 (le_refl _)
    (by rw [hm]; simp; omega)
  have hloop := @split_loop_total env (silence_voice_silence a b c)
    (fun s l =>
      l.window_sum = ones_before a b l.ptr - ones_before a b (l.ptr - 28) ∧
      28 ≤ l.ptr ∧ l.ptr ≤ (a : Int) + b + c ∧
      ((l.ptr ≤ (a : Int) + 5 ∧ l.curr_vocal = 0 ∧ s = seg ∧
          l.curr_window_duration = 17 / 3200 * ((l.ptr : Int) : ℚ)) ∨
       ((a : Int) + 5 < l.ptr ∧ l.ptr ≤ (a : Int) + b + 22 ∧ l.curr_vocal = 1 ∧
          l.curr_start_idx = (a : Int) + 5 ∧ s = seg ∧
          l.curr_window_duration = 17 / 3200 * ((l.ptr - ((a : Int) + 5) : Int) : ℚ)) ∨
       ((a : Int) + b + 22 < l.ptr ∧ l.curr_vocal = 0 ∧ s = segF)))
    (by
      intro s l ⟨hws, hp28, hpL, hphase⟩ hp0 hplen
      rw [hlen] at hplen
      have hsm : s.min_buffer_len = 28 := by
        rcases hphase with h | h | h
        · rw [h.2.2.1]; exact hm
        · rw [h.2.2.2.2.1]; exact hm
        · rw [h.2.2]; exact hFm
      have hsn : s.n_vocal_windows = 5 := by
        rcases hphase with h | h | h
        · rw [h.2.2.1]; exact hnv
        · rw [h.2.2.2.2.1]; exact hnv
        · rw [h.2.2]; exact hFn
      have h1 := vec_at_svs a b c l.ptr hp0 hplen
      have h2 : vec_at (silence_voice_silence a b c) (l.ptr - s.min_buffer_len) =
          Except.ok (if (a : Int) ≤ l.ptr - 28 ∧ l.ptr - 28 < (a : Int) + b then 1 else 0) := by
        rw [hsm]; exact vec_at_svs a b c (l.ptr - 28) (by omega) (by omega)
      obtain ⟨hupd, hcls⟩ := svs_window_update a b hb l.ptr
      rw [← hws] at hupd
      rcases hphase with ⟨hpA, hcv, hs, hdur⟩ | ⟨hpB1, hpB2, hcv, hst, hs, hdur⟩ |
          ⟨hpC, hcv, hs⟩
      · -- still in the leading silence
        by_cases hat : l.ptr = (a : Int) + 5
        · -- the transition to voice is committed
          have hvoc : l.window_sum + (if (a : Int) ≤ l.ptr ∧ l.ptr < (a : Int) + b then 1 else 0)
              - (if (a : Int) ≤ l.ptr - 28 ∧ l.ptr - 28 < (a : Int) + b then 1 else 0)
              > s.n_vocal_windows := by
            rw [hupd, hsn]; exact hcls.mpr ⟨by omega, by omega⟩
          have hscan : get_vocal_start_idx s (silence_voice_silence a b c) l.ptr =
              Except.ok ((a : Int) + 5) := by
            unfold get_vocal_start_idx
            rw [scan_back_run (silence_voice_silence a b c) 0 (l.ptr - s.min_buffer_len)
              ((a : Int) - 1) (by omega)
              (by rw [svs_getD, if_neg (by omega)]) (by rw [hsm]; omega)
              ((s.min_buffer_len + 1).toNat + 1) l.ptr (by omega) (by rw [hlen]; omega)
              (by
                intro i hi1 hi2
                rw [svs_getD, if_pos (by omega)]
                decide)
              (by rw [hsm]; simp; omega)]
            simp only
            rw [hs, hpad, hat]
            congr 1
            omega
          refine ⟨_, _, split_step_to_voice h1 h2 ⟨by rw [if_pos hvoc, hcv]; decide, ?_⟩ hcv
            hscan, ?_⟩
          · rw [hdur, hs, hmvl, hat]
            push_cast
            linarith
          · simp only
            refine ⟨hupd, by omega, by omega, Or.inr (Or.inl ⟨by omega, by omega, ?_, trivial, hs, ?_⟩)⟩
            · rw [if_pos hvoc]
            · rw [hs, hhd, hat]
              push_cast
              ring
        · -- no change
          have hvoc : ¬ (l.window_sum +
              (if (a : Int) ≤ l.ptr ∧ l.ptr < (a : Int) + b then 1 else 0)
              - (if (a : Int) ≤ l.ptr - 28 ∧ l.ptr - 28 < (a : Int) + b then 1 else 0)
              > s.n_vocal_windows) := by
            rw [hupd, hsn]; intro h; have := hcls.mp h; omega
          refine ⟨_, _, split_step_keep h1 h2 (fun h => h.1 (by rw [if_neg hvoc, hcv])), ?_⟩
          simp only
          refine ⟨hupd, by omega, by omega, Or.inl ⟨by omega, hcv, hs, ?_⟩⟩
          rw [hdur, hs, hhd]
          push_cast
          ring
      · -- inside the committed voiced run
        by_cases hat : l.ptr = (a : Int) + b + 22
        · -- the transition to silence is committed and the segment written
          have hvoc : ¬ (l.window_sum +
              (if (a : Int) ≤ l.ptr ∧ l.ptr < (a : Int) + b then 1 else 0)
              - (if (a : Int) ≤ l.ptr - 28 ∧ l.ptr - 28 < (a : Int) + b then 1 else 0)
              > s.n_vocal_windows) := by
            rw [hupd, hsn]; intro h; have := hcls.mp h; omega
          have hscan : get_sil_start_idx s (silence_voice_silence a b c) l.ptr =
              Except.ok ((a : Int) + b + 22) := by
            unfold get_sil_start_idx
            rw [scan_back_run (silence_voice_silence a b c) 1 (l.ptr - s.min_buffer_len)
              ((a : Int) + b - 1) (by omega)
              (by rw [svs_getD, if_pos (by omega)]) (by rw [hsm]; omega)
              ((s.min_buffer_len + 1).toNat + 1) l.ptr (by omega) (by rw [hlen]; omega)
              (by
                intro i hi1 hi2
                rw [svs_getD, if_neg (by omega)]
                decide)
              (by rw [hsm]; simp; omega)]
            simp only
            rw [hs, hpad, hat]
            congr 1
            omega
          refine ⟨_, _, split_step_to_silence h1 h2
            ⟨by rw [if_neg hvoc, hcv]; decide, ?_⟩ (by rw [hcv]; decide) hscan
            (by rw [hs]; exact hopen) (by rw [hs, hst, hhop]; omega), ?_⟩
          · rw [hdur, hs, hmvl, hat]
            push_cast
            linarith
          · simp only
            refine ⟨hupd, by omega, by omega, Or.inr (Or.inr ⟨by omega, ?_, ?_⟩)⟩
            · rw [if_neg hvoc]
            · rw [← hF, hs, hst]
        · -- no change
          have hvoc : l.window_sum + (if (a : Int) ≤ l.ptr ∧ l.ptr < (a : Int) + b then 1 else 0)
              - (if (a : Int) ≤ l.ptr - 28 ∧ l.ptr - 28 < (a : Int) + b then 1 else 0)
              > s.n_vocal_windows := by
            rw [hupd, hsn]; exact hcls.mpr ⟨by omega, by omega⟩
          refine ⟨_, _, split_step_keep h1 h2 (fun h => h.1 (by rw [if_pos hvoc, hcv])), ?_⟩
          simp only
          refine ⟨hupd, by omega, by omega,
            Or.inr (Or.inl ⟨by omega, by omega, hcv, hst, hs, ?_⟩)⟩
          rw [hdur, hs, hhd]
          push_cast
          ring
      · -- the trailing silence
        have hvoc : ¬ (l.window_sum +
            (if (a : Int) ≤ l.ptr ∧ l.ptr < (a : Int) + b then 1 else 0)
            - (if (a : Int) ≤ l.ptr - 28 ∧ l.ptr - 28 < (a : Int) + b then 1 else 0)
            > s.n_vocal_windows) := by
          rw [hupd, hsn]; intro h; have := hcls.mp h; omega
        refine ⟨_, _, split_step_keep h1 h2 (fun h => h.1 (by rw [if_neg hvoc, hcv])), ?_⟩
        simp only
        exact ⟨hupd, by omega, by omega, Or.inr (Or.inr ⟨by omega, hcv, hs⟩)⟩)
    (silence_voice_silence a b c).length seg
    { window_sum := 0 + ones_before a b (0 + (seg.min_buffer_len.toNat : Int)) -
        ones_before a b 0,
      ptr := 0 + seg.min_buffer_len,
      curr_vocal := if 0 + ones_before a b (0 + (seg.min_buffer_len.toNat : Int)) -
        ones_before a b 0 > seg.n_vocal_windows then 1 else 0,
      curr_start_idx := 0,
      curr_window_duration :=
        ((seg.fftp.hop_length : ℚ) * (seg.min_buffer_len : ℚ)) / (seg.processing_sr : ℚ),
      transitions := [] }
    ⟨by simp only [hm]; unfold ones_before; simp,
     by simp only [hm]; omega, by simp only [hm]; omega,
     Or.inl ⟨by simp only [hm]; omega,
       by simp only [hm, hnv]; unfold ones_before; simp; omega, rfl,
       by simp only [hm, hhop, hsr]; norm_num⟩⟩
    (by simp only [hm, hlen]; omega)
  obtain ⟨s', l', hl, ⟨-, hp28, hpL, hphase⟩, hexit⟩ := hloop
  have hptr : l'.ptr = (a : Int) + b + c := by
    rw [hlen] at hexit
    by_contra hne
    exact hexit ⟨by omega, by omega⟩
  have hend : l'.curr_vocal = 0 ∧ s' = segF := by
    rcases hphase with h | h | h
    · omega
    · omega
    · exact ⟨h.2.1, h.2.2⟩
  unfold split_array split_run
  rw [hinit]
  simp only
  rw [hl]
  simp only
  rw [if_neg (by rw [hend.1]; simp), hend.2]

/-- The single-region theorem applied to the default segmentor and 29 silent, 29 voiced and
29 silent windows. -/
theorem split_array_single_region_witness :
    split_array (plain_env 0 none) (default_segmentor (plain_env 0 none))
        (silence_voice_silence 29 29 29) =
      Except.ok { default_segmentor (plain_env 0 none) with
        n_vocal_splits := (default_segmentor (plain_env 0 none)).n_vocal_splits + 1
        written := (default_segmentor (plain_env 0 none)).written ++
          [{ fname := get_save_filename (default_segmentor (plain_env 0 none)),
             split := (default_segmentor (plain_env 0 none)).n_vocal_splits,
             start_sample := (((29 : Nat) : Int) + 5) *
               (default_segmentor (plain_env 0 none)).fftp.hop_length,
             end_sample := (((29 : Nat) : Int) + ((29 : Nat) : Int) + 22) *
               (default_segmentor (plain_env 0 none)).fftp.hop_length }] } ∧
    ((((29 : Nat) : Int) + ((29 : Nat) : Int) + 22) - (((29 : Nat) : Int) + 5) =
      ((29 : Nat) : Int) + 17) :=
  split_array_single_region (plain_env 0 none) (default_segmentor (plain_env 0 none)) 29 29 29
    (by decide) (by decide) (by decide) (by decide!) (by decide!) (by decide!) (by decide!)
    (by decide!) (by decide!) (by decide!)

/-- C9 fails as stated: with the default parameters and 29 silent, 29 voiced and 29 silent
windows, the one segment written is the windows `[34, 80)` (samples `[2890, 6800)`), 46
windows long, which differs from the 29 voiced windows by 17, not by at most 1. -/
theorem split_array_single_region_length :
    split_array (plain_env 0 none) (default_segmentor (plain_env 0 none))
        (silence_voice_silence 29 29 29) =
      Except.ok { default_segmentor (plain_env 0 none) with
        n_vocal_splits := 1
        written := [{ fname := "out/vocal_0.wav", split := 0, start_sample := 34 * 85,
                      end_sample := 80 * 85 }] } ∧
    ¬ (|((80 : Int) - 34) - 29| ≤ 1) := by
  decide!

/-! ## Peak normalisation -/

theorem foldl_max_abs_max (buffer : List ℚ) :
    ∀ a b : ℚ, buffer.foldl (fun m x => max m |x|) (max a b) =
      max a (buffer.foldl (fun m x => max m |x|) b) := by
  induction buffer with
  | nil => intro a b; rfl
  | cons x xs ih =>
    intro a b
    simp only [List.foldl_cons]
    rw [max_assoc, ih]

theorem peak_value_eq (buffer : List ℚ) :
    peak_value buffer = max (1 / 1000000) (max_abs buffer) := by
  unfold peak_value max_abs
  rw [← foldl_max_abs_max]
  congr 1
  norm_num

theorem foldl_max_abs_div (p : ℚ) (hp : 0 < p) (buffer : List ℚ) :
    ∀ a : ℚ, (buffer.map (fun x => x / p)).foldl (fun m x => max m |x|) (a / p) =
      buffer.foldl (fun m x => max m |x|) a / p := by
  induction buffer with
  | nil => intro a; rfl
  | cons x xs ih =>
    intro a
    simp only [List.map_cons, List.foldl_cons]
    rw [abs_div, abs_of_pos hp, max_div_div_right hp.le, ih]

theorem max_abs_div (p : ℚ) (hp : 0 < p) (buffer : List ℚ) :
    max_abs (buffer.map (fun x => x / p)) = max_abs buffer / p := by
  unfold max_abs
  have := foldl_max_abs_div p hp buffer 0
  rw [zero_div] at this
  exact this

theorem peak_value_pos (buffer : List ℚ) : 0 < peak_value buffer := by
  rw [peak_value_eq]
  exact lt_max_of_lt_left (by norm_num)

/-- C10, as the code has it.  The divisor is the largest absolute sample value, but never
less than `1e-6`.  So a chunk whose largest absolute value is at least `1e-6` has largest
absolute value `1` afterwards; in a chunk whose largest absolute value is below `1e-6` every
sample is multiplied by `10^6`, and so is the largest absolute value; and a chunk of zeros is
returned unchanged. -/
theorem peak_normalize_spec (buffer : List ℚ) :
    (1 / 1000000 ≤ max_abs buffer → max_abs (peak_normalize buffer) = 1) ∧
    (max_abs buffer < 1 / 1000000 →
      peak_normalize buffer = buffer.map (fun x => x * 1000000) ∧
      max_abs (peak_normalize buffer) = max_abs buffer * 1000000) ∧
    ((∀ x ∈ buffer, x = 0) → peak_normalize buffer = buffer) := by
  have hpos := peak_value_pos buffer
  have hnorm : peak_normalize buffer = buffer.map (fun x => x / peak_value buffer) := by
    unfold peak_normalize
    simp only
    rw [if_pos hpos]
  refine ⟨?_, ?_, ?_⟩
  · intro h
    have hp : peak_value buffer = max_abs buffer := by
      rw [peak_value_eq]; exact max_eq_right h
    rw [hnorm, max_abs_div _ hpos, hp]
    exact div_self (by linarith [show (0 : ℚ) < 1 / 1000000 by norm_num])
  · intro h
    have hp : peak_value buffer = 1 / 1000000 := by
      rw [peak_value_eq]; exact max_eq_left h.le
    have hmap : peak_normalize buffer = buffer.map (fun x => x * 1000000) := by
      rw [hnorm, hp]
      apply List.map_congr_left
      intro x _
      rw [div_div_eq_mul_div, div_one]
    refine ⟨hmap, ?_⟩
    rw [hnorm, max_abs_div _ hpos, hp, div_div_eq_mul_div, div_one]
  · intro h
    rw [hnorm]
    conv_rhs => rw [← List.map_id buffer]
    apply List.map_congr_left
    intro x hx
    rw [h x hx]
    simp

/-- C10 fails as stated: the chunk holding the single sample `1e-7` contains a non-zero
sample, but after the normalisation its largest absolute value is `1/10`, not `1`. -/
theorem peak_normalize_quiet_chunk :
    (∃ x ∈ [(1 / 10000000 : ℚ)], x ≠ 0) ∧
    peak_normalize [(1 / 10000000 : ℚ)] = [1 / 10] ∧
    max_abs (peak_normalize [(1 / 10000000 : ℚ)]) = 1 / 10 ∧
    max_abs (peak_normalize [(1 / 10000000 : ℚ)]) ≠ 1 := by
  decide!

/-- The normalisation theorem applied to a chunk with peak `1/2` and to a chunk with peak
`1e-7`. -/
theorem peak_normalize_spec_witness :
    max_abs (peak_normalize [1 / 2, -1 / 4]) = 1 ∧
    (peak_normalize [(1 / 10000000 : ℚ)] =
        [(1 / 10000000 : ℚ)].map (fun x => x * 1000000) ∧
      max_abs (peak_normalize [(1 / 10000000 : ℚ)]) =
        max_abs [(1 / 10000000 : ℚ)] * 1000000) :=
  ⟨(peak_normalize_spec [1 / 2, -1 / 4]).1 (by decide!),
   (peak_normalize_spec [(1 / 10000000 : ℚ)]).2.1 (by decide!)⟩

/-! ## The adaptive silence threshold -/

/-- The silence threshold in closed form. -/
theorem compute_silence_threshold_eq (d : ℚ) :
    compute_silence_threshold d = d + min (-12 - d / 6) (-6) := by
  unfold compute_silence_threshold BASE_SIL BASE_DBFS MIN_SIL_THRESH
  simp only
  have : (-6 : ℚ) + -6 * ((-36 - d) / -36) = -12 - d / 6 := by field_simp; ring
  rw [this]
  ring

/-- C11. Adaptive silence threshold.  For every mean dBFS value `d` the threshold is
`d + min (BASE_SIL + BASE_SIL * ((BASE_DBFS - d) / BASE_DBFS)) MIN_SIL_THRESH`; it is `d - 6`
when `d ≤ -36` and `5 * d / 6 - 12` when `d > -36`; the offset `threshold - d` is at most
`-6` and does not increase when `d` increases. -/
theorem compute_silence_threshold_spec :
    (∀ d : ℚ, compute_silence_threshold d =
      d + min (BASE_SIL + BASE_SIL * ((BASE_DBFS - d) / BASE_DBFS)) MIN_SIL_THRESH) ∧
    BASE_DBFS = -36 ∧ BASE_SIL = -6 ∧ MIN_SIL_THRESH = -6 ∧
    (∀ d : ℚ, d ≤ -36 → compute_silence_threshold d = d - 6) ∧
    (∀ d : ℚ, -36 < d → compute_silence_threshold d = 5 * d / 6 - 12) ∧
    (∀ d : ℚ, compute_silence_threshold d - d ≤ -6) ∧
    (∀ d₁ d₂ : ℚ, d₁ ≤ d₂ →
      compute_silence_threshold d₂ - d₂ ≤ compute_silence_threshold d₁ - d₁) := by
  refine ⟨?_, rfl, rfl, rfl, ?_, ?_, ?_, ?_⟩
  · intro d
    unfold compute_silence_threshold
    simp only
    ring
  · intro d h
    rw [compute_silence_threshold_eq, min_eq_right (by linarith)]
    ring
  · intro d h
    rw [compute_silence_threshold_eq, min_eq_left (by linarith)]
    ring
  · intro d
    have := compute_silence_threshold_le d
    linarith
  · intro d₁ d₂ h
    rw [compute_silence_threshold_eq, compute_silence_threshold_eq]
    have : min (-12 - d₂ / 6) (-6 : ℚ) ≤ min (-12 - d₁ / 6) (-6) :=
      min_le_min (by linarith) (le_refl _)
    linarith

/-! ## Analysis parameters -/

/-- C13. Analysis parameters.  For every sample rate `sr ≥ 0`, `get_fft_params_from_sr sr` is
`⌊1024 * sr / 48000⌋`, `⌊1024 * sr / 48000⌋`, `⌊256 * sr / 48000⌋`; at 48000 this is
1024 / 1024 / 256 and at the default 16000 it is 341 / 341 / 85. -/
theorem get_fft_params_from_sr_spec (sr : Int) (hsr : 0 ≤ sr) :
    get_fft_params_from_sr sr =
      { n_fft := ⌊(1024 : ℚ) * (sr : ℚ) / 48000⌋
        win_length := ⌊(1024 : ℚ) * (sr : ℚ) / 48000⌋
        hop_length := ⌊(256 : ℚ) * (sr : ℚ) / 48000⌋ } ∧
    get_fft_params_from_sr 48000 = { n_fft := 1024, win_length := 1024, hop_length := 256 } ∧
    get_fft_params_from_sr 16000 = { n_fft := 341, win_length := 341, hop_length := 85 } := by
  have hq : (0 : ℚ) ≤ (sr : ℚ) := by exact_mod_cast hsr
  refine ⟨?_, by decide!, by decide!⟩
  unfold get_fft_params_from_sr BASE_NFFT BASE_WIN_LENGTH BASE_HOP_LENGTH BASE_FFT_SR
  simp only
  have h1 : (0 : ℚ) ≤ ((1024 : Int) : ℚ) * ((sr : ℚ) / ((48000 : Int) : ℚ)) := by
    push_cast; positivity
  have h2 : (0 : ℚ) ≤ ((256 : Int) : ℚ) * ((sr : ℚ) / ((48000 : Int) : ℚ)) := by
    push_cast; positivity
  rw [truncToInt_of_nonneg _ h1, truncToInt_of_nonneg _ h2]
  have e1 : ((1024 : Int) : ℚ) * ((sr : ℚ) / ((48000 : Int) : ℚ)) =
      (1024 : ℚ) * (sr : ℚ) / 48000 := by push_cast; ring
  have e2 : ((256 : Int) : ℚ) * ((sr : ℚ) / ((48000 : Int) : ℚ)) =
      (256 : ℚ) * (sr : ℚ) / 48000 := by push_cast; ring
  rw [e1, e2]

/-- The parameter theorem applied to the sample rate 44100. -/
theorem get_fft_params_from_sr_spec_witness :
    get_fft_params_from_sr 44100 =
      { n_fft := ⌊(1024 : ℚ) * ((44100 : Int) : ℚ) / 48000⌋
        win_length := ⌊(1024 : ℚ) * ((44100 : Int) : ℚ) / 48000⌋
        hop_length := ⌊(256 : ℚ) * ((44100 : Int) : ℚ) / 48000⌋ } ∧
    get_fft_params_from_sr 48000 = { n_fft := 1024, win_length := 1024, hop_length := 256 } ∧
    get_fft_params_from_sr 16000 = { n_fft := 341, win_length := 341, hop_length := 85 } :=
  get_fft_params_from_sr_spec 44100 (by decide)

/-! ## The minimum window count -/

/-- C14, as the code has it.  The constructor truncates: for `min_vocal_length ≥ 0` and
`hop_length ≥ 1`, `min_buffer_len` is `⌊min_vocal_length * processing_sr / hop_length⌋`. -/
theorem min_buffer_len_floor (env : Env) (save_dir : String) (processing_sr : Int)
    (min_vocal_length perc_vocal_windows : ℚ) (hmvl : 0 ≤ min_vocal_length)
    (hhop : 1 ≤ (get_fft_params_from_sr processing_sr).hop_length) :
    (AudioSegmentor.init env save_dir processing_sr min_vocal_length
      perc_vocal_windows).min_buffer_len =
      ⌊min_vocal_length * (processing_sr : ℚ) /
        ((get_fft_params_from_sr processing_sr).hop_length : ℚ)⌋ := by
  have hsr : (0 : ℚ) < (processing_sr : ℚ) := by
    exact_mod_cast sr_pos_of_hop_pos processing_sr hhop
  have hh : (0 : ℚ) < ((get_fft_params_from_sr processing_sr).hop_length : ℚ) := by
    exact_mod_cast (by omega : 0 < (get_fft_params_from_sr processing_sr).hop_length)
  simp only [AudioSegmentor.init]
  exact truncToInt_of_nonneg _ (by positivity)

/-- The truncation theorem applied to the default parameters. -/
theorem min_buffer_len_floor_witness :
    (AudioSegmentor.init (plain_env 0 none) "out" default_processing_sr
      default_min_vocal_length default_perc_vocal_windows).min_buffer_len =
      ⌊default_min_vocal_length * (default_processing_sr : ℚ) /
        ((get_fft_params_from_sr default_processing_sr).hop_length : ℚ)⌋ :=
  min_buffer_len_floor (plain_env 0 none) "out" default_processing_sr
    default_min_vocal_length default_perc_vocal_windows (by decide!) (by decide!)

/-- C14 fails as stated.  With the default `min_vocal_length = 0.15` and the sample rate
8000 (hop length 42) the quotient is `1200 / 42 = 28.57...`, whose nearest integer is 29, but
`min_buffer_len` is 28; likewise with `min_vocal_length = 0.152` at the default rate, where
the quotient is `2432 / 85 = 28.61...`. -/
theorem min_buffer_len_not_rounded :
    (0 : ℚ) < default_min_vocal_length ∧
    1 ≤ (get_fft_params_from_sr 8000).hop_length ∧
    (AudioSegmentor.init (plain_env 0 none) "out" 8000 default_min_vocal_length
      default_perc_vocal_windows).min_buffer_len = 28 ∧
    round (default_min_vocal_length * ((8000 : Int) : ℚ) /
      ((get_fft_params_from_sr 8000).hop_length : ℚ)) = 29 ∧
    (0 : ℚ) < 152 / 1000 ∧
    1 ≤ (get_fft_params_from_sr default_processing_sr).hop_length ∧
    (AudioSegmentor.init (plain_env 0 none) "out" default_processing_sr (152 / 1000)
      default_perc_vocal_windows).min_buffer_len = 28 ∧
    round ((152 / 1000 : ℚ) * (default_processing_sr : ℚ) /
      ((get_fft_params_from_sr default_processing_sr).hop_length : ℚ)) = 29 := by
  decide!

/-! ## The number of windows -/

theorem rms_loop_length (to_db_sqrt : ℚ → ℚ) (wave : WaveArray) (extra : Int) :
    ∀ (count : Nat) (i : Int) (rms : List ℚ),
      rms_loop to_db_sqrt wave extra count i = Except.ok rms → rms.length = count := by
  intro count
  induction count with
  | zero =>
    intro i rms h
    simp only [rms_loop] at h
    injection h with h
    rw [← h]; rfl
  | succ count ih =>
    intro i rms h
    unfold rms_loop at h
    simp only at h
    cases hw : window_sum_sq wave extra wave.fftp.win_length.toNat
        (i * wave.fftp.hop_length) 0 with
    | error e => rw [hw] at h; cases h
    | ok sum_q =>
      rw [hw] at h
      simp only at h
      cases hr : rms_loop to_db_sqrt wave extra count (i + 1) with
      | error e => rw [hr] at h; cases h
      | ok rest =>
        rw [hr] at h
        simp only at h
        injection h with h
        rw [← h, List.length_cons, ih (i + 1) rest hr]

theorem get_vocal_windows_length (rms : List ℚ) :
    (get_vocal_windows (some rms)).length = rms.length := by
  simp [get_vocal_windows]

theorem tdiv_neg_one (hop : Int) (hhop : 1 ≤ hop) :
    Int.tdiv (-1) hop = if hop = 1 then -1 else 0 := by
  have h1 : Int.tdiv (-1) hop = -(Int.tdiv 1 hop) := Int.neg_tdiv 1 hop
  rw [h1, Int.tdiv_eq_ediv (by norm_num) (by omega)]
  by_cases h : hop = 1
  · rw [if_pos h, h]; rfl
  · rw [if_neg h, Int.ediv_eq_zero_of_lt (by norm_num) (by omega)]; rfl

/-- C12, as the code has it.  For `n_frames ≥ 0`, `win_length ≥ 1` and `hop_length ≥ 1` the
number of windows is `(n_frames + 2 * (win_length / 2) - win_length) / hop_length + 1` in C
division.  For an even `win_length` that is `n_frames / hop_length + 1`; for an odd
`win_length` it is `(n_frames - 1) / hop_length + 1` when `n_frames ≥ 1`, and for
`n_frames = 0` it is `1`, or `0` when `hop_length = 1`.  The count is never negative, and it
is the length of the energy profile that `compute_rms` returns and of the voiced mask that
`get_vocal_windows` makes of it. -/
theorem rms_windows_count (fftp : FFTParams) (n_frames : Int) (hn : 0 ≤ n_frames)
    (hwin : 1 ≤ fftp.win_length) (hhop : 1 ≤ fftp.hop_length) :
    rms_windows fftp n_frames =
      Int.tdiv (n_frames + 2 * Int.tdiv fftp.win_length 2 - fftp.win_length)
        fftp.hop_length + 1 ∧
    (fftp.win_length % 2 = 0 → rms_windows fftp n_frames = n_frames / fftp.hop_length + 1) ∧
    (fftp.win_length % 2 = 1 → 1 ≤ n_frames →
      rms_windows fftp n_frames = (n_frames - 1) / fftp.hop_length + 1) ∧
    (fftp.win_length % 2 = 1 → n_frames = 0 →
      rms_windows fftp n_frames = if fftp.hop_length = 1 then 0 else 1) ∧
    0 ≤ rms_windows fftp n_frames ∧
    (∀ (to_db_sqrt : ℚ → ℚ) (wave : WaveArray) (rms : List ℚ),
      wave.fftp = fftp → wave.n_frames = n_frames →
      compute_rms to_db_sqrt wave = Except.ok rms →
      (rms.length : Int) = rms_windows fftp n_frames ∧
      (get_vocal_windows (some rms)).length = rms.length) := by
  have hhalf : Int.tdiv fftp.win_length 2 = fftp.win_length / 2 :=
    Int.tdiv_eq_ediv (by omega) (by norm_num)
  have heven : fftp.win_length % 2 = 0 →
      rms_windows fftp n_frames = n_frames / fftp.hop_length + 1 := by
    intro h
    unfold rms_windows
    simp only
    rw [hhalf, show n_frames + 2 * (fftp.win_length / 2) - fftp.win_length = n_frames by omega,
      Int.tdiv_eq_ediv hn (by omega)]
  have hodd : fftp.win_length % 2 = 1 →
      rms_windows fftp n_frames = Int.tdiv (n_frames - 1) fftp.hop_length + 1 := by
    intro h
    unfold rms_windows
    simp only
    rw [hhalf,
      show n_frames + 2 * (fftp.win_length / 2) - fftp.win_length = n_frames - 1 by omega]
  have hnonneg : 0 ≤ rms_windows fftp n_frames := by
    rcases Int.emod_two_eq_zero_or_one fftp.win_length with h | h
    · rw [heven h]
      have := Int.ediv_nonneg hn (by omega : 0 ≤ fftp.hop_length)
      omega
    · rw [hodd h]
      by_cases h0 : n_frames = 0
      · rw [h0, show (0 : Int) - 1 = -1 by norm_num, tdiv_neg_one _ hhop]
        split_ifs <;> norm_num
      · have := Int.tdiv_nonneg (by omega : 0 ≤ n_frames - 1) (by omega : 0 ≤ fftp.hop_length)
        omega
  refine ⟨?_, heven, ?_, ?_, hnonneg, ?_⟩
  · unfold rms_windows
    simp only
  · intro h h1
    rw [hodd h, Int.tdiv_eq_ediv (by omega) (by omega)]
  · intro h h0
    rw [hodd h, h0, show (0 : Int) - 1 = -1 by norm_num, tdiv_neg_one _ hhop]
    split_ifs <;> norm_num
  · intro to_db_sqrt wave rms hf hnf h
    unfold compute_rms at h
    have := rms_loop_length to_db_sqrt wave _ _ _ _ h
    rw [hf, hnf] at this
    refine ⟨?_, get_vocal_windows_length rms⟩
    rw [this, Int.toNat_of_nonneg hnonneg]

/-- The window-count theorem applied to the default parameters and a chunk of 85 samples. -/
theorem rms_windows_count_witness :
    rms_windows (get_fft_params_from_sr default_processing_sr) 85 =
      (85 - 1) / (get_fft_params_from_sr default_processing_sr).hop_length + 1 :=
  (rms_windows_count (get_fft_params_from_sr default_processing_sr) 85 (by decide)
    (by decide!) (by decide!)).2.2.1 (by decide!) (by decide)

/-- With windows of one sample `compute_rms` returns a profile, of `rms_windows` entries. -/
theorem compute_rms_two_ones :
    compute_rms (fun x => x) two_ones = Except.ok [1, 1] ∧
    rms_windows two_ones.fftp two_ones.n_frames = 2 := by
  decide!

/-- C12 fails as stated: with the default parameters (`win_length = 341`, `hop_length = 85`)
a chunk of 85 samples has one window, while
`((n_frames + win_length) - win_length) / hop_length + 1` is 2. -/
theorem rms_windows_odd_window :
    (get_fft_params_from_sr default_processing_sr).win_length = 341 ∧
    (get_fft_params_from_sr default_processing_sr).hop_length = 85 ∧
    rms_windows (get_fft_params_from_sr default_processing_sr) 85 = 1 ∧
    (((85 : Int) + 341) - 341) / 85 + 1 = 2 ∧
    rms_windows (get_fft_params_from_sr default_processing_sr) 85 ≠
      (((85 : Int) + (get_fft_params_from_sr default_processing_sr).win_length) -
        (get_fft_params_from_sr default_processing_sr).win_length) /
        (get_fft_params_from_sr default_processing_sr).hop_length + 1 := by
  decide!

/-! ## Padding in the energy profile -/

/-- C16. The padding is not centred and the buffer is read past its end.  With the default
parameters (`win_length = 341`, so a padding of 170 on each side) and a chunk of four samples
of value `1`, the shift `extra_windows` is `1`: the first five positions of window `0` add
`PAD_EPS + 4`, the squares of all four samples, where centred padding has `5 * PAD_EPS`;
and position `5` reads `buffer[4]`, outside the four-element buffer, so `compute_rms` does
not return a profile. -/
theorem compute_rms_reads_past_buffer :
    four_ones.fftp = { n_fft := 341, win_length := 341, hop_length := 85 } ∧
    (four_ones.buffer.length : Int) = four_ones.n_frames ∧
    Int.tdiv four_ones.fftp.win_length 2 = 170 ∧
    extra_windows four_ones.fftp four_ones.n_frames = 1 ∧
    window_sum_sq four_ones (extra_windows four_ones.fftp four_ones.n_frames) 5 0 0 =
      Except.ok (PAD_EPS + 4) ∧
    centered_term four_ones 0 + centered_term four_ones 1 + centered_term four_ones 2 +
      centered_term four_ones 3 + centered_term four_ones 4 = 5 * PAD_EPS ∧
    buffer_at four_ones.buffer (5 - extra_windows four_ones.fftp four_ones.n_frames) =
      Except.error Fault.out_of_range ∧
    window_sum_sq four_ones (extra_windows four_ones.fftp four_ones.n_frames) 6 0 0 =
      Except.error Fault.out_of_range ∧
    compute_rms (fun x => x) four_ones = Except.error Fault.out_of_range := by
  decide!

/-! ## At least one voiced window -/

theorem sum_lt_of_all_lt (c : ℚ) :
    ∀ l : List ℚ, l ≠ [] → (∀ r ∈ l, r < c) → l.sum < (l.length : ℚ) * c := by
  intro l
  induction l with
  | nil => intro h; exact absurd rfl h
  | cons x xs ih =>
    intro _ hall
    have hx : x < c := hall x (List.mem_cons_self _ _)
    by_cases hxs : xs = []
    · subst hxs
      simpa using hx
    · have := ih hxs (fun r hr => hall r (List.mem_cons_of_mem _ hr))
      simp only [List.sum_cons, List.length_cons]
      push_cast
      linarith

/-- Some window of a non-empty profile is at least as loud as the mean. -/
theorem exists_ge_set_dbfs (rms : List ℚ) (h : rms ≠ []) :
    ∃ r ∈ rms, set_dbfs rms (rms.length : Int) ≤ r := by
  by_contra hcon
  push_neg at hcon
  have hlt := sum_lt_of_all_lt (set_dbfs rms (rms.length : Int)) rms h hcon
  have hpos : (0 : ℚ) < (rms.length : ℚ) := by
    have : 0 < rms.length := List.length_pos.mpr h
    exact_mod_cast this
  have hmean : (rms.length : ℚ) * set_dbfs rms (rms.length : Int) = rms.sum := by
    unfold set_dbfs
    simp only [Int.toNat_ofNat, List.take_length, Int.cast_natCast]
    field_simp
  linarith

/-- C18. A chunk is never classified entirely silent.  For every non-empty energy profile,
some window is strictly above the threshold computed from the profile's own mean (the
threshold is at least 6 below the mean, some window is at least the mean), so the voiced
mask contains a voiced entry. -/
theorem get_vocal_windows_some_voiced (rms : List ℚ) (h : rms ≠ []) :
    (∃ r ∈ rms, compute_silence_threshold (set_dbfs rms (rms.length : Int)) < r) ∧
    (1 : Int) ∈ get_vocal_windows (some rms) ∧
    compute_silence_threshold (set_dbfs rms (rms.length : Int)) ≤
      set_dbfs rms (rms.length : Int) - 6 := by
  obtain ⟨r, hr, hge⟩ := exists_ge_set_dbfs rms h
  have hle := compute_silence_threshold_le (set_dbfs rms (rms.length : Int))
  have hlt : compute_silence_threshold (set_dbfs rms (rms.length : Int)) < r := by linarith
  refine ⟨⟨r, hr, hlt⟩, ?_, hle⟩
  unfold get_vocal_windows
  simp only [List.mem_map]
  exact ⟨r, hr, by rw [if_pos hlt]⟩

/-- The theorem applied to the profile `loud_then_quiet`. -/
theorem get_vocal_windows_some_voiced_witness :
    (∃ r ∈ loud_then_quiet,
      compute_silence_threshold (set_dbfs loud_then_quiet (loud_then_quiet.length : Int)) < r) ∧
    (1 : Int) ∈ get_vocal_windows (some loud_then_quiet) ∧
    compute_silence_threshold (set_dbfs loud_then_quiet (loud_then_quiet.length : Int)) ≤
      set_dbfs loud_then_quiet (loud_then_quiet.length : Int) - 6 :=
  get_vocal_windows_some_voiced loud_then_quiet (by decide)

/-! ## Boundary refinement -/

theorem run_back_nonneg (vw : List Int) (stop : Int) :
    ∀ (n : Nat) (idx : Int), 0 ≤ run_back vw stop n idx := by
  intro n
  induction n with
  | zero => intro idx; simp [run_back]
  | succ n ih =>
    intro idx
    unfold run_back
    split_ifs
    · have := ih (idx - 1); omega
    · exact le_refl _

/-- Where the backward scan stops: it goes back over the run of entries different from
`stop`, but not further than one index below `lowest`. -/
theorem scan_back_eq (vw : List Int) (stop lowest : Int) (h0 : 0 ≤ lowest - 1) :
    ∀ (fuel n : Nat) (idx : Int), idx < (vw.length : Int) → lowest - 1 ≤ idx →
      idx - lowest + 2 ≤ fuel → idx + 1 ≤ n →
      scan_back vw stop lowest fuel idx =
        Except.ok (idx - min (run_back vw stop n idx) (idx - lowest + 1)) := by
  intro fuel
  induction fuel with
  | zero => intro n idx _ h2 h3 _; simp at h3; omega
  | succ fuel ih =>
    intro n idx h1 h2 h3 h4
    obtain ⟨n', rfl⟩ : ∃ n', n = n' + 1 := ⟨n - 1, by omega⟩
    unfold scan_back run_back
    rw [vec_at_ok (by omega) h1]
    simp only
    by_cases hv : vw.getD idx.toNat 0 ≠ stop
    · by_cases hl : idx ≥ lowest
      · rw [if_pos ⟨hv, hl⟩, if_pos ⟨by omega, hv⟩,
          ih n' (idx - 1) (by omega) (by omega) (by push_cast at h3; omega)
            (by push_cast at h4; omega)]
        congr 1
        omega
      · rw [if_neg (fun h => hl h.2), if_pos ⟨by omega, hv⟩]
        congr 1
        have := run_back_nonneg vw stop n' (idx - 1)
        omega
    · rw [if_neg (fun h => hv h.1), if_neg (fun h => hv h.2)]
      congr 1
      omega

/-- C17. Boundary refinement.  For `min_buffer_len ≥ 2`, `window_pad = 3` and an index `i`
with `min_buffer_len + 1 ≤ i < length`: `get_sil_start_idx` returns `max (s + window_pad) i`
for the index `s` at which its backward scan stops, which is
`i + max 0 (window_pad - k)` for the number `k` of consecutive entries different from `1`
(silent windows) ending at `i`; `get_vocal_start_idx` does the same with the entries
different from `0` (voiced windows); so either boundary lies in `[i, i + window_pad]`. -/
theorem boundary_refinement (seg : AudioSegmentor) (vw : List Int) (i : Int)
    (hm : 2 ≤ seg.min_buffer_len) (hpad : seg.window_pad = 3)
    (hi : seg.min_buffer_len + 1 ≤ i) (hlen : i < (vw.length : Int)) :
    (∃ s, scan_back vw 1 (i - seg.min_buffer_len) ((seg.min_buffer_len + 1).toNat + 1) i =
        Except.ok s ∧
      get_sil_start_idx seg vw i = Except.ok (max (s + seg.window_pad) i)) ∧
    get_sil_start_idx seg vw i =
      Except.ok (i + max 0 (seg.window_pad - run_length vw 1 i)) ∧
    (∃ s, scan_back vw 0 (i - seg.min_buffer_len) ((seg.min_buffer_len + 1).toNat + 1) i =
        Except.ok s ∧
      get_vocal_start_idx seg vw i = Except.ok (max (s + seg.window_pad) i)) ∧
    get_vocal_start_idx seg vw i =
      Except.ok (i + max 0 (seg.window_pad - run_length vw 0 i)) ∧
    (i ≤ i + max 0 (seg.window_pad - run_length vw 1 i) ∧
      i + max 0 (seg.window_pad - run_length vw 1 i) ≤ i + seg.window_pad) ∧
    (i ≤ i + max 0 (seg.window_pad - run_length vw 0 i) ∧
      i + max 0 (seg.window_pad - run_length vw 0 i) ≤ i + seg.window_pad) := by
  have hscan : ∀ stop : Int,
      scan_back vw stop (i - seg.min_buffer_len) ((seg.min_buffer_len + 1).toNat + 1) i =
        Except.ok (i - min (run_length vw stop i) (i - (i - seg.min_buffer_len) + 1)) := by
    intro stop
    unfold run_length
    exact scan_back_eq vw stop (i - seg.min_buffer_len) (by omega)
      ((seg.min_buffer_len + 1).toNat + 1) (i + 1).toNat i hlen (by omega)
      (by push_cast; omega) (by omega)
  have hk : ∀ stop : Int, 0 ≤ run_length vw stop i := fun stop => run_back_nonneg vw stop _ _
  refine ⟨⟨_, hscan 1, ?_⟩, ?_, ⟨_, hscan 0, ?_⟩, ?_, ?_, ?_⟩
  · unfold get_sil_start_idx
    rw [hscan 1]
  · unfold get_sil_start_idx
    rw [hscan 1]
    simp only
    congr 1
    have := hk 1
    omega
  · unfold get_vocal_start_idx
    rw [hscan 0]
  · unfold get_vocal_start_idx
    rw [hscan 0]
    simp only
    congr 1
    have := hk 0
    omega
  · have := hk 1
    omega
  · have := hk 0
    omega

/-- The boundary theorem applied to the default segmentor, the mask of 29 silent, 29 voiced
and 29 silent windows, and the index 80 at which the transition to silence is committed. -/
theorem boundary_refinement_witness :
    get_sil_start_idx (default_segmentor (plain_env 0 none)) (silence_voice_silence 29 29 29)
        80 =
      Except.ok (80 + max 0 ((default_segmentor (plain_env 0 none)).window_pad -
        run_length (silence_voice_silence 29 29 29) 1 80)) ∧
    run_length (silence_voice_silence 29 29 29) 1 80 = 23 :=
  ⟨(boundary_refinement (default_segmentor (plain_env 0 none))
      (silence_voice_silence 29 29 29) 80 (by decide!) (by decide!) (by decide!)
      (by decide)).2.1,
   by decide⟩

/-! ## The rolling sum -/

theorem range_sum_succ_right (vw : List Int) :
    ∀ (m : Nat) (i : Int), 0 ≤ i →
      range_sum vw (m + 1) i = range_sum vw m i + vw.getD (i + m).toNat 0 := by
  intro m
  induction m with
  | zero => intro i _; simp [range_sum]
  | succ m ih =>
    intro i hi
    rw [range_sum, ih (i + 1) (by omega), range_sum]
    have : i + 1 + (m : Int) = i + ((m + 1 : Nat) : Int) := by push_cast; ring
    rw [this]
    ring

/-- Sliding the window by one index: add the entering entry, remove the leaving one. -/
theorem range_sum_slide (vw : List Int) (m : Nat) (i : Int) (hi : 0 ≤ i) :
    range_sum vw m i + vw.getD (i + m).toNat 0 - vw.getD i.toNat 0 = range_sum vw m (i + 1) := by
  have h1 := range_sum_succ_right vw m i hi
  rw [range_sum] at h1
  omega

theorem initial_sum_eq (vw : List Int) :
    ∀ (count : Nat) (i s : Int), 0 ≤ i → i + count ≤ (vw.length : Int) →
      initial_sum vw count i s = Except.ok (s + range_sum vw count i) := by
  intro count
  induction count with
  | zero => intro i s _ _; simp [initial_sum, range_sum]
  | succ count ih =>
    intro i s h0 h1
    unfold initial_sum
    rw [vec_at_ok h0 (by push_cast at h1; omega)]
    simp only
    rw [ih (i + 1) _ (by omega) (by push_cast at h1 ⊢; omega), range_sum]
    congr 1
    ring

/-- The loop of `split_array` is the iterations at the indices `ptr, ..., length - 1`. -/
theorem split_loop_eq_steps (env : Env) (vw : List Int) :
    ∀ (fuel : Nat) (seg : AudioSegmentor) (l : Locals), 0 ≤ l.ptr →
      l.ptr ≤ (vw.length : Int) → (vw.length : Int) - l.ptr ≤ fuel →
      split_loop env vw fuel seg l =
        split_steps env vw ((vw.length : Int) - l.ptr).toNat seg l := by
  intro fuel
  induction fuel with
  | zero =>
    intro seg l h0 h1 hf
    have : l.ptr = (vw.length : Int) := by simp at hf; omega
    unfold split_loop
    rw [if_neg (by omega), this]
    simp [split_steps]
  | succ fuel ih =>
    intro seg l h0 h1 hf
    unfold split_loop
    by_cases hc : 0 ≤ l.ptr ∧ l.ptr < (vw.length : Int)
    · rw [if_pos hc]
      obtain ⟨n, hn⟩ : ∃ n, ((vw.length : Int) - l.ptr).toNat = n + 1 :=
        ⟨((vw.length : Int) - l.ptr).toNat - 1, by omega⟩
      rw [hn, split_steps]
      simp only
      cases hs : split_step env vw seg l with
      | error e => rfl
      | ok r =>
        obtain ⟨s1, l1⟩ := r
        simp only
        have hp : l1.ptr = l.ptr + 1 := by
          obtain ⟨_, _, _, _, hp, _⟩ := split_step_inv hs
          exact hp
        rw [ih s1 l1 (by omega) (by omega) (by push_cast at hf; omega)]
        congr 1
        omega
    · rw [if_neg hc]
      have : l.ptr = (vw.length : Int) := by omega
      rw [this]
      simp [split_steps]

/-- The rolling-sum invariant along the iterations of the loop. -/
theorem split_steps_window_sum (env : Env) (vw : List Int) (m : Int) :
    ∀ (k : Nat) (seg : AudioSegmentor) (l : Locals) (seg' : AudioSegmentor) (l' : Locals),
      seg.min_buffer_len = m →
      l.window_sum = range_sum vw m.toNat (l.ptr - m) → 0 ≤ m →
      split_steps env vw k seg l = Except.ok (seg', l') →
      l'.ptr = l.ptr + k ∧ l'.window_sum = range_sum vw m.toNat (l'.ptr - m) ∧
        same_config seg seg' := by
  intro k
  induction k with
  | zero =>
    intro seg l seg' l' _ hws _ h
    simp only [split_steps] at h
    injection h with h
    injection h with h1 h2
    subst h1 h2
    exact ⟨by simp, hws, same_config_refl _⟩
  | succ k ih =>
    intro seg l seg' l' hm hws hm0 h
    unfold split_steps at h
    cases hs : split_step env vw seg l with
    | error e => rw [hs] at h; cases h
    | ok r =>
      obtain ⟨s1, l1⟩ := r
      rw [hs] at h
      simp only at h
      obtain ⟨e, lv, h1, h2, hp, hw, _⟩ := split_step_inv hs
      obtain ⟨hi0, _, he⟩ := vec_at_inv h1
      obtain ⟨hj0, _, hlv⟩ := vec_at_inv h2
      rw [hm] at hj0 hlv
      have hcfg := split_step_same_config hs
      have hm1 : s1.min_buffer_len = m := by
        rw [(same_config_fields hcfg).2.2.2.2.2.1, hm]
      have hws1 : l1.window_sum = range_sum vw m.toNat (l1.ptr - m) := by
        rw [hw, hp, hws, he, hlv]
        have := range_sum_slide vw m.toNat (l.ptr - m) hj0
        rw [Int.toNat_of_nonneg hm0, show l.ptr - m + m = l.ptr by ring] at this
        rw [show l.ptr + 1 - m = l.ptr - m + 1 by ring]
        exact this
      obtain ⟨a, b, c⟩ := ih s1 l1 seg' l' hm1 hws1 hm0 h
      exact ⟨by rw [a, hp]; push_cast; ring, b, same_config_trans hcfg c⟩

/-- The truncated threshold decides like the exact product. -/
theorem threshold_truncation (x : ℚ) (hx : 0 ≤ x) (s : Int) :
    (s > truncToInt x ↔ (s : ℚ) > x) ∧ ((s : ℚ) = x → ¬ s > truncToInt x) := by
  rw [truncToInt_of_nonneg x hx]
  have h : s > ⌊x⌋ ↔ (s : ℚ) > x := Int.floor_lt
  exact ⟨h, fun he hgt => absurd (h.mp hgt) (by rw [he]; exact lt_irrefl _)⟩

/-- C15. Rolling-sum majority vote.  For `min_buffer_len = m ≥ 1`, a mask of length at least
`m`, `perc_vocal_windows ≥ 0` and `n_vocal_windows` the truncated product: the initial sum
is the sum of `mask[0..m-1]`; the loop of `split_array` is the iterations at the indices
`m, m + 1, ...`; before the iteration at index `i` the rolling sum is the sum of
`mask[i-m..i-1]`, and the sum that the iteration computes, stores and classifies is the sum
of `mask[i-m+1..i]`; the iteration behaves as if it classified that sum against the exact
product `perc_vocal_windows * m` (voiced iff strictly greater), so a sum equal to the
threshold is silence. -/
theorem rolling_sum_majority (env : Env) (seg : AudioSegmentor) (vw : List Int)
    (hm : 1 ≤ seg.min_buffer_len) (hlen : seg.min_buffer_len ≤ (vw.length : Int))
    (hperc : 0 ≤ seg.perc_vocal_windows)
    (hn : seg.n_vocal_windows =
      truncToInt (seg.perc_vocal_windows * (seg.min_buffer_len : ℚ))) :
    initial_sum vw seg.min_buffer_len.toNat 0 0 =
      Except.ok (range_sum vw seg.min_buffer_len.toNat 0) ∧
    split_run env seg vw =
      split_steps env vw ((vw.length : Int) - seg.min_buffer_len).toNat seg
        (split_start seg (range_sum vw seg.min_buffer_len.toNat 0)) ∧
    (∀ (s : Int), (s > seg.n_vocal_windows ↔
        (s : ℚ) > seg.perc_vocal_windows * (seg.min_buffer_len : ℚ)) ∧
      ((s : ℚ) = seg.perc_vocal_windows * (seg.min_buffer_len : ℚ) →
        ¬ s > seg.n_vocal_windows)) ∧
    (∀ (k : Nat) (seg' : AudioSegmentor) (l' : Locals),
      split_steps env vw k seg (split_start seg (range_sum vw seg.min_buffer_len.toNat 0)) =
        Except.ok (seg', l') →
      l'.ptr = seg.min_buffer_len + k ∧
      l'.window_sum = range_sum vw seg.min_buffer_len.toNat (l'.ptr - seg.min_buffer_len) ∧
      ∀ (s'' : AudioSegmentor) (l'' : Locals),
        split_step env vw seg' l' = Except.ok (s'', l'') →
        l'.window_sum + vw.getD l'.ptr.toNat 0 -
            vw.getD (l'.ptr - seg.min_buffer_len).toNat 0 =
          range_sum vw seg.min_buffer_len.toNat (l'.ptr - seg.min_buffer_len + 1) ∧
        l''.window_sum =
          range_sum vw seg.min_buffer_len.toNat (l'.ptr - seg.min_buffer_len + 1) ∧
        (((if (range_sum vw seg.min_buffer_len.toNat (l'.ptr - seg.min_buffer_len + 1) : ℚ) >
              seg.perc_vocal_windows * (seg.min_buffer_len : ℚ) then (1 : Int) else 0)
              ≠ l'.curr_vocal ∧ l'.curr_window_duration > seg.min_vocal_length) ∧
            l''.curr_vocal =
              (if (range_sum vw seg.min_buffer_len.toNat (l'.ptr - seg.min_buffer_len + 1) : ℚ)
                > seg.perc_vocal_windows * (seg.min_buffer_len : ℚ) then (1 : Int) else 0) ∧
            l''.transitions = l'.transitions ++ [(l'.ptr, l'.curr_window_duration)] ∨
          ¬ ((if (range_sum vw seg.min_buffer_len.toNat (l'.ptr - seg.min_buffer_len + 1) : ℚ) >
              seg.perc_vocal_windows * (seg.min_buffer_len : ℚ) then (1 : Int) else 0)
              ≠ l'.curr_vocal ∧ l'.curr_window_duration > seg.min_vocal_length) ∧
            l''.curr_vocal = l'.curr_vocal ∧ l''.transitions = l'.transitions)) := by
  have hm0 : 0 ≤ seg.min_buffer_len := by omega
  have hinit := initial_sum_eq vw seg.min_buffer_len.toNat 0 0 (le_refl _)
    (by rw [Int.toNat_of_nonneg hm0]; omega)
  rw [zero_add] at hinit
  have hx : (0 : ℚ) ≤ seg.perc_vocal_windows * (seg.min_buffer_len : ℚ) :=
    mul_nonneg hperc (by exact_mod_cast hm0)
  have hthr : ∀ (s : Int), (s > seg.n_vocal_windows ↔
        (s : ℚ) > seg.perc_vocal_windows * (seg.min_buffer_len : ℚ)) ∧
      ((s : ℚ) = seg.perc_vocal_windows * (seg.min_buffer_len : ℚ) →
        ¬ s > seg.n_vocal_windows) := by
    intro s
    rw [hn]
    exact threshold_truncation _ hx s
  refine ⟨hinit, ?_, hthr, ?_⟩
  · rw [split_run_eq_loop env seg vw _ hinit,
      split_loop_eq_steps env vw vw.length seg _ (by simp only [split_start]; omega)
        (by simp only [split_start]; omega) (by simp only [split_start]; omega)]
    simp only [split_start, zero_add]
  · intro k seg' l' h
    obtain ⟨hp, hws, hcfg⟩ := split_steps_window_sum env vw seg.min_buffer_len k seg _ seg' l'
      rfl (by simp only [split_start, zero_add, sub_self]) hm0 h
    obtain ⟨-, -, -, -, f5, f6, f7, -, -, -⟩ := same_config_fields hcfg
    refine ⟨by rw [hp]; simp only [split_start, zero_add], hws, ?_⟩
    intro s'' l'' hstep
    obtain ⟨e, lv, h1, h2, -, hw, hcase⟩ := split_step_inv hstep
    obtain ⟨-, -, he⟩ := vec_at_inv h1
    obtain ⟨hj0, -, hlv⟩ := vec_at_inv h2
    rw [f6] at hj0 hlv
    have hslide : l'.window_sum + vw.getD l'.ptr.toNat 0 -
        vw.getD (l'.ptr - seg.min_buffer_len).toNat 0 =
        range_sum vw seg.min_buffer_len.toNat (l'.ptr - seg.min_buffer_len + 1) := by
      have := range_sum_slide vw seg.min_buffer_len.toNat (l'.ptr - seg.min_buffer_len) hj0
      rw [Int.toNat_of_nonneg hm0,
        show l'.ptr - seg.min_buffer_len + seg.min_buffer_len = l'.ptr by ring] at this
      rw [hws]
      exact this
    rw [← he, ← hlv] at hslide
    refine ⟨by rw [he, hlv] at hslide; exact hslide, by rw [hw, hslide], ?_⟩
    have hif : (if l'.window_sum + e - lv > seg'.n_vocal_windows then (1 : Int) else 0) =
        (if (range_sum vw seg.min_buffer_len.toNat (l'.ptr - seg.min_buffer_len + 1) : ℚ) >
          seg.perc_vocal_windows * (seg.min_buffer_len : ℚ) then (1 : Int) else 0) := by
      rw [hslide, f7]
      by_cases hgt : range_sum vw seg.min_buffer_len.toNat (l'.ptr - seg.min_buffer_len + 1)
          > seg.n_vocal_windows
      · rw [if_pos hgt, if_pos ((hthr _).1.mp hgt)]
      · rw [if_neg hgt, if_neg (fun h => hgt ((hthr _).1.mpr h))]
    rw [hif, f5] at hcase
    rcases hcase with ⟨hc, -, hcv, -, -, htr⟩ | ⟨hc, hcv, -, htr, -⟩
    · exact Or.inr ⟨hc, hcv, htr⟩
    · exact Or.inl ⟨hc, hcv, htr⟩

/-- The rolling-sum theorem applied to the default segmentor and the mask of 29 silent, 29
voiced and 29 silent windows. -/
theorem rolling_sum_majority_witness :
    initial_sum (silence_voice_silence 29 29 29)
        (default_segmentor (plain_env 0 none)).min_buffer_len.toNat 0 0 =
      Except.ok (range_sum (silence_voice_silence 29 29 29)
        (default_segmentor (plain_env 0 none)).min_buffer_len.toNat 0) ∧
    range_sum (silence_voice_silence 29 29 29) 28 (34 - 28 + 1) = 6 :=
  ⟨(rolling_sum_majority (plain_env 0 none) (default_segmentor (plain_env 0 none))
      (silence_voice_silence 29 29 29) (by decide!) (by decide!) (by decide!)
      (by decide!)).1,
   by decide⟩

/-! ## Index safety -/

/-- The loop of `split_array` with its initial sum, in `env` and with every destination
opening. -/
theorem split_run_lockstep {env : Env} {seg s : AudioSegmentor} {vw : List Int} {l : Locals}
    (h : split_run (open_all env) seg vw = Except.ok (s, l)) :
    lockstep env seg s (split_run env seg vw) (s, l) := by
  obtain ⟨ws, hws, -⟩ := split_run_inv h
  rw [split_run_eq_loop _ seg vw ws hws] at h
  rw [split_run_eq_loop env seg vw ws hws]
  exact split_loop_lockstep env vw _ _ _ _ _ h

/-- Writing a segment reads no mask element. -/
theorem save_vocals_in_range {env : Env} {seg : AudioSegmentor} {a b : Int} :
    save_vocals env seg a b ≠ Except.error Fault.out_of_range := by
  unfold save_vocals
  simp only
  split
  · intro h; cases h
  · split <;> intro h <;> cases h

/-- C19. Index safety of the segmentation state machine.  With `hop_length ≥ 1`,
`min_buffer_len = ⌊min_vocal_length * processing_sr / hop_length⌋` and a mask of length at
least `min_buffer_len`, no call of `split_array` reads a mask element outside the mask
(neither in the initial sum, nor in the rolling update, nor in the backward scans).  With
every destination opening the loop does run to the end of the mask, so every read is made,
and the call then returns normally unless the end-of-chunk flush has a negative range and
throws `std::bad_array_new_length`.  Every committed transition, and so every call of a
backward scan, is at an index above `min_buffer_len`, where the scan, which reads down to
`curr_idx - min_buffer_len - 1`, stays inside the mask. -/
theorem split_array_index_safety (env : Env) (seg : AudioSegmentor) (vw : List Int)
    (hfftp : seg.fftp = get_fft_params_from_sr seg.processing_sr)
    (hhop : 1 ≤ seg.fftp.hop_length)
    (hm : seg.min_buffer_len =
      ⌊seg.min_vocal_length * (seg.processing_sr : ℚ) / (seg.fftp.hop_length : ℚ)⌋)
    (hlen : seg.min_buffer_len ≤ (vw.length : Int)) :
    split_array env seg vw ≠ Except.error Fault.out_of_range ∧
    split_run env seg vw ≠ Except.error Fault.out_of_range ∧
    (∃ s l, split_run (open_all env) seg vw = Except.ok (s, l) ∧
      ((∃ s', split_array (open_all env) seg vw = Except.ok s') ∨
       (l.curr_vocal ≠ 0 ∧
        l.ptr * s.fftp.hop_length < l.curr_start_idx * s.fftp.hop_length ∧
        split_array (open_all env) seg vw =
          Except.error (Fault.bad_array_new_length s)))) ∧
    (∀ s l, split_run env seg vw = Except.ok (s, l) →
      ∀ t ∈ l.transitions, seg.min_buffer_len + 1 ≤ t.1 ∧ t.1 < (vw.length : Int)) ∧
    (∀ curr_idx : Int, 0 ≤ seg.min_buffer_len → seg.min_buffer_len + 1 ≤ curr_idx →
      curr_idx < (vw.length : Int) →
      (∃ b, get_sil_start_idx seg vw curr_idx = Except.ok b) ∧
      (∃ b, get_vocal_start_idx seg vw curr_idx = Except.ok b)) := by
  have hsr : 0 < seg.processing_sr := sr_pos_of_hop_pos _ (by rw [← hfftp]; exact hhop)
  obtain ⟨s0, l0, hrun0, -⟩ :=
    @split_run_total (open_all env) seg vw hhop hsr hm hlen (fun _ => rfl)
  have hrun : split_run env seg vw ≠ Except.error Fault.out_of_range := by
    obtain ⟨new, -, hall, hnot⟩ := split_run_lockstep hrun0
    by_cases ha : ∀ c ∈ new, opens env c = true
    · rw [hall ha]
      intro h; cases h
    · obtain ⟨st, hst, -, -⟩ := hnot ha
      rw [hst]
      intro h; cases h
  have harr : split_array env seg vw ≠ Except.error Fault.out_of_range := by
    unfold split_array
    cases hr : split_run env seg vw with
    | error e =>
      simp only
      intro h
      injection h with h
      exact hrun (by rw [hr, h])
    | ok r =>
      obtain ⟨s, l⟩ := r
      simp only
      by_cases hv : l.curr_vocal ≠ 0
      · rw [if_pos hv]
        cases hsv : save_vocals env s l.curr_start_idx l.ptr with
        | error e =>
          simp only
          intro h
          injection h with h
          exact save_vocals_in_range (by rw [hsv, h])
        | ok saved => simp only; intro h; cases h
      · rw [if_neg hv]
        intro h; cases h
  have hflush : (∃ s', split_array (open_all env) seg vw = Except.ok s') ∨
      (l0.curr_vocal ≠ 0 ∧
        l0.ptr * s0.fftp.hop_length < l0.curr_start_idx * s0.fftp.hop_length ∧
        split_array (open_all env) seg vw =
          Except.error (Fault.bad_array_new_length s0)) := by
    rcases @split_array_flush (open_all env) seg s0 vw l0 hrun0 rfl with h | h | h
    · exact Or.inl ⟨_, h.2⟩
    · exact Or.inl h.2.2
    · exact Or.inr h
  refine ⟨harr, hrun, ⟨s0, l0, hrun0, hflush⟩, ?_, ?_⟩
  · intro s l h t ht
    obtain ⟨-, -, hmem, -⟩ := split_run_hysteresis hhop hsr hm h
    obtain ⟨ws, -, hloop⟩ := split_run_inv h
    have hmax := split_loop_invariant
      (fun _ l => l.ptr ≤ (vw.length : Int) ∧ ∀ t ∈ l.transitions, t.1 < (vw.length : Int))
      (fun s l s' l' hi _ hlt hstep => by
        obtain ⟨_, _, _, _, hp, _, hk | hk⟩ := split_step_inv hstep
        · exact ⟨by omega, by rw [hk.2.2.2.2.2]; exact hi.2⟩
        · refine ⟨by omega, ?_⟩
          rw [hk.2.2.2.1]
          intro t ht
          rcases List.mem_append.mp ht with ht | ht
          · exact hi.2 t ht
          · rw [List.mem_singleton] at ht
            rw [ht]
            exact hlt)
      vw.length seg _ s l
      ⟨by simp only [split_start]; omega, fun t ht => by cases ht⟩ hloop
    exact ⟨by have := (hmem t ht).2.2.2; omega, hmax.1.2 t ht⟩
  · intro curr_idx hm0 hi hlt
    constructor
    · obtain ⟨r, hr, -, -⟩ := scan_back_total vw 1 (curr_idx - seg.min_buffer_len)
        ((seg.min_buffer_len + 1).toNat + 1) curr_idx (by omega) hlt (by omega) (by omega)
        (by push_cast; omega)
      exact ⟨_, by unfold get_sil_start_idx; rw [hr]⟩
    · obtain ⟨r, hr, -, -⟩ := scan_back_total vw 0 (curr_idx - seg.min_buffer_len)
        ((seg.min_buffer_len + 1).toNat + 1) curr_idx (by omega) hlt (by omega) (by omega)
        (by push_cast; omega)
      exact ⟨_, by unfold get_vocal_start_idx; rw [hr]⟩

/-- The index-safety theorem applied to the default segmentor and the mask of 29 silent, 29
voiced and 29 silent windows. -/
theorem split_array_index_safety_witness :
    split_array (plain_env 0 none) (default_segmentor (plain_env 0 none))
      (silence_voice_silence 29 29 29) ≠ Except.error Fault.out_of_range ∧
    split_run (plain_env 0 none) (default_segmentor (plain_env 0 none))
      (silence_voice_silence 29 29 29) ≠ Except.error Fault.out_of_range ∧
    (∃ s l, split_run (open_all (plain_env 0 none)) (default_segmentor (plain_env 0 none))
        (silence_voice_silence 29 29 29) = Except.ok (s, l) ∧
      ((∃ s', split_array (open_all (plain_env 0 none))
          (default_segmentor (plain_env 0 none)) (silence_voice_silence 29 29 29) =
            Except.ok s') ∨
       (l.curr_vocal ≠ 0 ∧
        l.ptr * s.fftp.hop_length < l.curr_start_idx * s.fftp.hop_length ∧
        split_array (open_all (plain_env 0 none)) (default_segmentor (plain_env 0 none))
          (silence_voice_silence 29 29 29) =
            Except.error (Fault.bad_array_new_length s)))) ∧
    (∀ s l, split_run (plain_env 0 none) (default_segmentor (plain_env 0 none))
        (silence_voice_silence 29 29 29) = Except.ok (s, l) →
      ∀ t ∈ l.transitions, (default_segmentor (plain_env 0 none)).min_buffer_len + 1 ≤ t.1 ∧
        t.1 < ((silence_voice_silence 29 29 29).length : Int)) ∧
    (∀ curr_idx : Int, 0 ≤ (default_segmentor (plain_env 0 none)).min_buffer_len →
      (default_segmentor (plain_env 0 none)).min_buffer_len + 1 ≤ curr_idx →
      curr_idx < ((silence_voice_silence 29 29 29).length : Int) →
      (∃ b, get_sil_start_idx (default_segmentor (plain_env 0 none))
        (silence_voice_silence 29 29 29) curr_idx = Except.ok b) ∧
      (∃ b, get_vocal_start_idx (default_segmentor (plain_env 0 none))
        (silence_voice_silence 29 29 29) curr_idx = Except.ok b)) :=
  split_array_index_safety (plain_env 0 none) (default_segmentor (plain_env 0 none))
    (silence_voice_silence 29 29 29) (by decide!) (by decide!) (by decide!) (by decide!)

/-- The end-of-chunk flush can have a negative range: with the default parameters and the
mask of 23 silent, 6 voiced and 1 silent windows, the transition to voice is committed at
window 29 with the start of the segment at window 32, the loop ends at window 30, and the
flush `save_vocals(32, 30)` throws `std::bad_array_new_length`; no mask element outside the
mask is read. -/
theorem split_array_flush_negative_range :
    (split_run (plain_env 0 none) (default_segmentor (plain_env 0 none))
      (silence_voice_silence 23 6 1)).map
        (fun r => (r.2.curr_vocal, r.2.curr_start_idx, r.2.ptr, r.2.transitions.map Prod.fst)) =
      Except.ok (1, 32, 30, [29]) ∧
    split_array (plain_env 0 none) (default_segmentor (plain_env 0 none))
        (silence_voice_silence 23 6 1) =
      Except.error (Fault.bad_array_new_length (default_segmentor (plain_env 0 none))) := by
  decide!

/-! ## Ordering of the segments -/

theorem ordered_append_singleton {clips : List Clip} {c : Clip} (h : ordered clips)
    (hc : ∀ d ∈ clips, d.end_sample ≤ c.start_sample) : ordered (clips ++ [c]) := by
  unfold ordered at h ⊢
  rw [List.chain'_append]
  refine ⟨h, List.chain'_singleton _, ?_⟩
  intro x hx y hy
  simp only [List.head?_cons, Option.mem_def, Option.some.injEq] at hy
  subst hy
  exact hc x (List.mem_of_getLast?_eq_some hx)

/-- Every iteration of the loop of `split_array` preserves the ordering invariant. -/
theorem split_step_order {env : Env} {vw : List Int} {seg s s' : AudioSegmentor}
    {l l' : Locals} {committed : List Clip}
    (hhop : 1 ≤ seg.fftp.hop_length) (hsr : 0 < seg.processing_sr)
    (hm : seg.min_buffer_len =
      ⌊seg.min_vocal_length * (seg.processing_sr : ℚ) / (seg.fftp.hop_length : ℚ)⌋)
    (hm2 : 2 ≤ seg.min_buffer_len) (hpad : seg.window_pad = 3)
    (hcfg : same_config seg s)
    (hinv : hysteresis_inv (hop_duration seg) seg.min_vocal_length seg.min_buffer_len l)
    (hw : s.written = seg.written ++ committed)
    (ho : order_inv seg.fftp.hop_length l committed)
    (h : split_step env vw s l = Except.ok (s', l')) :
    ∃ committed', s'.written = seg.written ++ committed' ∧
      order_inv seg.fftp.hop_length l' committed' := by
  obtain ⟨-, f2, -, f4, f5, f6, -, -, -, f10⟩ := same_config_fields hcfg
  obtain ⟨hord, hse, h01, hvoice, hsil⟩ := ho
  have hhop0 : (0 : Int) ≤ seg.fftp.hop_length := by omega
  obtain ⟨e, lv, -, -, hp, -, hk | ⟨hc, hcv, -, ht', hbr⟩⟩ := split_step_inv h
  · obtain ⟨-, hs, hcv, hcs, -, ht'⟩ := hk
    refine ⟨committed, by rw [hs]; exact hw, hord, hse, by rw [hcv]; exact h01, ?_, ?_⟩
    · rw [hcv, hcs, ht']; exact hvoice
    · rw [hcv, ht']; exact hsil
  · have hgap : seg.min_buffer_len + 1 ≤ l.ptr - last_transition l.transitions := by
      apply run_exceeds_min hhop hsr hm
      have := hc.2
      rw [hinv.1, f5] at this
      exact this
    have hv01 : (if l.window_sum + e - lv > s.n_vocal_windows then (1 : Int) else 0) = 0 ∨
        (if l.window_sum + e - lv > s.n_vocal_windows then (1 : Int) else 0) = 1 := by
      by_cases hcc : l.window_sum + e - lv > s.n_vocal_windows
      · right; rw [if_pos hcc]
      · left; rw [if_neg hcc]
    generalize (if l.window_sum + e - lv > s.n_vocal_windows then (1 : Int) else 0) = vocal
      at hc hcv hv01
    have hne := hc.1
    rcases hbr with ⟨hv, vocal_end, saved, hge, hsv, hs, hcs⟩ | ⟨hv, hs, sil_end, hge, hcs⟩
    · have hv1 : l.curr_vocal = 1 := by omega
      have hvoc0 : l'.curr_vocal = 0 := by omega
      obtain ⟨hst, hce⟩ := hvoice hv1
      obtain ⟨hb1, hb2⟩ := get_sil_start_idx_bounds hge
      rw [f4, hpad] at hb2
      obtain ⟨-, hsaved⟩ := save_vocals_inv hsv
      have hstart_le : l.curr_start_idx * seg.fftp.hop_length ≤
          vocal_end * seg.fftp.hop_length :=
        Int.mul_le_mul_of_nonneg_right (by omega) hhop0
      have hend_le : vocal_end * seg.fftp.hop_length ≤
          (l.ptr + 3) * seg.fftp.hop_length :=
        Int.mul_le_mul_of_nonneg_right (by omega) hhop0
      refine ⟨committed ++
        [{ fname := get_save_filename s, split := s.n_vocal_splits,
           start_sample := l.curr_start_idx * seg.fftp.hop_length,
           end_sample := vocal_end * seg.fftp.hop_length }], ?_, ?_, ?_, ?_, ?_, ?_⟩
      · rw [hs, hsaved]
        simp only
        rw [hw, f10, List.append_assoc]
      · exact ordered_append_singleton hord (fun d hd => hce d hd)
      · intro c hcm
        rcases List.mem_append.mp hcm with hcm | hcm
        · exact hse c hcm
        · rw [List.mem_singleton] at hcm
          rw [hcm]
          exact hstart_le
      · left
        exact hvoc0
      · intro h1
        omega
      · intro _
        rw [ht', last_transition_append]
        intro c hcm
        rcases List.mem_append.mp hcm with hcm | hcm
        · exact le_trans (hce c hcm) (le_trans hstart_le hend_le)
        · rw [List.mem_singleton] at hcm
          rw [hcm]
          exact hend_le
    · have hvoc1 : l'.curr_vocal = 1 := by omega
      obtain ⟨hb1, hb2⟩ := get_vocal_start_idx_bounds hge
      rw [f4, hpad] at hb2
      have hce := hsil hv
      have hlow : (last_transition l.transitions + 3) * seg.fftp.hop_length ≤
          sil_end * seg.fftp.hop_length :=
        Int.mul_le_mul_of_nonneg_right (by omega) hhop0
      refine ⟨committed, by rw [hs]; exact hw, hord, hse, Or.inr hvoc1, ?_, ?_⟩
      · intro _
        rw [ht', last_transition_append, hcs]
        refine ⟨by simp only; omega, ?_⟩
        intro c hcm
        exact le_trans (hce c hcm) hlow
      · intro h0
        omega

/-- The ordering invariant holds before the first iteration. -/
theorem split_start_order (seg : AudioSegmentor) (ws : Int) :
    order_inv seg.fftp.hop_length (split_start seg ws) [] := by
  refine ⟨List.chain'_nil, fun c hc => (by cases hc), ?_, ?_, ?_⟩
  · simp only [split_start]
    by_cases hcc : ws > seg.n_vocal_windows
    · right; rw [if_pos hcc]
    · left; rw [if_neg hcc]
  · intro _
    refine ⟨by simp [split_start, last_transition], fun c hc => (by cases hc)⟩
  · intro _ c hc
    cases hc

/-- A normal return of `split_run` ends in a state that satisfies the ordering invariant. -/
theorem split_run_order {env : Env} {seg s : AudioSegmentor} {vw : List Int} {l : Locals}
    (hhop : 1 ≤ seg.fftp.hop_length) (hsr : 0 < seg.processing_sr)
    (hm : seg.min_buffer_len =
      ⌊seg.min_vocal_length * (seg.processing_sr : ℚ) / (seg.fftp.hop_length : ℚ)⌋)
    (hm2 : 2 ≤ seg.min_buffer_len) (hpad : seg.window_pad = 3)
    (h : split_run env seg vw = Except.ok (s, l)) :
    same_config seg s ∧ ∃ committed, s.written = seg.written ++ committed ∧
      order_inv seg.fftp.hop_length l committed := by
  obtain ⟨ws, -, hl⟩ := split_run_inv h
  have key := (split_loop_invariant
    (fun s l => same_config seg s ∧
      hysteresis_inv (hop_duration seg) seg.min_vocal_length seg.min_buffer_len l ∧
      ∃ committed, s.written = seg.written ++ committed ∧
        order_inv seg.fftp.hop_length l committed)
    (fun s l s' l' hi hp _ hstep =>
      ⟨same_config_trans hi.1 (split_step_same_config hstep),
       split_step_hysteresis_from hhop hsr hm hi.1 hi.2.1 hp hstep,
       hi.2.2.elim fun committed hco =>
         split_step_order hhop hsr hm hm2 hpad hi.1 hi.2.1 hco.1 hco.2 hstep⟩)
    vw.length seg _ s l
    ⟨same_config_refl _, split_start_hysteresis seg ws, [], by simp,
      split_start_order seg ws⟩ hl).1
  exact ⟨key.1, key.2.2⟩

/-- C20. Segments of one chunk are emitted in order and do not overlap.  With
`hop_length ≥ 1`, `min_buffer_len = ⌊min_vocal_length * processing_sr / hop_length⌋ ≥ 2`,
`window_pad = 3` and a mask of length at least `min_buffer_len`: the loop of `split_array`
runs to the end of the mask when every destination opens; whenever the loop returns, the
clips it committed on a voice-to-silence transition are in order, each one starting at or
after the end of the one before, and each one ends no earlier than it starts; and whenever
`split_array` returns normally, the clips it emitted (those committed in the loop, followed
by the end-of-chunk flush `[curr_start_idx, ptr)` if the loop ended in voice) are in
order. -/
theorem split_array_segments_ordered (env : Env) (seg : AudioSegmentor) (vw : List Int)
    (hfftp : seg.fftp = get_fft_params_from_sr seg.processing_sr)
    (hhop : 1 ≤ seg.fftp.hop_length)
    (hm : seg.min_buffer_len =
      ⌊seg.min_vocal_length * (seg.processing_sr : ℚ) / (seg.fftp.hop_length : ℚ)⌋)
    (hm2 : 2 ≤ seg.min_buffer_len) (hpad : seg.window_pad = 3)
    (hlen : seg.min_buffer_len ≤ (vw.length : Int)) :
    (∃ s l, split_run (open_all env) seg vw = Except.ok (s, l)) ∧
    (∀ s l, split_run env seg vw = Except.ok (s, l) →
      ∃ committed, s.written = seg.written ++ committed ∧ ordered committed ∧
        ∀ c ∈ committed, c.start_sample ≤ c.end_sample) ∧
    ∀ seg', split_array env seg vw = Except.ok seg' →
      ∃ s l committed emitted, split_run env seg vw = Except.ok (s, l) ∧
        s.written = seg.written ++ committed ∧
        seg'.written = seg.written ++ emitted ∧
        (l.curr_vocal = 0 ∧ emitted = committed ∨
         l.curr_vocal ≠ 0 ∧ ∃ flush : Clip, emitted = committed ++ [flush] ∧
           flush.start_sample = l.curr_start_idx * seg.fftp.hop_length ∧
           flush.end_sample = l.ptr * seg.fftp.hop_length) ∧
        ordered emitted ∧
        ∀ c ∈ committed, c.start_sample ≤ c.end_sample := by
  have hsr : 0 < seg.processing_sr := sr_pos_of_hop_pos _ (by rw [← hfftp]; exact hhop)
  refine ⟨?_, ?_, ?_⟩
  · obtain ⟨s, l, h, -⟩ :=
      @split_run_total (open_all env) seg vw hhop hsr hm hlen (fun _ => rfl)
    exact ⟨s, l, h⟩
  · intro s l hrun
    obtain ⟨-, committed, hw, hord, hse, -⟩ := split_run_order hhop hsr hm hm2 hpad hrun
    exact ⟨committed, hw, hord, hse⟩
  intro seg' h
  obtain ⟨s, l, hrun, hcase⟩ := split_array_inv h
  obtain ⟨hcfg, committed, hw, hord, hse, h01, hvoice, -⟩ :=
    split_run_order hhop hsr hm hm2 hpad hrun
  obtain ⟨-, -, -, -, -, -, -, -, -, f10⟩ := same_config_fields hcfg
  rcases hcase with ⟨hv, saved, hsv, hs'⟩ | ⟨hv, hs'⟩
  · obtain ⟨-, hsaved⟩ := save_vocals_inv hsv
    refine ⟨s, l, committed, committed ++
      [{ fname := get_save_filename s, split := s.n_vocal_splits,
         start_sample := l.curr_start_idx * seg.fftp.hop_length,
         end_sample := l.ptr * seg.fftp.hop_length }], hrun, hw, ?_,
      Or.inr ⟨hv, _, rfl, rfl, rfl⟩, ?_, hse⟩
    · rw [hs', hsaved]
      simp only
      rw [hw, f10, List.append_assoc]
    · exact ordered_append_singleton hord (hvoice (by omega)).2
  · exact ⟨s, l, committed, committed, hrun, hw, by rw [hs']; exact hw, Or.inl ⟨hv, rfl⟩,
      hord, hse⟩

/-- The ordering theorem applied to the default segmentor and the mask of the profile
`two_regions`. -/
theorem split_array_segments_ordered_witness :
    (∃ s l, split_run (open_all (plain_env 0 none)) (default_segmentor (plain_env 0 none))
      (get_vocal_windows (some two_regions)) = Except.ok (s, l)) ∧
    (∀ s l, split_run (plain_env 0 none) (default_segmentor (plain_env 0 none))
        (get_vocal_windows (some two_regions)) = Except.ok (s, l) →
      ∃ committed, s.written = (default_segmentor (plain_env 0 none)).written ++ committed ∧
        ordered committed ∧ ∀ c ∈ committed, c.start_sample ≤ c.end_sample) ∧
    ∀ seg', split_array (plain_env 0 none) (default_segmentor (plain_env 0 none))
        (get_vocal_windows (some two_regions)) = Except.ok seg' →
      ∃ s l committed emitted,
        split_run (plain_env 0 none) (default_segmentor (plain_env 0 none))
          (get_vocal_windows (some two_regions)) = Except.ok (s, l) ∧
        s.written = (default_segmentor (plain_env 0 none)).written ++ committed ∧
        seg'.written = (default_segmentor (plain_env 0 none)).written ++ emitted ∧
        (l.curr_vocal = 0 ∧ emitted = committed ∨
         l.curr_vocal ≠ 0 ∧ ∃ flush : Clip, emitted = committed ++ [flush] ∧
           flush.start_sample =
             l.curr_start_idx * (default_segmentor (plain_env 0 none)).fftp.hop_length ∧
           flush.end_sample =
             l.ptr * (default_segmentor (plain_env 0 none)).fftp.hop_length) ∧
        ordered emitted ∧
        ∀ c ∈ committed, c.start_sample ≤ c.end_sample :=
  split_array_segments_ordered (plain_env 0 none) (default_segmentor (plain_env 0 none))
    (get_vocal_windows (some two_regions)) (by decide!) (by decide!) (by decide!)
    (by decide!) (by decide!) (by decide!)

/-- On the mask of the profile `two_regions` the default segmentor emits two clips, the
second starting after the end of the first. -/
theorem split_array_two_regions_clips :
    (split_array (plain_env 0 none) (default_segmentor (plain_env 0 none))
      (get_vocal_windows (some two_regions))).map
        (fun s => s.written.map (fun c => (c.start_sample, c.end_sample))) =
      Except.ok [(2890, 6800), (9265, 11730)] := by
  decide!

end AudioSlicer
